import Mathlib

/-!
Verification development for the scmstore file-fetch orchestrator
(`revisionstore/src/scmstore/file.rs`) and the rendezvous batching
coalescer (`common/rendezvous/src/rendez_vous.rs`).

The Rust code is shallowly embedded: hash maps and hash sets become
association lists and lists, byte strings become `List Nat`, fallible
calls become `Except`, and the optional backend stores of `FileStore`
become `Option`-valued fields over small executable store models.
Logging and statistics fields of the source (`fetch_logger`,
`ContentStoreFallbacks`, tracing spans) are omitted: they have no
effect on any state or result.  Two ghost fields (`probes`, `queries`)
instrument the orchestrator with the sequence of tier probes and the
per-tier queried key lists; they are write-only and never influence
behaviour.
-/

namespace Scmstore

/-- Error values; the text of Rust `anyhow::Error` values is irrelevant,
so errors are modelled as numeric codes. -/
abbrev Err := Nat

/-- Byte strings (`minibytes::Bytes`, `Vec<u8>`) as lists of naturals. -/
abbrev Bytes := List Nat

/-- A file key: `(path, hgid)` pair (`types::Key`); both components are
modelled as naturals since only equality matters to the orchestrator. -/
structure Key where
  path : Nat
  hgid : Nat
deriving DecidableEq, Repr

/-- First-match lookup in an association list (`HashMap::get`). -/
def alookup {α β : Type} [DecidableEq α] : List (α × β) → α → Option β
  | [], _ => none
  | (a, b) :: rest, x => if x = a then some b else alookup rest x

/-- Remove every binding of a key (`HashMap::remove`). -/
def aerase {α β : Type} [DecidableEq α] : List (α × β) → α → List (α × β)
  | [], _ => []
  | (a, b) :: rest, x => if a = x then aerase rest x else (a, b) :: aerase rest x

/-- Insert-or-replace a binding (`HashMap::insert`). -/
def ainsert {α β : Type} [DecidableEq α] (l : List (α × β)) (x : α) (b : β) : List (α × β) :=
  (x, b) :: aerase l x

/-- Insert a binding only when the key is absent (`Entry::or_insert`). -/
def aorinsert {α β : Type} [DecidableEq α] (l : List (α × β)) (x : α) (b : β) : List (α × β) :=
  if (alookup l x).isSome then l else (x, b) :: l

/-- Append one element to the list stored under a key, creating the
binding when absent (`entry(key).or_insert_with(Vec::new).push(err)`). -/
def apush {α β : Type} [DecidableEq α] (l : List (α × List β)) (x : α) (b : β) : List (α × List β) :=
  match alookup l x with
  | some bs => ainsert l x (bs ++ [b])
  | none => ainsert l x [b]

/-- Add an element to a list used with set semantics (`HashSet::insert`). -/
def insertSet {α : Type} [DecidableEq α] (l : List α) (x : α) : List α :=
  if x ∈ l then l else l ++ [x]

/-- The attribute lattice over `{content, aux_data}` (`FileAttributes`). -/
structure FileAttributes where
  content : Bool
  aux_data : Bool
deriving DecidableEq, Repr

/-- The empty attribute set (`FileAttributes::NONE`). -/
def FileAttributes.NONE : FileAttributes := { content := false, aux_data := false }

/-- Content only (`FileAttributes::CONTENT`). -/
def FileAttributes.CONTENT : FileAttributes := { content := true, aux_data := false }

/-- Aux data only (`FileAttributes::AUX`). -/
def FileAttributes.AUX : FileAttributes := { content := false, aux_data := true }

/-- Intersection of attribute sets (`impl BitAnd for FileAttributes`). -/
def FileAttributes.band (a b : FileAttributes) : FileAttributes :=
  { content := a.content && b.content, aux_data := a.aux_data && b.aux_data }

/-- Union of attribute sets (`impl BitOr for FileAttributes`). -/
def FileAttributes.bor (a b : FileAttributes) : FileAttributes :=
  { content := a.content || b.content, aux_data := a.aux_data || b.aux_data }

/-- Complement (`impl Not for FileAttributes`). -/
def FileAttributes.bnot (a : FileAttributes) : FileAttributes :=
  { content := !a.content, aux_data := !a.aux_data }

/-- Set difference (`impl Sub for FileAttributes`): `self & !rhs`. -/
def FileAttributes.sub (a b : FileAttributes) : FileAttributes :=
  a.band b.bnot

/-- True when no attribute is set (`FileAttributes::none`, which
compares with `NONE`); spelled out field-wise. -/
def FileAttributes.none_b (a : FileAttributes) : Bool :=
  !a.content && !a.aux_data

/-- True when at least one attribute is set (`FileAttributes::any`). -/
def FileAttributes.any_b (a : FileAttributes) : Bool :=
  a.content || a.aux_data

/-- True when all attributes of `attrs` are present in `self`
(`FileAttributes::has`): `(attrs - *self).none()`. -/
def FileAttributes.has (self attrs : FileAttributes) : Bool :=
  (attrs.sub self).none_b

/-- Attributes present or computable from present ones
(`FileAttributes::with_computable`): content implies aux_data. -/
def FileAttributes.with_computable (a : FileAttributes) : FileAttributes :=
  if a.content then a.bor FileAttributes.AUX else a

/-- File metadata (`revisionstore::Metadata`); modelled from the spec:
the type lives outside this crate, entries carry a size and an
"is an LFS pointer" flag, queried through `Metadata::is_lfs`. -/
structure Metadata where
  size : Option Nat
  is_lfs : Bool
deriving DecidableEq, Repr

/-- Default metadata (`Metadata::default()`): no size, not LFS. -/
def Metadata.default : Metadata := { size := none, is_lfs := false }

/-- Auxiliary derived data (`FileAuxData`): currently just the content
sha256. -/
structure FileAuxData where
  content_sha256 : Nat
deriving DecidableEq, Repr

/-- Content hashing (`ContentHash::sha256`); modelled from the spec:
the hash implementation is external, so an arbitrary executable
stand-in digest over the bytes is used.  All claims involve only that
the same function is applied to the same bytes. -/
def ContentHash.sha256 (b : Bytes) : Nat :=
  b.foldl (fun acc x => acc * 1000003 + x + 1) 7

/-- An indexedlog entry (`indexedlogdatastore::Entry`); modelled from
the spec: entries carry a key, content bytes and metadata.  The real
`content()` decompresses and is fallible; decompression is out of
scope, so content access is the identity. -/
structure Entry where
  key : Key
  bytes : Bytes
  meta : Metadata
deriving DecidableEq, Repr

/-- Construct an entry (`Entry::new`). -/
def Entry.new (key : Key) (bytes : Bytes) (meta : Metadata) : Entry :=
  { key := key, bytes := bytes, meta := meta }

/-- Entry content (`Entry::content`), total in this model. -/
def Entry.content (e : Entry) : Bytes := e.bytes

/-- Entry metadata accessor (`Entry::metadata`). -/
def Entry.metadata (e : Entry) : Metadata := e.meta

/-- Replace the key of an entry (`Entry::with_key`). -/
def Entry.with_key (e : Entry) (k : Key) : Entry := { e with key := k }

/-- A large-file pointer (`LfsPointersEntry`); modelled from the spec:
`{content_hash (sha256), size, hgid}`. -/
structure LfsPointersEntry where
  sha : Nat
  size : Nat
  hgid : Nat
deriving DecidableEq, Repr

/-- Pointer content hash accessor (`LfsPointersEntry::sha256`). -/
def LfsPointersEntry.sha256 (p : LfsPointersEntry) : Nat := p.sha

/-- Parse a serialized pointer (`LfsPointersEntry::from_bytes`);
modelled from the spec: the wire format is external, so a pointer
serializes as the two-element byte list `[sha, size]` and anything
else fails to parse. -/
def LfsPointersEntry.from_bytes (b : Bytes) (hgid : Nat) : Except Err LfsPointersEntry :=
  match b with
  | [s, n] => .ok { sha := s, size := n, hgid := hgid }
  | _ => .error 100

/-- Strip the hg copy-metadata header from a blob (`strip_metadata`);
modelled from the spec: a blob starting with the marker byte pair
`1, 10` has a header terminated by the next `1, 10`. -/
def stripAfterMarker : Bytes → Bytes
  | 1 :: 10 :: rest => rest
  | _ :: rest => stripAfterMarker rest
  | [] => []

/-- File content as the working copy sees it: drop the copy header if
one is present (`strip_metadata`, first component). -/
def strip_metadata (b : Bytes) : Bytes :=
  match b with
  | 1 :: 10 :: rest => stripAfterMarker rest
  | _ => b

/-- Split an hg file blob into an LFS pointer and the LFS blob
(`lfs_from_hg_file_blob`); modelled from the spec: the stored blob is
the stripped content and the pointer records its sha256, size and the
key's hgid. -/
def lfs_from_hg_file_blob (hgid : Nat) (b : Bytes) : LfsPointersEntry × Bytes :=
  let content := strip_metadata b
  ({ sha := ContentHash.sha256 content, size := content.length, hgid := hgid }, content)

/-- Serialize aux data (`serde_json::to_vec` of `FileAuxData`);
modelled from the spec: the encoding is external, a one-element list
suffices. -/
def serializeAux (a : FileAuxData) : Bytes := [a.content_sha256]

/-- Parse aux data (`serde_json::from_slice`); inverse of
`serializeAux`, failing on any other shape. -/
def parseAux (b : Bytes) : Except Err FileAuxData :=
  match b with
  | [x] => .ok { content_sha256 := x }
  | _ => .error 101

/-- A memcache entry (`memcache::McData`); modelled from the spec:
key, data bytes and metadata. -/
structure McData where
  key : Key
  data : Bytes
  metadata : Metadata
deriving DecidableEq, Repr

/-- A remote-API file entry (`edenapi_types::FileEntry`); modelled from
the spec: key, data bytes and metadata; `data()` revalidation is out
of scope and always succeeds. -/
structure FileEntry where
  key : Key
  data : Bytes
  metadata : Metadata
deriving DecidableEq, Repr

/-- Store lookup key (`StoreKey`): by hg key or by content hash. -/
inductive StoreKey where
  | hgid (k : Key)
  | content (sha : Nat) (k : Option Key)
deriving DecidableEq, Repr

/-- Extract the hg key when present (`StoreKey::maybe_into_key`). -/
def StoreKey.maybe_into_key : StoreKey → Option Key
  | .hgid k => some k
  | .content _ k => k

/-- Policy for externally-stored (LFS) entries (`ExtStoredPolicy`). -/
inductive ExtStoredPolicy where
  | Use
  | Ignore
deriving DecidableEq, Repr

/-- Tier tag of a writeable store (`LocalStoreType`). -/
inductive LocalStoreType where
  | Local
  | Cache
deriving DecidableEq, Repr

/-- Lazily-decoded file payloads by origin tier (`enum LazyFile`). -/
inductive LazyFile where
  | contentStore (bytes : Bytes) (meta : Metadata)
  | indexedLog (entry : Entry)
  | lfs (blob : Bytes) (ptr : LfsPointersEntry)
  | edenApi (entry : FileEntry)
  | memcache (entry : McData)
deriving DecidableEq, Repr

/-- File content stripped of the copy header (`LazyFile::file_content`);
total in this model since decoding is out of scope. -/
def LazyFile.file_content : LazyFile → Bytes
  | .indexedLog e => strip_metadata e.content
  | .lfs blob _ => blob
  | .contentStore blob _ => strip_metadata blob
  | .edenApi e => strip_metadata e.data
  | .memcache e => strip_metadata e.data

/-- Aux data computed from the payload (`LazyFile::aux_data`): LFS
variants read the sha256 off the pointer, all others hash the file
content. -/
def LazyFile.aux_data (f : LazyFile) : FileAuxData :=
  match f with
  | .lfs _ ptr => { content_sha256 := ptr.sha256 }
  | _ => { content_sha256 := ContentHash.sha256 f.file_content }

/-- Convert to an indexedlog cache entry when this payload may be
written to the indexedlog cache (`LazyFile::indexedlog_cache_entry`);
LFS and legacy payloads must not be cached by this path. -/
def LazyFile.indexedlog_cache_entry (f : LazyFile) (key : Key) : Option Entry :=
  match f with
  | .indexedLog e => some (e.with_key key)
  | .edenApi e => some (Entry.new key e.data e.metadata)
  | .memcache e => some ((Entry.new e.key e.data e.metadata).with_key key)
  | .lfs _ _ => none
  | .contentStore _ _ => none

/-- A bundle of found attributes for one key (`StoreFile`). -/
structure StoreFile where
  content : Option LazyFile
  aux_data : Option FileAuxData
deriving DecidableEq, Repr

/-- The attributes present in this `StoreFile` (`StoreFile::attrs`). -/
def StoreFile.attrs (sf : StoreFile) : FileAttributes :=
  { content := sf.content.isSome, aux_data := sf.aux_data.isSome }

/-- Keep only the requested attribute subset (`StoreFile::mask`). -/
def StoreFile.mask (sf : StoreFile) (attrs : FileAttributes) : StoreFile :=
  { content := if attrs.content then sf.content else none,
    aux_data := if attrs.aux_data then sf.aux_data else none }

/-- Left-biased union of attribute bundles (`impl BitOr for StoreFile`). -/
def StoreFile.or (a b : StoreFile) : StoreFile :=
  { content := a.content.or b.content, aux_data := a.aux_data.or b.aux_data }

/-- The empty bundle (`StoreFile::default`). -/
def StoreFile.default : StoreFile := { content := none, aux_data := none }

/-- Bundle holding just a payload (`impl From<LazyFile> for StoreFile`). -/
def StoreFile.ofFile (f : LazyFile) : StoreFile := { content := some f, aux_data := none }

/-- Bundle holding just aux data (`impl From<FileAuxData> for StoreFile`). -/
def StoreFile.ofAux (a : FileAuxData) : StoreFile := { content := none, aux_data := some a }

/-- Derive the aux data from the content (`StoreFile::compute_aux_data`);
fails when no content is available. -/
def StoreFile.compute_aux_data (sf : StoreFile) : Except Err StoreFile :=
  match sf.content with
  | none => .error 102
  | some lz => .ok { sf with aux_data := some lz.aux_data }

/-- An indexedlog-backed store (`IndexedLogHgIdDataStore`); modelled
from the spec: single-key lookup over stored entries; `broken` injects
per-key read failures and `flushErr` an optional flush failure, since
the store internals are external to the orchestrator. -/
structure IndexedLog where
  entries : List (Key × Entry)
  broken : List Key
  flushErr : Option Err
deriving DecidableEq, Repr

/-- Single-key read (`IndexedLogHgIdDataStore::get_raw_entry`). -/
def IndexedLog.get_raw_entry (s : IndexedLog) (k : Key) : Except Err (Option Entry) :=
  if k ∈ s.broken then .error 103 else .ok (alookup s.entries k)

/-- Write one entry (`put_entry`), keyed by the entry's key. -/
def IndexedLog.put_entry (s : IndexedLog) (e : Entry) : IndexedLog :=
  { s with entries := ainsert s.entries e.key e }

/-- An entry served by an LFS store (`LfsStoreEntry`). -/
inductive LfsStoreEntry where
  | pointerAndBlob (ptr : LfsPointersEntry) (blob : Bytes)
  | pointerOnly (ptr : LfsPointersEntry)
deriving DecidableEq, Repr

/-- A large-file store (`LfsStore`); modelled from the spec: a pointer
index keyed by hgid and a content-addressed blob index keyed by
sha256, plus an optional flush failure. -/
structure LfsStore where
  pointers : List (Nat × LfsPointersEntry)
  blobs : List (Nat × Bytes)
  flushErr : Option Err
deriving DecidableEq, Repr

/-- Fetch what is available for a store key (`LfsStore::fetch_available`);
modelled from the spec: resolve the pointer (by hgid or by content
hash), then pair it with the blob when the blob is present. -/
def LfsStore.fetch_available (s : LfsStore) (sk : StoreKey) : Except Err (Option LfsStoreEntry) :=
  let ptr? :=
    match sk with
    | .hgid k => alookup s.pointers k.hgid
    | .content sha _ =>
      (s.pointers.find? (fun p : Nat × LfsPointersEntry => p.2.sha = sha)).map
        (fun p : Nat × LfsPointersEntry => p.2)
  match ptr? with
  | none => .ok none
  | some ptr =>
    match alookup s.blobs ptr.sha with
    | some blob => .ok (some (.pointerAndBlob ptr blob))
    | none => .ok (some (.pointerOnly ptr))

/-- Store a blob under its content hash (`LfsStore::add_blob`). -/
def LfsStore.add_blob (s : LfsStore) (sha : Nat) (b : Bytes) : LfsStore :=
  { s with blobs := ainsert s.blobs sha b }

/-- Store a pointer under its hgid (`LfsStore::add_pointer`). -/
def LfsStore.add_pointer (s : LfsStore) (ptr : LfsPointersEntry) : LfsStore :=
  { s with pointers := ainsert s.pointers ptr.hgid ptr }

/-- The distributed memory cache (`MemcacheStore`); modelled from the
spec: batched best-effort reads; `broken` injects per-item errors and
`fail` a whole-call failure. -/
structure MemcacheStore where
  data : List (Key × (Bytes × Metadata))
  broken : List Key
  fail : Option Err
deriving DecidableEq, Repr

/-- Batched read (`MemcacheStore::get_data_iter`): one item per queried
key that the cache knows, each possibly an error. -/
def MemcacheStore.get_data_iter (s : MemcacheStore) (keys : List Key) :
    Except Err (List (Except Err McData)) :=
  match s.fail with
  | some e => .error e
  | none =>
    .ok (keys.filterMap (fun k =>
      if k ∈ s.broken then some (.error 104)
      else (alookup s.data k).map (fun d => .ok { key := k, data := d.1, metadata := d.2 })))

/-- Cache write (`MemcacheStore::add_mcdata`). -/
def MemcacheStore.add_mcdata (s : MemcacheStore) (d : McData) : MemcacheStore :=
  { s with data := ainsert s.data d.key (d.data, d.metadata) }

/-- Entry-to-McData conversion used by writeback (`Entry::try_into`);
total in this model. -/
def mcFromEntry (e : Entry) : McData :=
  { key := e.key, data := e.bytes, metadata := e.meta }

/-- The remote API file store (`EdenApiFileStore`); modelled from the
spec: a batch fetch returning entries for exactly the queried keys it
knows, or a whole-call failure. -/
structure EdenApi where
  files : List (Key × (Bytes × Metadata))
  fail : Option Err
deriving DecidableEq, Repr

/-- Batch fetch (`EdenApiFileStore::files_blocking`). -/
def EdenApi.files_blocking (s : EdenApi) (keys : List Key) : Except Err (List FileEntry) :=
  match s.fail with
  | some e => .error e
  | none =>
    .ok (keys.filterMap (fun k =>
      (alookup s.files k).map (fun d => { key := k, data := d.1, metadata := d.2 })))

/-- The remote LFS server (`LfsRemoteInner`); modelled from the spec:
content-addressed blobs streamed back per request, or a whole-call
failure. -/
structure LfsRemote where
  blobs : List (Nat × Bytes)
  fail : Option Err
deriving DecidableEq, Repr

/-- The legacy fallback store (`ContentStore`); modelled from the spec:
per-key blob and metadata lookups, `broken` injecting per-key read
failures and `prefetchErr` a batch prefetch failure. -/
structure ContentStore where
  files : List (Key × (Bytes × Metadata))
  broken : List Key
  prefetchErr : Option Err
deriving DecidableEq, Repr

/-- Blob lookup (`ContentStore::get`), keyed through the store key's
underlying hg key in this model. -/
def ContentStore.get (s : ContentStore) (sk : StoreKey) : Except Err (Option Bytes) :=
  match sk.maybe_into_key with
  | none => .ok none
  | some k =>
    if k ∈ s.broken then .error 105 else .ok ((alookup s.files k).map (·.1))

/-- Metadata lookup (`ContentStore::get_meta`). -/
def ContentStore.get_meta (s : ContentStore) (sk : StoreKey) : Except Err (Option Metadata) :=
  match sk.maybe_into_key with
  | none => .ok none
  | some k =>
    if k ∈ s.broken then .error 105 else .ok ((alookup s.files k).map (·.2))

/-- Probe/phase tags for the ghost instrumentation of a fetch. -/
inductive Tier where
  | auxCacheT
  | auxLocalT
  | ilogCacheT
  | ilogLocalT
  | lfsCacheT
  | lfsLocalT
  | memcacheT
  | edenapiT
  | lfsRemoteT
  | contentstoreT
  | deriveT
  | writebackT
deriving DecidableEq, Repr

/-- Errors accumulated during a fetch (`FetchErrors`). -/
structure FetchErrors where
  fetch_errors : List (Key × List Err)
  other_errors : List Err
deriving DecidableEq, Repr

/-- Fresh error accumulator (`FetchErrors::new`). -/
def FetchErrors.new : FetchErrors := { fetch_errors := [], other_errors := [] }

/-- Record a per-key error (`FetchErrors::keyed_error`). -/
def FetchErrors.keyed_error (es : FetchErrors) (k : Key) (e : Err) : FetchErrors :=
  { es with fetch_errors := apush es.fetch_errors k e }

/-- Record a tier-level error (`FetchErrors::other_error`). -/
def FetchErrors.other_error (es : FetchErrors) (e : Err) : FetchErrors :=
  { es with other_errors := es.other_errors ++ [e] }

/-- The per-request fetch state machine (`FetchState`).  The two final
fields are ghost instrumentation: `probes` records each tier probe the
orchestrator enters and `queries` records each key list actually sent
to a backend; neither influences behaviour. -/
structure FetchState where
  pending : List Key
  request_attrs : FileAttributes
  found : List (Key × StoreFile)
  lfs_pointers : List (Key × LfsPointersEntry)
  pointer_origin : List (Nat × LocalStoreType)
  key_origin : List (Key × LocalStoreType)
  errors : FetchErrors
  found_in_memcache : List Key
  found_in_edenapi : List Key
  computed_aux_data : List (Key × LocalStoreType)
  extstored_policy : ExtStoredPolicy
  compute_aux_data : Bool
  probes : List Tier
  queries : List (Tier × List Key)
deriving DecidableEq, Repr

/-- Ghost: log entry into a tier probe. -/
def FetchState.logProbe (st : FetchState) (t : Tier) : FetchState :=
  { st with probes := st.probes ++ [t] }

/-- Ghost: log the key list sent to a backend. -/
def FetchState.logQuery (st : FetchState) (t : Tier) (ks : List Key) : FetchState :=
  { st with queries := st.queries ++ [(t, ks)] }

/-- Record a per-key error (`FetchState` method via `self.errors`). -/
def FetchState.keyed_error (st : FetchState) (k : Key) (e : Err) : FetchState :=
  { st with errors := st.errors.keyed_error k e }

/-- Record a tier-level error. -/
def FetchState.other_error (st : FetchState) (e : Err) : FetchState :=
  { st with errors := st.errors.other_error e }

/-- Whether progress can be made on `key` by a store serving
`fetchable` (`FetchState::pending`, renamed: the source has a field of
the same name). -/
def FetchState.pending_for (st : FetchState) (key : Key) (fetchable : FileAttributes) : Bool :=
  if fetchable.none_b then false
  else
    let available := (alookup st.found key).elim FileAttributes.NONE StoreFile.attrs
    let pair :=
      if st.compute_aux_data then (available.with_computable, fetchable.with_computable)
      else (available, fetchable)
    ((st.request_attrs.sub pair.1).band pair.2).any_b

/-- Incomplete keys a store serving `fetchable` could progress
(`FetchState::pending_all`). -/
def FetchState.pending_all (st : FetchState) (fetchable : FileAttributes) : List Key :=
  if fetchable.none_b then []
  else st.pending.filter (fun k => st.pending_for k fetchable)

/-- As `pending_all` but excluding keys already resolved to an LFS
pointer (`FetchState::pending_nonlfs`). -/
def FetchState.pending_nonlfs (st : FetchState) (fetchable : FileAttributes) : List Key :=
  if fetchable.none_b then []
  else
    (st.pending.filter (fun k => (alookup st.lfs_pointers k).isNone)).filter
      (fun k => st.pending_for k fetchable)

/-- Project a key to a store key, using the content hash of a known
pointer when present (`FetchState::storekey`). -/
def FetchState.storekey (st : FetchState) (k : Key) : StoreKey :=
  match alookup st.lfs_pointers k with
  | none => .hgid k
  | some ptr => .content ptr.sha256 (some k)

/-- Incomplete keys as store keys (`FetchState::pending_storekey`). -/
def FetchState.pending_storekey (st : FetchState) (fetchable : FileAttributes) : List StoreKey :=
  if fetchable.none_b then []
  else (st.pending.filter (fun k => st.pending_for k fetchable)).map st.storekey

/-- Mark a key complete (`FetchState::mark_complete`): drop it from
`pending`, and drop its pointer and that pointer's origin. -/
def FetchState.mark_complete (st : FetchState) (k : Key) : FetchState :=
  let st := { st with pending := st.pending.filter (fun x => x ≠ k) }
  match alookup st.lfs_pointers k with
  | some ptr =>
    { st with lfs_pointers := aerase st.lfs_pointers k,
              pointer_origin := aerase st.pointer_origin ptr.sha256 }
  | none => st

/-- Record a discovered LFS pointer (`FetchState::found_pointer`):
a `Cache` origin overwrites, a `Local` origin only fills a gap. -/
def FetchState.found_pointer (st : FetchState) (k : Key) (ptr : LfsPointersEntry)
    (typ : LocalStoreType) : FetchState :=
  let po :=
    match typ with
    | .Cache => ainsert st.pointer_origin ptr.sha256 typ
    | .Local => aorinsert st.pointer_origin ptr.sha256 typ
  { st with pointer_origin := po, lfs_pointers := ainsert st.lfs_pointers k ptr }

/-- Record found attributes for a key (`FetchState::found_attributes`):
merge left-biased into what is already known and mark the key complete
when the request is covered. -/
def FetchState.found_attributes (st : FetchState) (k : Key) (sf : StoreFile)
    (typ : Option LocalStoreType) : FetchState :=
  let st := { st with key_origin := ainsert st.key_origin k (typ.getD .Cache) }
  match alookup st.found k with
  | some old =>
    let merged := sf.or old
    let st := { st with found := ainsert st.found k merged }
    if merged.attrs.has st.request_attrs then st.mark_complete k else st
  | none =>
    let st := { st with found := ainsert st.found k sf }
    if sf.attrs.has st.request_attrs then st.mark_complete k else st

/-- Handle one indexedlog entry (`FetchState::found_indexedlog`):
LFS-flagged entries become pointers under policy `Use` and are ignored
under policy `Ignore`; others contribute content. -/
def FetchState.found_indexedlog (st : FetchState) (k : Key) (entry : Entry)
    (typ : LocalStoreType) : FetchState :=
  if entry.metadata.is_lfs then
    if st.extstored_policy = .Use then
      match LfsPointersEntry.from_bytes entry.content entry.key.hgid with
      | .ok ptr => st.found_pointer k ptr typ
      | .error e => st.keyed_error k e
    else st
  else st.found_attributes k (StoreFile.ofFile (.indexedLog entry)) (some typ)

/-- One probe of an indexedlog content store (`FetchState::fetch_indexedlog`). -/
def FetchState.fetch_indexedlog (st : FetchState) (store : IndexedLog)
    (typ : LocalStoreType) : FetchState :=
  let pend := st.pending_nonlfs FileAttributes.CONTENT
  if pend.isEmpty then st
  else
    let st := st.logQuery (match typ with | .Cache => .ilogCacheT | .Local => .ilogLocalT) pend
    pend.foldl (fun st k =>
      match store.get_raw_entry k with
      | .ok (some entry) => st.found_indexedlog k entry typ
      | .ok none => st
      | .error e => st.keyed_error k e) st

/-- Handle one aux-store entry (`FetchState::found_aux_indexedlog`):
parse the serialized aux data; a parse failure propagates. -/
def FetchState.found_aux_indexedlog (st : FetchState) (k : Key) (entry : Entry) :
    Except Err FetchState :=
  match parseAux entry.content with
  | .ok aux => .ok (st.found_attributes k (StoreFile.ofAux aux) none)
  | .error e => .error e

/-- Loop of `FetchState::fetch_aux_indexedlog_inner`: per-key reads,
keyed errors for failed reads, and an abort on the first parse
failure (the `?` inside the source loop). -/
def FetchState.fetch_aux_loop (store : IndexedLog) :
    List Key → FetchState → FetchState × Option Err
  | [], st => (st, none)
  | k :: rest, st =>
    match store.get_raw_entry k with
    | .ok (some aux) =>
      match st.found_aux_indexedlog k aux with
      | .ok st' => FetchState.fetch_aux_loop store rest st'
      | .error e => (st, some e)
    | .ok none => FetchState.fetch_aux_loop store rest st
    | .error e => FetchState.fetch_aux_loop store rest (st.keyed_error k e)

/-- One probe of an aux-data store (`FetchState::fetch_aux_indexedlog`;
`t` tags the ghost query log).  An inner failure becomes a tier-level
error. -/
def FetchState.fetch_aux_indexedlog (st : FetchState) (store : IndexedLog) (t : Tier) :
    FetchState :=
  let pend := st.pending_all FileAttributes.AUX
  if pend.isEmpty then st
  else
    let st := st.logQuery t pend
    match FetchState.fetch_aux_loop store pend st with
    | (st, none) => st
    | (st, some e) => st.other_error e

/-- Handle one LFS-store entry (`FetchState::found_lfs`). -/
def FetchState.found_lfs (st : FetchState) (k : Key) (entry : LfsStoreEntry)
    (typ : LocalStoreType) : FetchState :=
  match entry with
  | .pointerAndBlob ptr blob => st.found_attributes k (StoreFile.ofFile (.lfs blob ptr)) (some typ)
  | .pointerOnly ptr => st.found_pointer k ptr typ

/-- One probe of a local LFS store (`FetchState::fetch_lfs`). -/
def FetchState.fetch_lfs (st : FetchState) (store : LfsStore) (typ : LocalStoreType) :
    FetchState :=
  let pend := st.pending_storekey FileAttributes.CONTENT
  if pend.isEmpty then st
  else
    let st := st.logQuery (match typ with | .Cache => .lfsCacheT | .Local => .lfsLocalT)
      (pend.filterMap StoreKey.maybe_into_key)
    pend.foldl (fun st sk =>
      match sk.maybe_into_key with
      | none => st
      | some k =>
        match store.fetch_available sk with
        | .ok (some entry) => st.found_lfs k entry typ
        | .ok none => st
        | .error e => st.keyed_error k e) st

/-- Handle one memcache item (`FetchState::found_memcache`). -/
def FetchState.found_memcache (st : FetchState) (entry : McData) : FetchState :=
  let k := entry.key
  if entry.metadata.is_lfs then
    match LfsPointersEntry.from_bytes entry.data entry.key.hgid with
    | .ok ptr => st.found_pointer k ptr .Cache
    | .error e => st.keyed_error k e
  else
    let st := { st with found_in_memcache := insertSet st.found_in_memcache k }
    st.found_attributes k (StoreFile.ofFile (.memcache entry)) none

/-- One probe of the distributed memory cache (`FetchState::fetch_memcache`):
a failed batch call becomes a tier-level error, per-item errors too. -/
def FetchState.fetch_memcache (st : FetchState) (store : MemcacheStore) : FetchState :=
  let pend := st.pending_nonlfs FileAttributes.CONTENT
  if pend.isEmpty then st
  else
    let st := st.logQuery .memcacheT pend
    match store.get_data_iter pend with
    | .error e => st.other_error e
    | .ok items =>
      items.foldl (fun st item =>
        match item with
        | .ok d => st.found_memcache d
        | .error e => st.other_error e) st

/-- Handle one remote-API entry (`FetchState::found_edenapi`). -/
def FetchState.found_edenapi (st : FetchState) (entry : FileEntry) : FetchState :=
  let k := entry.key
  if entry.metadata.is_lfs then
    match LfsPointersEntry.from_bytes entry.data entry.key.hgid with
    | .ok ptr => st.found_pointer k ptr .Cache
    | .error e => st.keyed_error k e
  else
    let st := { st with found_in_edenapi := insertSet st.found_in_edenapi k }
    st.found_attributes k (StoreFile.ofFile (.edenApi entry)) none

/-- One probe of the remote API (`FetchState::fetch_edenapi`). -/
def FetchState.fetch_edenapi (st : FetchState) (store : EdenApi) : FetchState :=
  let pend := st.pending_nonlfs FileAttributes.CONTENT
  if pend.isEmpty then st
  else
    let st := st.logQuery .edenapiT pend
    match store.files_blocking pend with
    | .error e => st.other_error e
    | .ok entries => entries.foldl (fun st e => st.found_edenapi e) st

/-- The write-through callback passed to the remote LFS batch fetch:
route each received blob to the local or cache LFS store per
`pointer_origin`; an unknown hash is an error, and a missing target
store is a panic in the source (`expect`), modelled as an error. -/
def lfsRemoteCallback (po : List (Nat × LocalStoreType)) (locl cache : Option LfsStore)
    (sha : Nat) (data : Bytes) : Except Err (Option LfsStore × Option LfsStore) :=
  match alookup po sha with
  | none => .error 106
  | some .Local =>
    match locl with
    | some l => .ok (some (l.add_blob sha data), cache)
    | none => .error 107
  | some .Cache =>
    match cache with
    | some c => .ok (locl, some (c.add_blob sha data))
    | none => .error 108

/-- Loop of the remote LFS batch fetch (`LfsRemoteInner::batch_fetch`);
modelled from the spec: blobs the remote knows are streamed to the
callback in request order, stopping at the first callback error but
keeping the stores written so far (they are shared in the source). -/
def batchFetchLoop (remote : LfsRemote) (po : List (Nat × LocalStoreType)) :
    List (Nat × Nat) → Option LfsStore → Option LfsStore →
    (Option LfsStore × Option LfsStore × Option Err)
  | [], locl, cache => (locl, cache, none)
  | (sha, _) :: rest, locl, cache =>
    match alookup remote.blobs sha with
    | none => batchFetchLoop remote po rest locl cache
    | some data =>
      match lfsRemoteCallback po locl cache sha data with
      | .ok (locl', cache') => batchFetchLoop remote po rest locl' cache'
      | .error e => (locl, cache, some e)

/-- The remote LFS batch fetch (`LfsRemoteInner::batch_fetch`); a
whole-call failure leaves the stores untouched. -/
def LfsRemote.batch_fetch (remote : LfsRemote) (req : List (Nat × Nat))
    (po : List (Nat × LocalStoreType)) (locl cache : Option LfsStore) :
    Option LfsStore × Option LfsStore × Option Err :=
  match remote.fail with
  | some e => (locl, cache, some e)
  | none => batchFetchLoop remote po req locl cache

/-- Inner remote LFS stage (`FetchState::fetch_lfs_remote_inner`):
batch-fetch every outstanding pointer's blob, write each through to
the store named by its origin, then re-probe the local LFS stores. -/
def FetchState.fetch_lfs_remote_inner (st : FetchState) (remote : LfsRemote)
    (locl cache : Option LfsStore) :
    (FetchState × Option LfsStore × Option LfsStore) × Option Err :=
  let pend := (st.lfs_pointers.map (fun kv => (kv.2.sha256, kv.2.size))).dedup
  if pend.isEmpty then ((st, locl, cache), none)
  else
    let st := st.logQuery .lfsRemoteT (st.lfs_pointers.map (fun kv => kv.1))
    match LfsRemote.batch_fetch remote pend st.pointer_origin locl cache with
    | (locl', cache', some e) => ((st, locl', cache'), some e)
    | (locl', cache', none) =>
      let st := match cache' with | some c => st.fetch_lfs c .Cache | none => st
      let st := match locl' with | some l => st.fetch_lfs l .Local | none => st
      ((st, locl', cache'), none)

/-- Remote LFS stage (`FetchState::fetch_lfs_remote`): an inner failure
becomes a tier-level error. -/
def FetchState.fetch_lfs_remote (st : FetchState) (remote : LfsRemote)
    (locl cache : Option LfsStore) : FetchState × Option LfsStore × Option LfsStore :=
  match st.fetch_lfs_remote_inner remote locl cache with
  | (r, none) => r
  | ((st, locl', cache'), some e) => (st.other_error e, locl', cache')

/-- Handle one legacy-store hit (`FetchState::found_contentstore`):
serialized LFS pointers are deliberately not surfaced. -/
def FetchState.found_contentstore (st : FetchState) (k : Key) (bytes : Bytes)
    (meta : Metadata) : FetchState :=
  if meta.is_lfs then st
  else st.found_attributes k (StoreFile.ofFile (.contentStore bytes meta)) none

/-- Loop of `FetchState::fetch_contentstore_inner`: per key, fetch the
blob then the metadata; an error on either records a keyed error. -/
def FetchState.fetch_contentstore_loop (store : ContentStore) :
    List StoreKey → FetchState → FetchState
  | [], st => st
  | sk :: rest, st =>
    let st :=
      match sk.maybe_into_key with
      | none => st
      | some k =>
        match (store.get sk, store.get_meta sk) with
        | (.ok (some blob), .ok (some meta)) => st.found_contentstore k blob meta
        | (.error e, _) => st.keyed_error k e
        | (.ok _, .error e) => st.keyed_error k e
        | _ => st
    FetchState.fetch_contentstore_loop store rest st

/-- Inner legacy fallback stage (`FetchState::fetch_contentstore_inner`):
a prefetch failure aborts the tier. -/
def FetchState.fetch_contentstore_inner (st : FetchState) (store : ContentStore) :
    FetchState × Option Err :=
  let pend := st.pending_storekey FileAttributes.CONTENT
  if pend.isEmpty then (st, none)
  else
    let st := st.logQuery .contentstoreT (pend.filterMap StoreKey.maybe_into_key)
    match store.prefetchErr with
    | some e => (st, some e)
    | none => (FetchState.fetch_contentstore_loop store pend st, none)

/-- Legacy fallback stage (`FetchState::fetch_contentstore`). -/
def FetchState.fetch_contentstore (st : FetchState) (store : ContentStore) : FetchState :=
  match st.fetch_contentstore_inner store with
  | (st, none) => st
  | (st, some e) => st.other_error e

/-- Loop of `FetchState::derive_computable`: walk the found entries,
compute requested computable attributes (aux from content), record the
origin for writeback, and mark newly-covered keys complete.  `acc`
holds already-processed entries in reverse.  The source inlines the
body of `mark_complete` verbatim at the completion point (with a TODO
about sharing it); this model calls `mark_complete`. -/
def deriveGo (st : FetchState) :
    List (Key × StoreFile) → List (Key × StoreFile) → FetchState
  | [], acc => { st with found := acc.reverse }
  | (k, v) :: rest, acc =>
    let missing := st.request_attrs.sub v.attrs
    let actionable := v.attrs.with_computable.band missing
    let step :=
      if actionable.aux_data then
        match v.compute_aux_data with
        | .error e => (st.keyed_error k e, v)
        | .ok v' =>
          ({ st with computed_aux_data :=
              ainsert st.computed_aux_data k ((alookup st.key_origin k).getD .Cache) }, v')
      else (st, v)
    let st1 := step.1
    let v1 := step.2
    let st2 := if v1.attrs.has st1.request_attrs then st1.mark_complete k else st1
    deriveGo st2 rest ((k, v1) :: acc)

/-- Derivation pass (`FetchState::derive_computable`). -/
def FetchState.derive_computable (st : FetchState) : FetchState :=
  if st.compute_aux_data then deriveGo st st.found [] else st

/-- Writeback of the remote-API bucket: for each key found in the
remote API, convert its payload to an indexedlog entry if cacheable
and write it to the indexedlog cache and, when enabled, to memcache. -/
def writebackEdenapi (found : List (Key × StoreFile)) :
    List Key → Option IndexedLog → Option MemcacheStore →
    Option IndexedLog × Option MemcacheStore
  | [], ilog, mem => (ilog, mem)
  | k :: rest, ilog, mem =>
    let pair :=
      match (alookup found k).bind (fun sf => sf.content) with
      | none => (ilog, mem)
      | some lz =>
        match lz.indexedlog_cache_entry k with
        | none => (ilog, mem)
        | some ce =>
          (ilog.map (fun s : IndexedLog => s.put_entry ce),
            mem.map (fun m : MemcacheStore => m.add_mcdata (mcFromEntry ce)))
    writebackEdenapi found rest pair.1 pair.2

/-- Writeback of the memcache bucket: indexedlog cache only. -/
def writebackMemcache (found : List (Key × StoreFile)) :
    List Key → Option IndexedLog → Option IndexedLog
  | [], ilog => ilog
  | k :: rest, ilog =>
    let ilog :=
      match (alookup found k).bind (fun sf => sf.content) with
      | none => ilog
      | some lz =>
        match lz.indexedlog_cache_entry k with
        | none => ilog
        | some ce => ilog.map (fun s : IndexedLog => s.put_entry ce)
    writebackMemcache found rest ilog

/-- Writeback of the computed-aux bucket: serialize each derived aux
datum and write it to the aux store matching its recorded origin. -/
def writebackComputed (found : List (Key × StoreFile)) :
    List (Key × LocalStoreType) → Option IndexedLog → Option IndexedLog →
    Option IndexedLog × Option IndexedLog
  | [], auxCache, auxLocal => (auxCache, auxLocal)
  | (k, origin) :: rest, auxCache, auxLocal =>
    let pair :=
      match (alookup found k).bind (fun sf => sf.aux_data) with
      | none => (auxCache, auxLocal)
      | some aux =>
        let entry := Entry.new k (serializeAux aux) Metadata.default
        match origin with
        | .Cache => (auxCache.map (fun s : IndexedLog => s.put_entry entry), auxLocal)
        | .Local => (auxCache, auxLocal.map (fun s : IndexedLog => s.put_entry entry))
    writebackComputed found rest pair.1 pair.2

/-- Writeback stage (`FetchState::write_to_cache`): three buckets
(remote API, memcache, computed aux), draining the bookkeeping sets. -/
def FetchState.write_to_cache (st : FetchState) (ilogCache : Option IndexedLog)
    (mem : Option MemcacheStore) (auxCache auxLocal : Option IndexedLog) :
    FetchState × Option IndexedLog × Option MemcacheStore × Option IndexedLog ×
      Option IndexedLog :=
  let p1 := writebackEdenapi st.found st.found_in_edenapi ilogCache mem
  let ilog2 := writebackMemcache st.found st.found_in_memcache p1.1
  let p3 := writebackComputed st.found st.computed_aux_data auxCache auxLocal
  ({ st with found_in_edenapi := [], found_in_memcache := [], computed_aux_data := [] },
    ilog2, p1.2, p3.1, p3.2)

/-- The result of a fetch (`FileStoreFetch`). -/
structure FileStoreFetch where
  complete : List (Key × StoreFile)
  incomplete : List (Key × List Err)
  other_errors : List Err
deriving DecidableEq, Repr

/-- Assemble the result (`FetchState::finish`): remaining pending keys
become incomplete (with their accumulated errors, or an empty list),
found-but-pending keys are dropped from `found`, each complete entry
is masked to the requested attributes, and error lists of resolved
keys are removed. -/
def FetchState.finish (st : FetchState) : FileStoreFetch :=
  let incomplete := st.errors.fetch_errors
  let foundAfter := st.pending.foldl (fun f k => aerase f k) st.found
  let incomplete := st.pending.foldl (fun m k => aorinsert m k []) incomplete
  let complete := foundAfter.map (fun kv => (kv.1, kv.2.mask st.request_attrs))
  let incomplete := foundAfter.foldl (fun m kv => aerase m kv.1) incomplete
  { complete := complete, incomplete := incomplete, other_errors := st.errors.other_errors }

/-- The top-level store handle (`FileStore`): configuration plus one
optional handle per tier.  The logging-only fields (`fetch_logger`,
`fallbacks`) are omitted. -/
structure FileStore where
  extstored_policy : ExtStoredPolicy
  lfs_threshold_bytes : Option Nat
  cache_to_local_cache : Bool
  cache_to_memcache : Bool
  indexedlog_local : Option IndexedLog
  lfs_local : Option LfsStore
  indexedlog_cache : Option IndexedLog
  lfs_cache : Option LfsStore
  memcache : Option MemcacheStore
  lfs_remote : Option LfsRemote
  edenapi : Option EdenApi
  contentstore : Option ContentStore
  aux_local : Option IndexedLog
  aux_cache : Option IndexedLog
deriving DecidableEq, Repr

/-- Construct the initial per-request state (`FetchState::new`):
all keys pending (set semantics), config copied from the store,
`compute_aux_data` on. -/
def FetchState.new (keys : List Key) (attrs : FileAttributes) (fs : FileStore) : FetchState :=
  { pending := keys.dedup
    request_attrs := attrs
    found := []
    lfs_pointers := []
    pointer_origin := []
    key_origin := []
    errors := FetchErrors.new
    found_in_memcache := []
    found_in_edenapi := []
    computed_aux_data := []
    extstored_policy := fs.extstored_policy
    compute_aux_data := true
    probes := []
    queries := [] }

/-- Pipeline state: the fetch state plus the store handle, whose LFS
and cache stores can be mutated mid-fetch. -/
abbrev PState := FetchState × FileStore

/-- Probe 1 of `FileStore::fetch`: aux-data cache. -/
def step_aux_cache (p : PState) : PState :=
  match p.2.aux_cache with
  | some s => ((p.1.logProbe .auxCacheT).fetch_aux_indexedlog s .auxCacheT, p.2)
  | none => p

/-- Probe 2 of `FileStore::fetch`: aux-data local. -/
def step_aux_local (p : PState) : PState :=
  match p.2.aux_local with
  | some s => ((p.1.logProbe .auxLocalT).fetch_aux_indexedlog s .auxLocalT, p.2)
  | none => p

/-- Probe 3 of `FileStore::fetch`: indexedlog cache. -/
def step_ilog_cache (p : PState) : PState :=
  match p.2.indexedlog_cache with
  | some s => ((p.1.logProbe .ilogCacheT).fetch_indexedlog s .Cache, p.2)
  | none => p

/-- Probe 4 of `FileStore::fetch`: indexedlog local. -/
def step_ilog_local (p : PState) : PState :=
  match p.2.indexedlog_local with
  | some s => ((p.1.logProbe .ilogLocalT).fetch_indexedlog s .Local, p.2)
  | none => p

/-- Probe 5 of `FileStore::fetch`: LFS cache. -/
def step_lfs_cache (p : PState) : PState :=
  match p.2.lfs_cache with
  | some s => ((p.1.logProbe .lfsCacheT).fetch_lfs s .Cache, p.2)
  | none => p

/-- Probe 6 of `FileStore::fetch`: LFS local. -/
def step_lfs_local (p : PState) : PState :=
  match p.2.lfs_local with
  | some s => ((p.1.logProbe .lfsLocalT).fetch_lfs s .Local, p.2)
  | none => p

/-- Probe 7 of `FileStore::fetch`: distributed memory cache. -/
def step_memcache (p : PState) : PState :=
  match p.2.memcache with
  | some s => ((p.1.logProbe .memcacheT).fetch_memcache s, p.2)
  | none => p

/-- Probe 8 of `FileStore::fetch`: remote API. -/
def step_edenapi (p : PState) : PState :=
  match p.2.edenapi with
  | some s => ((p.1.logProbe .edenapiT).fetch_edenapi s, p.2)
  | none => p

/-- Probe 9 of `FileStore::fetch`: remote LFS, writing blobs through to
the local LFS stores. -/
def step_lfs_remote (p : PState) : PState :=
  match p.2.lfs_remote with
  | some r =>
    let res := (p.1.logProbe .lfsRemoteT).fetch_lfs_remote r p.2.lfs_local p.2.lfs_cache
    (res.1, { p.2 with lfs_local := res.2.1, lfs_cache := res.2.2 })
  | none => p

/-- Probe 10 of `FileStore::fetch`: legacy fallback. -/
def step_contentstore (p : PState) : PState :=
  match p.2.contentstore with
  | some s => ((p.1.logProbe .contentstoreT).fetch_contentstore s, p.2)
  | none => p

/-- Derivation pass of `FileStore::fetch`. -/
def step_derive (p : PState) : PState :=
  ((p.1.logProbe .deriveT).derive_computable, p.2)

/-- Writeback pass of `FileStore::fetch`, honouring the
`cache_to_local_cache` and `cache_to_memcache` policies. -/
def step_writeback (p : PState) : PState :=
  let fs := p.2
  let res := (p.1.logProbe .writebackT).write_to_cache
    (if fs.cache_to_local_cache then fs.indexedlog_cache else none)
    (if fs.cache_to_memcache then fs.memcache else none)
    fs.aux_cache fs.aux_local
  (res.1,
    { fs with
      indexedlog_cache := if fs.cache_to_local_cache then res.2.1 else fs.indexedlog_cache
      memcache := if fs.cache_to_memcache then res.2.2.1 else fs.memcache
      aux_cache := res.2.2.2.1
      aux_local := res.2.2.2.2 })

/-- The probe/derive/writeback pipeline of `FileStore::fetch`, before
result assembly. -/
def fetch_pipeline (fs : FileStore) (keys : List Key) (attrs : FileAttributes) : PState :=
  step_writeback (step_derive (step_contentstore (step_lfs_remote (step_edenapi
    (step_memcache (step_lfs_local (step_lfs_cache (step_ilog_local (step_ilog_cache
      (step_aux_local (step_aux_cache (FetchState.new keys attrs fs, fs))))))))))))

/-- The public fetch (`FileStore::fetch`): run the pipeline and
assemble the result; the returned store reflects mid-fetch LFS writes
and writeback. -/
def FileStore.fetch (fs : FileStore) (keys : List Key) (attrs : FileAttributes) :
    FileStoreFetch × FileStore :=
  let p := fetch_pipeline fs keys attrs
  (p.1.finish, p.2)

/-- Loop of `FileStore::write_batch` over the supplied entries. -/
def write_batch_loop (fs : FileStore) : List (Key × Bytes × Metadata) → Except Err FileStore
  | [] => .ok fs
  | (key, bytes, meta) :: rest =>
    if meta.is_lfs then
      -- Writing LFS pointers directly is only allowed in test
      -- environments and routes through the legacy ContentStore;
      -- environment access is out of scope, so this arm fails.
      .error 109
    else
      let hg_blob_len := bytes.length
      if fs.lfs_threshold_bytes.elim false (fun threshold => hg_blob_len > threshold) then
        match fs.lfs_local with
        | none => .error 110
        | some lfs_local =>
          let pair := lfs_from_hg_file_blob key.hgid bytes
          let lfs_local := (lfs_local.add_blob pair.1.sha256 pair.2).add_pointer pair.1
          write_batch_loop { fs with lfs_local := some lfs_local } rest
      else
        match fs.indexedlog_local with
        | none => .error 111
        | some ilog =>
          write_batch_loop
            { fs with indexedlog_local := some (ilog.put_entry (Entry.new key bytes meta)) } rest

/-- Batched write of new file blobs (`FileStore::write_batch`):
oversized non-LFS blobs go to the local LFS store as pointer + blob,
the rest to the local indexedlog. -/
def FileStore.write_batch (fs : FileStore) (entries : List (Key × Bytes × Metadata)) :
    Except Err FileStore :=
  write_batch_loop fs entries

/-- One flush attempt (`handle_error` pattern of `FileStore::flush`):
record the event and overwrite the running result on failure. -/
def flushStep (acc : List Tier × Option Err) (t : Tier) (flushErr : Option Err) :
    List Tier × Option Err :=
  (acc.1 ++ [t], match flushErr with | some e => some e | none => acc.2)

/-- Flush every configured store (`FileStore::flush`), in source
order, attempting all of them and keeping the last error.  Returns the
ghost list of attempted flushes and `some e` exactly when the source
returns `Err`. -/
def FileStore.flush (fs : FileStore) : List Tier × Option Err :=
  let acc : List Tier × Option Err := ([], none)
  let acc := match fs.indexedlog_local with
    | some s => flushStep acc .ilogLocalT s.flushErr
    | none => acc
  let acc := match fs.indexedlog_cache with
    | some s => flushStep acc .ilogCacheT s.flushErr
    | none => acc
  let acc := match fs.lfs_local with
    | some s => flushStep acc .lfsLocalT s.flushErr
    | none => acc
  let acc := match fs.lfs_cache with
    | some s => flushStep acc .lfsCacheT s.flushErr
    | none => acc
  let acc := match fs.aux_local with
    | some s => flushStep acc .auxLocalT s.flushErr
    | none => acc
  let acc := match fs.aux_cache with
    | some s => flushStep acc .auxCacheT s.flushErr
    | none => acc
  acc

/-- The fixed tier probe order stated by the spec (section 4.2),
written from the spec's words, for comparison with the pipeline. -/
def specTierOrder : List Tier :=
  [.auxCacheT, .auxLocalT, .ilogCacheT, .ilogLocalT, .lfsCacheT, .lfsLocalT,
   .memcacheT, .edenapiT, .lfsRemoteT, .contentstoreT]

/-- Whether a tier's store is configured on this handle. -/
def FileStore.tierConfigured (fs : FileStore) : Tier → Bool
  | .auxCacheT => fs.aux_cache.isSome
  | .auxLocalT => fs.aux_local.isSome
  | .ilogCacheT => fs.indexedlog_cache.isSome
  | .ilogLocalT => fs.indexedlog_local.isSome
  | .lfsCacheT => fs.lfs_cache.isSome
  | .lfsLocalT => fs.lfs_local.isSome
  | .memcacheT => fs.memcache.isSome
  | .edenapiT => fs.edenapi.isSome
  | .lfsRemoteT => fs.lfs_remote.isSome
  | .contentstoreT => fs.contentstore.isSome
  | .deriveT => true
  | .writebackT => true

/-- The flush order stated by the spec for `FileStore::flush`. -/
def specFlushOrder : List Tier :=
  [.ilogLocalT, .ilogCacheT, .lfsLocalT, .lfsCacheT, .auxLocalT, .auxCacheT]

/-- Sample key. -/
def exKey1 : Key := { path := 1, hgid := 11 }

/-- Second sample key. -/
def exKey2 : Key := { path := 2, hgid := 22 }

/-- An empty indexedlog store. -/
def emptyIndexedLog : IndexedLog := { entries := [], broken := [], flushErr := none }

/-- An empty LFS store. -/
def emptyLfsStore : LfsStore := { pointers := [], blobs := [], flushErr := none }

/-- A store handle with no tier configured. -/
def emptyFileStore : FileStore :=
  { extstored_policy := .Use
    lfs_threshold_bytes := none
    cache_to_local_cache := true
    cache_to_memcache := true
    indexedlog_local := none
    lfs_local := none
    indexedlog_cache := none
    lfs_cache := none
    memcache := none
    lfs_remote := none
    edenapi := none
    contentstore := none
    aux_local := none
    aux_cache := none }

/-- Request mask asking for both content and aux data. -/
def attrsBoth : FileAttributes := { content := true, aux_data := true }

/-- Store handle whose indexedlog cache fails for `exKey1` while the
indexedlog local holds its content: an early keyed error followed by a
later success. -/
def errorThenHitFS : FileStore :=
  { emptyFileStore with
    indexedlog_cache := some { entries := [], broken := [exKey1], flushErr := none }
    indexedlog_local := some
      { entries := [(exKey1, Entry.new exKey1 [5, 6] Metadata.default)]
        broken := []
        flushErr := none } }

/-- Store handle for the shared-content-hash scenario: aux data for
`exKey1` only, LFS-flagged indexedlog-cache entries giving both keys
the same pointer hash 77, and an LFS cache serving hash 77. -/
def sharedHashFS : FileStore :=
  { emptyFileStore with
    aux_cache := some
      { entries := [(exKey1, Entry.new exKey1 (serializeAux { content_sha256 := 99 })
          Metadata.default)]
        broken := []
        flushErr := none }
    indexedlog_cache := some
      { entries :=
          [(exKey1, Entry.new exKey1 [77, 5] { size := none, is_lfs := true }),
           (exKey2, Entry.new exKey2 [77, 5] { size := none, is_lfs := true })]
        broken := []
        flushErr := none }
    lfs_cache := some
      { pointers := [(33, { sha := 77, size := 5, hgid := 33 })]
        blobs := [(77, [9])]
        flushErr := none } }

/-- Pipeline state of `sharedHashFS` after the LFS-cache probe (probe 5
of `FileStore::fetch`), requesting content and aux data for both keys. -/
def sharedHashMidState : PState :=
  step_lfs_cache (step_ilog_local (step_ilog_cache (step_aux_local (step_aux_cache
    (FetchState.new [exKey1, exKey2] attrsBoth sharedHashFS, sharedHashFS)))))

/-- Store handle for the large-file write round-trip counterexample:
empty local indexedlog and LFS stores, threshold 1 byte. -/
def cexC3fs : FileStore :=
  { emptyFileStore with
    lfs_threshold_bytes := some 1
    indexedlog_local := some emptyIndexedLog
    lfs_local := some emptyLfsStore }

/-- Fetch state poised before derivation with content (but no aux) for
`exKey1` recorded from a local store. -/
def preDeriveState : FetchState :=
  { pending := [exKey1]
    request_attrs := attrsBoth
    found := [(exKey1,
      { content := some (.indexedLog (Entry.new exKey1 [5, 6] Metadata.default))
        aux_data := none })]
    lfs_pointers := []
    pointer_origin := []
    key_origin := [(exKey1, .Local)]
    errors := FetchErrors.new
    found_in_memcache := []
    found_in_edenapi := []
    computed_aux_data := []
    extstored_policy := .Use
    compute_aux_data := true
    probes := []
    queries := [] }

/-- A fetch state with nothing found and policy `Use`, for exercising
`found_indexedlog` on a concrete LFS-flagged entry. -/
def lfsEntryState : FetchState :=
  { pending := [exKey1]
    request_attrs := FileAttributes.CONTENT
    found := []
    lfs_pointers := []
    pointer_origin := []
    key_origin := []
    errors := FetchErrors.new
    found_in_memcache := []
    found_in_edenapi := []
    computed_aux_data := []
    extstored_policy := .Use
    compute_aux_data := true
    probes := []
    queries := [] }

/-- The request-scoped state invariant of `FetchState` relative to the
requested key set `K` and attribute mask `A`: pending keys, found keys
and error keys all come from `K`; every key of `K` is still pending or
found with attributes covering `A`; the request mask is `A`; and the
found map binds each key at most once. -/
def Inv (K : List Key) (A : FileAttributes) (st : FetchState) : Prop :=
  (∀ k, k ∈ st.pending → k ∈ K) ∧
  (∀ k, (alookup st.found k).isSome = true → k ∈ K) ∧
  (∀ k, (alookup st.errors.fetch_errors k).isSome = true → k ∈ K) ∧
  (∀ k, k ∈ K →
    k ∈ st.pending ∨ ∃ sf, alookup st.found k = some sf ∧ sf.attrs.has A = true) ∧
  st.request_attrs = A ∧
  (st.found.map Prod.fst).Nodup

/-- Every pointer recorded in `lfs_pointers` has an origin recorded in
`pointer_origin` (the spec's pointer bookkeeping invariant). -/
def PtrPresenceInv (st : FetchState) : Prop :=
  ∀ k ptr, alookup st.lfs_pointers k = some ptr →
    (alookup st.pointer_origin ptr.sha256).isSome = true

/-- Pointers of distinct keys have distinct content hashes. -/
def ShaInjective (st : FetchState) : Prop :=
  ∀ k1 k2 p1 p2, alookup st.lfs_pointers k1 = some p1 →
    alookup st.lfs_pointers k2 = some p2 → p1.sha256 = p2.sha256 → k1 = k2

/-- Apply a sequence of `found_pointer` calls. -/
def applyFoundPointers (st : FetchState)
    (calls : List (Key × LfsPointersEntry × LocalStoreType)) : FetchState :=
  calls.foldl (fun s c => s.found_pointer c.1 c.2.1 c.2.2) st

end Scmstore

namespace Rdv

/-- Rendezvous controller decisions (`RendezVousController`): whether
to batch at all, and the early-dispatch key threshold.  The dispatch
delay future is timing and out of scope. -/
structure Controller where
  should_batch : Bool
  early_dispatch_threshold : Nat
deriving DecidableEq, Repr

/-- Per-caller projection of a result map onto the caller's own keys
(`rendez_vous.rs`, both dispatch paths): every requested key is bound,
keys absent from the backend response become `none`. -/
def project {K V : Type} [DecidableEq K] (keys : List K) (ret : List (K × V)) :
    List (K × Option V) :=
  keys.map (fun k => (k, Scmstore.alookup ret k))

/-- The unbatched path (`RendezVous::dispatch_not_batched`): call the
backend with exactly this request's keys and project the response. -/
def dispatch_not_batched {K V : Type} [DecidableEq K] (keys : List K)
    (backend : List K → Except Scmstore.Err (List (K × V))) :
    Except Scmstore.Err (List (K × Option V)) :=
  match backend keys with
  | .ok ret => .ok (project keys ret)
  | .error e => .error e

/-- The batched path (`RendezVous::dispatch_batched`), after the shared
staging future resolves: each participant projects the shared result
map onto its own keys.  The staging slot and notification plumbing are
concurrency and not embedded; `shared` is the value delivered by the
epoch's single backend call. -/
def dispatch_batched {K V : Type} [DecidableEq K] (keys : List K)
    (shared : Except Scmstore.Err (List (K × V))) :
    Except Scmstore.Err (List (K × Option V)) :=
  match shared with
  | .ok ret => .ok (project keys ret)
  | .error e => .error e

/-- Dispatch (`RendezVous::dispatch`): batch only when the controller
allows it and this request alone is below the early-dispatch
threshold. -/
def dispatch {K V : Type} [DecidableEq K] (c : Controller) (keys : List K)
    (backend : List K → Except Scmstore.Err (List (K × V)))
    (shared : Except Scmstore.Err (List (K × V))) :
    Except Scmstore.Err (List (K × Option V)) :=
  if c.should_batch && keys.length < c.early_dispatch_threshold then
    dispatch_batched keys shared
  else
    dispatch_not_batched keys backend

end Rdv

namespace Scmstore

section AssocLemmas

variable {α β : Type} [DecidableEq α]

theorem alookup_aerase (l : List (α × β)) (x y : α) :
    alookup (aerase l x) y = if y = x then none else alookup l y := by
  induction l with
  | nil => simp [aerase, alookup]
  | cons p rest ih =>
    rcases p with ⟨a, b⟩
    by_cases hax : a = x <;> by_cases hya : y = a <;>
      simp_all [aerase, alookup]

theorem alookup_ainsert (l : List (α × β)) (x : α) (b : β) (y : α) :
    alookup (ainsert l x b) y = if y = x then some b else alookup l y := by
  by_cases hyx : y = x <;> simp [ainsert, alookup, hyx, alookup_aerase]

theorem alookup_aorinsert_ne (l : List (α × β)) (x : α) (b : β) (y : α) (h : y ≠ x) :
    alookup (aorinsert l x b) y = alookup l y := by
  unfold aorinsert
  by_cases hp : (alookup l x).isSome <;> simp [hp, alookup, h]

theorem alookup_aorinsert_self (l : List (α × β)) (x : α) (b : β) :
    alookup (aorinsert l x b) x = some ((alookup l x).getD b) := by
  unfold aorinsert
  cases hp : alookup l x <;> simp [hp, alookup]

theorem alookup_apush_isSome {β' : Type} (l : List (α × List β')) (x : α) (b : β') (y : α) :
    (alookup (apush l x b) y).isSome = true ↔ y = x ∨ (alookup l y).isSome = true := by
  unfold apush
  cases hp : alookup l x <;>
    · rw [alookup_ainsert]
      by_cases hyx : y = x <;> simp_all

theorem alookup_isSome_iff_mem {β : Type} (l : List (α × β)) (y : α) :
    (alookup l y).isSome = true ↔ y ∈ l.map Prod.fst := by
  induction l with
  | nil => simp [alookup]
  | cons p rest ih =>
    rcases p with ⟨a, b⟩
    by_cases hya : y = a <;> simp_all [alookup]

theorem alookup_foldl_aerase {β : Type} (ks : List α) (l : List (α × β)) (y : α) :
    alookup (ks.foldl (fun f k => aerase f k) l) y = if y ∈ ks then none else alookup l y := by
  induction ks generalizing l with
  | nil => simp
  | cons k rest ih =>
    simp only [List.foldl]
    rw [ih]
    by_cases hy : y ∈ rest <;> by_cases hyk : y = k <;> simp_all [alookup_aerase]

theorem alookup_foldl_aorinsert {β : Type} (ks : List α) (l : List (α × β)) (b : β) (y : α) :
    alookup (ks.foldl (fun m k => aorinsert m k b) l) y =
      if (alookup l y).isSome then alookup l y
      else if y ∈ ks then some b else none := by
  induction ks generalizing l with
  | nil => cases hp : alookup l y <;> simp [hp]
  | cons k rest ih =>
    simp only [List.foldl]
    rw [ih]
    by_cases hyk : y = k
    · subst hyk
      rw [alookup_aorinsert_self]
      cases hp : alookup l y <;> simp [hp]
    · rw [alookup_aorinsert_ne l k b y hyk]
      cases hp : alookup l y <;> simp [hp, hyk]

theorem alookup_foldl_aerase_pairs {β γ : Type} (ps : List (α × γ)) (l : List (α × β)) (y : α) :
    alookup (ps.foldl (fun m kv => aerase m kv.1) l) y =
      if y ∈ ps.map Prod.fst then none else alookup l y := by
  rw [← alookup_foldl_aerase (ps.map Prod.fst) l y, List.foldl_map]

theorem alookup_map_snd {β γ : Type} (l : List (α × β)) (f : α → β → γ) (y : α) :
    alookup (l.map (fun kv => (kv.1, f kv.1 kv.2))) y = (alookup l y).map (f y) := by
  induction l with
  | nil => simp [alookup]
  | cons p rest ih =>
    rcases p with ⟨a, b⟩
    by_cases hya : y = a <;> simp_all [alookup]

end AssocLemmas

section AttrLemmas

theorem StoreFile.attrs_or (a b : StoreFile) :
    (a.or b).attrs = a.attrs.bor b.attrs := by
  rcases a with ⟨ac, aa⟩
  rcases b with ⟨bc, ba⟩
  cases ac <;> cases aa <;> cases bc <;> cases ba <;>
    simp [StoreFile.or, StoreFile.attrs, FileAttributes.bor, Option.or]

theorem StoreFile.attrs_mask (sf : StoreFile) (m : FileAttributes) :
    (sf.mask m).attrs = sf.attrs.band m := by
  rcases sf with ⟨c, a⟩
  rcases m with ⟨mc, ma⟩
  cases mc <;> cases ma <;> cases c <;> cases a <;>
    simp [StoreFile.mask, StoreFile.attrs, FileAttributes.band]

theorem FileAttributes.has_bor_right (x y A : FileAttributes) (h : y.has A = true) :
    (x.bor y).has A = true := by
  rcases x with ⟨xc, xa⟩
  rcases y with ⟨yc, ya⟩
  rcases A with ⟨ac, aa⟩
  cases xc <;> cases xa <;> cases yc <;> cases ya <;> cases ac <;> cases aa <;>
    simp_all [FileAttributes.has, FileAttributes.sub, FileAttributes.band,
      FileAttributes.bnot, FileAttributes.none_b, FileAttributes.bor]

theorem FileAttributes.has_band_self (x A : FileAttributes) (h : x.has A = true) :
    (x.band A).has A = true := by
  rcases x with ⟨xc, xa⟩
  rcases A with ⟨ac, aa⟩
  cases xc <;> cases xa <;> cases ac <;> cases aa <;>
    simp_all [FileAttributes.has, FileAttributes.sub, FileAttributes.band,
      FileAttributes.bnot, FileAttributes.none_b]

theorem StoreFile.attrs_compute (sf sf' : StoreFile)
    (h : sf.compute_aux_data = .ok sf') :
    sf'.attrs = sf.attrs.bor FileAttributes.AUX := by
  rcases sf with ⟨c, a⟩
  cases c with
  | none => simp [StoreFile.compute_aux_data] at h
  | some lz =>
    simp only [StoreFile.compute_aux_data, Except.ok.injEq] at h
    subst h
    cases a <;> simp [StoreFile.attrs, FileAttributes.bor, FileAttributes.AUX]

end AttrLemmas

section FieldLemmas

@[simp] theorem mark_complete_found (st : FetchState) (k : Key) :
    (st.mark_complete k).found = st.found := by
  simp only [FetchState.mark_complete]
  split <;> rfl

@[simp] theorem mark_complete_errors (st : FetchState) (k : Key) :
    (st.mark_complete k).errors = st.errors := by
  simp only [FetchState.mark_complete]
  split <;> rfl

@[simp] theorem mark_complete_request (st : FetchState) (k : Key) :
    (st.mark_complete k).request_attrs = st.request_attrs := by
  simp only [FetchState.mark_complete]
  split <;> rfl

@[simp] theorem mark_complete_pending (st : FetchState) (k : Key) :
    (st.mark_complete k).pending = st.pending.filter (fun x => x ≠ k) := by
  simp only [FetchState.mark_complete]
  split <;> rfl

@[simp] theorem found_pointer_pending (st : FetchState) (k : Key) (ptr : LfsPointersEntry)
    (typ : LocalStoreType) : (st.found_pointer k ptr typ).pending = st.pending := rfl

@[simp] theorem found_pointer_found (st : FetchState) (k : Key) (ptr : LfsPointersEntry)
    (typ : LocalStoreType) : (st.found_pointer k ptr typ).found = st.found := rfl

@[simp] theorem found_pointer_errors (st : FetchState) (k : Key) (ptr : LfsPointersEntry)
    (typ : LocalStoreType) : (st.found_pointer k ptr typ).errors = st.errors := rfl

@[simp] theorem found_pointer_request (st : FetchState) (k : Key) (ptr : LfsPointersEntry)
    (typ : LocalStoreType) : (st.found_pointer k ptr typ).request_attrs = st.request_attrs := rfl

@[simp] theorem keyed_error_pending (st : FetchState) (k : Key) (e : Err) :
    (st.keyed_error k e).pending = st.pending := rfl

@[simp] theorem keyed_error_found (st : FetchState) (k : Key) (e : Err) :
    (st.keyed_error k e).found = st.found := rfl

@[simp] theorem keyed_error_request (st : FetchState) (k : Key) (e : Err) :
    (st.keyed_error k e).request_attrs = st.request_attrs := rfl

@[simp] theorem keyed_error_fetch_errors (st : FetchState) (k : Key) (e : Err) :
    (st.keyed_error k e).errors.fetch_errors = apush st.errors.fetch_errors k e := rfl

@[simp] theorem other_error_pending (st : FetchState) (e : Err) :
    (st.other_error e).pending = st.pending := rfl

@[simp] theorem other_error_found (st : FetchState) (e : Err) :
    (st.other_error e).found = st.found := rfl

@[simp] theorem other_error_request (st : FetchState) (e : Err) :
    (st.other_error e).request_attrs = st.request_attrs := rfl

@[simp] theorem other_error_fetch_errors (st : FetchState) (e : Err) :
    (st.other_error e).errors.fetch_errors = st.errors.fetch_errors := rfl

@[simp] theorem logProbe_pending (st : FetchState) (t : Tier) :
    (st.logProbe t).pending = st.pending := rfl

@[simp] theorem logQuery_pending (st : FetchState) (t : Tier) (ks : List Key) :
    (st.logQuery t ks).pending = st.pending := rfl

end FieldLemmas

section NodupLemmas

variable {α β : Type} [DecidableEq α]

theorem mem_aerase_keys (l : List (α × β)) (x y : α)
    (h : y ∈ (aerase l x).map Prod.fst) : y ∈ l.map Prod.fst := by
  induction l with
  | nil => simp [aerase] at h
  | cons p rest ih =>
    rcases p with ⟨a, b⟩
    by_cases hax : a = x
    · simp only [aerase, if_pos hax] at h
      exact List.mem_cons_of_mem _ (ih h)
    · simp only [aerase, if_neg hax, List.map_cons, List.mem_cons] at h ⊢
      rcases h with h | h
      · exact Or.inl h
      · exact Or.inr (ih h)

theorem not_mem_aerase_keys (l : List (α × β)) (x : α) :
    x ∉ (aerase l x).map Prod.fst := by
  intro hmem
  have := (alookup_isSome_iff_mem (aerase l x) x).mpr hmem
  rw [alookup_aerase] at this
  simp at this

theorem nodup_aerase_keys (l : List (α × β)) (x : α)
    (h : (l.map Prod.fst).Nodup) : ((aerase l x).map Prod.fst).Nodup := by
  induction l with
  | nil => simp [aerase]
  | cons p rest ih =>
    rcases p with ⟨a, b⟩
    simp only [List.map_cons, List.nodup_cons] at h
    by_cases hax : a = x
    · simp only [aerase, if_pos hax]
      exact ih h.2
    · simp only [aerase, if_neg hax, List.map_cons, List.nodup_cons]
      exact ⟨fun hc => h.1 (mem_aerase_keys rest x a hc), ih h.2⟩

theorem nodup_ainsert_keys (l : List (α × β)) (x : α) (b : β)
    (h : (l.map Prod.fst).Nodup) : ((ainsert l x b).map Prod.fst).Nodup := by
  simp only [ainsert, List.map_cons, List.nodup_cons]
  exact ⟨not_mem_aerase_keys l x, nodup_aerase_keys l x h⟩

end NodupLemmas

section InvLemmas

variable {K : List Key} {A : FileAttributes}

theorem Inv.found_pointer {st : FetchState} (k : Key) (ptr : LfsPointersEntry)
    (typ : LocalStoreType) (h : Inv K A st) : Inv K A (st.found_pointer k ptr typ) := by
  obtain ⟨h1, h2, h3, h4, h5, h6⟩ := h
  exact ⟨h1, h2, h3, h4, h5, h6⟩

theorem Inv.keyed_error {st : FetchState} {k : Key} (e : Err) (hk : k ∈ K)
    (h : Inv K A st) : Inv K A (st.keyed_error k e) := by
  obtain ⟨h1, h2, h3, h4, h5, h6⟩ := h
  refine ⟨h1, h2, ?_, h4, h5, h6⟩
  intro k' hk'
  rw [keyed_error_fetch_errors] at hk'
  rcases (alookup_apush_isSome st.errors.fetch_errors k e k').mp hk' with rfl | hold
  · exact hk
  · exact h3 k' hold

theorem Inv.other_error {st : FetchState} (e : Err) (h : Inv K A st) :
    Inv K A (st.other_error e) := by
  obtain ⟨h1, h2, h3, h4, h5, h6⟩ := h
  exact ⟨h1, h2, h3, h4, h5, h6⟩

theorem Inv.logQuery {st : FetchState} (t : Tier) (ks : List Key) (h : Inv K A st) :
    Inv K A (st.logQuery t ks) := by
  obtain ⟨h1, h2, h3, h4, h5, h6⟩ := h
  exact ⟨h1, h2, h3, h4, h5, h6⟩

theorem Inv.logProbe {st : FetchState} (t : Tier) (h : Inv K A st) :
    Inv K A (st.logProbe t) := by
  obtain ⟨h1, h2, h3, h4, h5, h6⟩ := h
  exact ⟨h1, h2, h3, h4, h5, h6⟩

theorem Inv_insert_branch (st : FetchState) (k : Key) (v : StoreFile)
    (ko : List (Key × LocalStoreType)) (hk : k ∈ K) (h : Inv K A st)
    (hpres : ∀ sf0, alookup st.found k = some sf0 → sf0.attrs.has A = true →
      v.attrs.has A = true) :
    Inv K A (if v.attrs.has st.request_attrs = true
             then ({ st with key_origin := ko,
                             found := ainsert st.found k v } : FetchState).mark_complete k
             else { st with key_origin := ko, found := ainsert st.found k v }) := by
  obtain ⟨h1, h2, h3, h4, h5, h6⟩ := h
  have i2 : ∀ k', (alookup (ainsert st.found k v) k').isSome = true → k' ∈ K := by
    intro k' hk'
    rw [alookup_ainsert] at hk'
    by_cases hkk : k' = k
    · exact hkk ▸ hk
    · exact h2 k' (by simpa [hkk] using hk')
  have i6 : ((ainsert st.found k v).map Prod.fst).Nodup := nodup_ainsert_keys st.found k v h6
  by_cases hc : v.attrs.has st.request_attrs = true
  · rw [if_pos hc]
    refine ⟨?_, ?_, ?_, ?_, ?_, ?_⟩
    · intro k' hk'
      rw [mark_complete_pending] at hk'
      exact h1 k' (List.mem_of_mem_filter hk')
    · intro k' hk'
      rw [mark_complete_found] at hk'
      exact i2 k' hk'
    · intro k' hk'
      rw [mark_complete_errors] at hk'
      exact h3 k' hk'
    · intro k' hkK
      rw [mark_complete_pending, mark_complete_found]
      by_cases hkk : k' = k
      · subst hkk
        right
        exact ⟨v, by rw [alookup_ainsert]; simp, h5 ▸ hc⟩
      · rcases h4 k' hkK with hp | ⟨sf0, hl, hh⟩
        · left
          exact List.mem_filter.mpr ⟨hp, by simpa using hkk⟩
        · right
          exact ⟨sf0, by rw [alookup_ainsert, if_neg hkk]; exact hl, hh⟩
    · rw [mark_complete_request]
      exact h5
    · rw [mark_complete_found]
      exact i6
  · rw [if_neg hc]
    refine ⟨h1, i2, h3, ?_, h5, i6⟩
    intro k' hkK
    by_cases hkk : k' = k
    · subst hkk
      rcases h4 k' hkK with hp | ⟨sf0, hl, hh⟩
      · exact Or.inl hp
      · right
        exact ⟨v, by rw [alookup_ainsert]; simp, hpres sf0 hl hh⟩
    · rcases h4 k' hkK with hp | ⟨sf0, hl, hh⟩
      · exact Or.inl hp
      · right
        exact ⟨sf0, by rw [alookup_ainsert, if_neg hkk]; exact hl, hh⟩

theorem Inv.found_attributes {st : FetchState} {k : Key} (sf : StoreFile)
    (typ : Option LocalStoreType) (hk : k ∈ K) (h : Inv K A st) :
    Inv K A (st.found_attributes k sf typ) := by
  have h5 := h.2.2.2.2.1
  simp only [FetchState.found_attributes]
  cases hf : alookup st.found k with
  | some old =>
    exact Inv_insert_branch st k (sf.or old) (ainsert st.key_origin k (typ.getD .Cache)) hk h
      (fun sf0 hl hh => by
        rw [hf] at hl
        cases hl
        rw [StoreFile.attrs_or]
        exact FileAttributes.has_bor_right _ _ _ hh)
  | none =>
    exact Inv_insert_branch st k sf (ainsert st.key_origin k (typ.getD .Cache)) hk h
      (fun sf0 hl => by rw [hf] at hl; exact absurd hl (by simp))

end InvLemmas

section PendingLemmas

theorem mem_pending_all {st : FetchState} {f : FileAttributes} {k : Key}
    (h : k ∈ st.pending_all f) : k ∈ st.pending := by
  unfold FetchState.pending_all at h
  split at h
  · simp at h
  · exact List.mem_of_mem_filter h

theorem mem_pending_nonlfs {st : FetchState} {f : FileAttributes} {k : Key}
    (h : k ∈ st.pending_nonlfs f) : k ∈ st.pending := by
  unfold FetchState.pending_nonlfs at h
  split at h
  · simp at h
  · exact List.mem_of_mem_filter (List.mem_of_mem_filter h)

theorem storekey_maybe_into_key (st : FetchState) (k : Key) :
    (st.storekey k).maybe_into_key = some k := by
  unfold FetchState.storekey
  cases alookup st.lfs_pointers k <;> rfl

theorem pending_storekey_key {st : FetchState} {f : FileAttributes} {sk : StoreKey}
    (h : sk ∈ st.pending_storekey f) : ∃ k, k ∈ st.pending ∧ sk.maybe_into_key = some k := by
  unfold FetchState.pending_storekey at h
  split at h
  · simp at h
  · obtain ⟨k, hk, rfl⟩ := List.mem_map.mp h
    exact ⟨k, List.mem_of_mem_filter hk, storekey_maybe_into_key st k⟩

theorem foldl_inv {σ ρ : Type} (P : σ → Prop) (Q : ρ → Prop) (f : σ → ρ → σ)
    (hf : ∀ s a, P s → Q a → P (f s a)) :
    ∀ (l : List ρ) (s : σ), (∀ a, a ∈ l → Q a) → P s → P (l.foldl f s) := by
  intro l
  induction l with
  | nil => intro s _ hs; exact hs
  | cons a rest ih =>
    intro s hq hs
    exact ih (f s a) (fun b hb => hq b (List.mem_cons_of_mem a hb))
      (hf s a hs (hq a (List.mem_cons_self a rest)))

end PendingLemmas

section ProbeInvLemmas

variable {K : List Key} {A : FileAttributes}

theorem Inv.found_indexedlog {st : FetchState} {k : Key} (entry : Entry)
    (typ : LocalStoreType) (hk : k ∈ K) (h : Inv K A st) :
    Inv K A (st.found_indexedlog k entry typ) := by
  unfold FetchState.found_indexedlog
  by_cases hl : entry.metadata.is_lfs
  · rw [if_pos hl]
    by_cases hp : st.extstored_policy = .Use
    · rw [if_pos hp]
      cases LfsPointersEntry.from_bytes entry.content entry.key.hgid with
      | ok ptr => exact h.found_pointer k ptr typ
      | error e => exact h.keyed_error e hk
    · rw [if_neg hp]
      exact h
  · rw [if_neg hl]
    exact Inv.found_attributes _ _ hk h

theorem Inv.fetch_indexedlog {st : FetchState} (store : IndexedLog) (typ : LocalStoreType)
    (h : Inv K A st) : Inv K A (st.fetch_indexedlog store typ) := by
  simp only [FetchState.fetch_indexedlog]
  split
  · exact h
  · refine foldl_inv (Inv K A) (fun k => k ∈ K) _ ?_ _ _ ?_ (h.logQuery _ _)
    · intro s k hs hkK
      cases store.get_raw_entry k with
      | ok o =>
        cases o with
        | some entry => exact hs.found_indexedlog entry typ hkK
        | none => exact hs
      | error e => exact hs.keyed_error e hkK
    · intro k hkp
      exact h.1 k (mem_pending_nonlfs hkp)

theorem Inv.found_aux_indexedlog {st st' : FetchState} {k : Key} (entry : Entry)
    (hk : k ∈ K) (h : Inv K A st) (hr : st.found_aux_indexedlog k entry = .ok st') :
    Inv K A st' := by
  unfold FetchState.found_aux_indexedlog at hr
  cases hp : parseAux entry.content with
  | ok aux =>
    rw [hp] at hr
    cases hr
    exact Inv.found_attributes _ _ hk h
  | error e =>
    rw [hp] at hr
    simp at hr

theorem Inv.fetch_aux_loop (store : IndexedLog) :
    ∀ (ks : List Key) (st : FetchState), (∀ k, k ∈ ks → k ∈ K) → Inv K A st →
      Inv K A (FetchState.fetch_aux_loop store ks st).1 := by
  intro ks
  induction ks with
  | nil => intro st _ h; exact h
  | cons k rest ih =>
    intro st hq h
    have hkK : k ∈ K := hq k (List.mem_cons_self k rest)
    have hrest : ∀ k', k' ∈ rest → k' ∈ K := fun k' hk' => hq k' (List.mem_cons_of_mem k hk')
    unfold FetchState.fetch_aux_loop
    cases store.get_raw_entry k with
    | ok o =>
      cases o with
      | some aux =>
        show Inv K A (match st.found_aux_indexedlog k aux with
          | .ok st' => FetchState.fetch_aux_loop store rest st'
          | .error e => (st, some e)).1
        cases hr : st.found_aux_indexedlog k aux with
        | ok st' => exact ih st' hrest (Inv.found_aux_indexedlog aux hkK h hr)
        | error e => exact h
      | none => exact ih st hrest h
    | error e => exact ih (st.keyed_error k e) hrest (h.keyed_error e hkK)

theorem Inv.fetch_aux_indexedlog {st : FetchState} (store : IndexedLog) (t : Tier)
    (h : Inv K A st) : Inv K A (st.fetch_aux_indexedlog store t) := by
  simp only [FetchState.fetch_aux_indexedlog]
  split
  · exact h
  · have hloop := Inv.fetch_aux_loop store (st.pending_all FileAttributes.AUX)
      (st.logQuery t (st.pending_all FileAttributes.AUX))
      (fun k hk => h.1 k (mem_pending_all hk)) (h.logQuery _ _)
    cases hr : FetchState.fetch_aux_loop store (st.pending_all FileAttributes.AUX)
        (st.logQuery t (st.pending_all FileAttributes.AUX)) with
    | mk st' e? =>
      rw [hr] at hloop
      cases e? with
      | none => exact hloop
      | some e => exact hloop.other_error e

theorem Inv.found_lfs {st : FetchState} {k : Key} (entry : LfsStoreEntry)
    (typ : LocalStoreType) (hk : k ∈ K) (h : Inv K A st) :
    Inv K A (st.found_lfs k entry typ) := by
  unfold FetchState.found_lfs
  cases entry with
  | pointerAndBlob ptr blob => exact Inv.found_attributes _ _ hk h
  | pointerOnly ptr => exact h.found_pointer k ptr typ

theorem Inv.fetch_lfs {st : FetchState} (store : LfsStore) (typ : LocalStoreType)
    (h : Inv K A st) : Inv K A (st.fetch_lfs store typ) := by
  simp only [FetchState.fetch_lfs]
  split
  · exact h
  · refine foldl_inv (Inv K A) (fun sk => ∀ k, sk.maybe_into_key = some k → k ∈ K) _ ?_ _ _ ?_
      (h.logQuery _ _)
    · intro s sk hs hq
      cases hmk : sk.maybe_into_key with
      | none => exact hs
      | some k =>
        cases store.fetch_available sk with
        | ok o =>
          cases o with
          | some entry => exact hs.found_lfs entry typ (hq k hmk)
          | none => exact hs
        | error e => exact hs.keyed_error e (hq k hmk)
    · intro sk hsk k hmk
      obtain ⟨k', hk', hmk'⟩ := pending_storekey_key hsk
      rw [hmk'] at hmk
      have hkk := Option.some.inj hmk
      subst hkk
      exact h.1 _ hk'

theorem mem_get_data_iter {s : MemcacheStore} {keys : List Key}
    {items : List (Except Err McData)} {it : Except Err McData}
    (hok : s.get_data_iter keys = .ok items) (hmem : it ∈ items) :
    ∀ d, it = .ok d → d.key ∈ keys := by
  unfold MemcacheStore.get_data_iter at hok
  split at hok
  · simp at hok
  · simp only [Except.ok.injEq] at hok
    subst hok
    obtain ⟨k, hk, hf⟩ := List.mem_filterMap.mp hmem
    intro d hd
    subst hd
    by_cases hb : k ∈ s.broken
    · simp [hb] at hf
    · simp only [hb, if_neg, ite_false] at hf
      cases hl : alookup s.data k with
      | none => rw [hl] at hf; simp at hf
      | some v =>
        rw [hl] at hf
        simp only [Option.map_some', Option.some.injEq, Except.ok.injEq] at hf
        rw [← hf]
        exact hk

theorem Inv.found_memcache {st : FetchState} (entry : McData)
    (hk : entry.key ∈ K) (h : Inv K A st) : Inv K A (st.found_memcache entry) := by
  unfold FetchState.found_memcache
  split
  · cases LfsPointersEntry.from_bytes entry.data entry.key.hgid with
    | ok ptr => exact h.found_pointer entry.key ptr .Cache
    | error e => exact h.keyed_error e hk
  · refine Inv.found_attributes _ _ hk ?_
    obtain ⟨h1, h2, h3, h4, h5, h6⟩ := h
    exact ⟨h1, h2, h3, h4, h5, h6⟩

theorem Inv.fetch_memcache {st : FetchState} (store : MemcacheStore)
    (h : Inv K A st) : Inv K A (st.fetch_memcache store) := by
  simp only [FetchState.fetch_memcache]
  split
  · exact h
  · cases hr : store.get_data_iter (st.pending_nonlfs FileAttributes.CONTENT) with
    | error e => exact (h.logQuery _ _).other_error e
    | ok items =>
      refine foldl_inv (Inv K A) (fun it => ∀ d, it = .ok d → d.key ∈ K) _ ?_ _ _ ?_
        (h.logQuery _ _)
      · intro s it hs hq
        cases it with
        | ok d => exact hs.found_memcache d (hq d rfl)
        | error e => exact hs.other_error e
      · intro it hit d hd
        exact h.1 d.key (mem_pending_nonlfs (mem_get_data_iter hr hit d hd))

theorem mem_files_blocking {s : EdenApi} {keys : List Key} {entries : List FileEntry}
    {e : FileEntry} (hok : s.files_blocking keys = .ok entries) (hmem : e ∈ entries) :
    e.key ∈ keys := by
  unfold EdenApi.files_blocking at hok
  split at hok
  · simp at hok
  · simp only [Except.ok.injEq] at hok
    subst hok
    obtain ⟨k, hk, hf⟩ := List.mem_filterMap.mp hmem
    cases hl : alookup s.files k with
    | none => rw [hl] at hf; simp at hf
    | some v =>
      rw [hl] at hf
      simp only [Option.map_some', Option.some.injEq] at hf
      rw [← hf]
      exact hk

theorem Inv.found_edenapi {st : FetchState} (entry : FileEntry)
    (hk : entry.key ∈ K) (h : Inv K A st) : Inv K A (st.found_edenapi entry) := by
  unfold FetchState.found_edenapi
  split
  · cases LfsPointersEntry.from_bytes entry.data entry.key.hgid with
    | ok ptr => exact h.found_pointer entry.key ptr .Cache
    | error e => exact h.keyed_error e hk
  · refine Inv.found_attributes _ _ hk ?_
    obtain ⟨h1, h2, h3, h4, h5, h6⟩ := h
    exact ⟨h1, h2, h3, h4, h5, h6⟩

theorem Inv.fetch_edenapi {st : FetchState} (store : EdenApi)
    (h : Inv K A st) : Inv K A (st.fetch_edenapi store) := by
  simp only [FetchState.fetch_edenapi]
  split
  · exact h
  · cases hr : store.files_blocking (st.pending_nonlfs FileAttributes.CONTENT) with
    | error e => exact (h.logQuery _ _).other_error e
    | ok entries =>
      refine foldl_inv (Inv K A) (fun e => e.key ∈ K) _ ?_ _ _ ?_ (h.logQuery _ _)
      · intro s e hs hq
        exact hs.found_edenapi e hq
      · intro e he
        exact h.1 e.key (mem_pending_nonlfs (mem_files_blocking hr he))

theorem Inv.fetch_lfs_remote {st : FetchState} (remote : LfsRemote)
    (locl cache : Option LfsStore) (h : Inv K A st) :
    Inv K A (st.fetch_lfs_remote remote locl cache).1 := by
  have hinner : Inv K A (st.fetch_lfs_remote_inner remote locl cache).1.1 := by
    simp only [FetchState.fetch_lfs_remote_inner]
    split
    · exact h
    · cases hb : LfsRemote.batch_fetch remote
          ((st.lfs_pointers.map (fun kv => (kv.2.sha256, kv.2.size))).dedup)
          (st.logQuery .lfsRemoteT (st.lfs_pointers.map (fun kv => kv.1))).pointer_origin
          locl cache with
      | mk l' rest =>
        cases rest with
        | mk c' e? =>
          cases e? with
          | some e => exact h.logQuery _ _
          | none =>
            have h1 : Inv K A ((st.logQuery .lfsRemoteT
                (st.lfs_pointers.map (fun kv => kv.1)))) := h.logQuery _ _
            cases c' with
            | some c =>
              cases l' with
              | some l => exact Inv.fetch_lfs l .Local (Inv.fetch_lfs c .Cache h1)
              | none => exact Inv.fetch_lfs c .Cache h1
            | none =>
              cases l' with
              | some l => exact Inv.fetch_lfs l .Local h1
              | none => exact h1
  unfold FetchState.fetch_lfs_remote
  cases hr : st.fetch_lfs_remote_inner remote locl cache with
  | mk r e? =>
    rw [hr] at hinner
    cases e? with
    | none => exact hinner
    | some e =>
      cases r with
      | mk st' lc =>
        cases lc with
        | mk l' c' => exact hinner.other_error e

theorem Inv.found_contentstore {st : FetchState} {k : Key} (bytes : Bytes)
    (meta : Metadata) (hk : k ∈ K) (h : Inv K A st) :
    Inv K A (st.found_contentstore k bytes meta) := by
  unfold FetchState.found_contentstore
  split
  · exact h
  · exact Inv.found_attributes _ _ hk h

theorem Inv.fetch_contentstore_loop (store : ContentStore) :
    ∀ (sks : List StoreKey) (st : FetchState),
      (∀ sk, sk ∈ sks → ∀ k, sk.maybe_into_key = some k → k ∈ K) → Inv K A st →
      Inv K A (FetchState.fetch_contentstore_loop store sks st) := by
  intro sks
  induction sks with
  | nil => intro st _ h; exact h
  | cons sk rest ih =>
    intro st hq h
    have hrest : ∀ sk', sk' ∈ rest → ∀ k, sk'.maybe_into_key = some k → k ∈ K :=
      fun sk' hsk' => hq sk' (List.mem_cons_of_mem sk hsk')
    unfold FetchState.fetch_contentstore_loop
    refine ih _ hrest ?_
    cases hmk : sk.maybe_into_key with
    | none => exact h
    | some k =>
      have hkK := hq sk (List.mem_cons_self sk rest) k hmk
      cases store.get sk with
      | ok ob =>
        cases store.get_meta sk with
        | ok om =>
          cases ob with
          | some blob =>
            cases om with
            | some meta => exact h.found_contentstore blob meta hkK
            | none => exact h
          | none =>
            cases om with
            | some meta => exact h
            | none => exact h
        | error e =>
          cases ob with
          | some blob => exact h.keyed_error e hkK
          | none => exact h.keyed_error e hkK
      | error e => exact h.keyed_error e hkK

theorem Inv.fetch_contentstore {st : FetchState} (store : ContentStore)
    (h : Inv K A st) : Inv K A (st.fetch_contentstore store) := by
  have hinner : Inv K A (st.fetch_contentstore_inner store).1 := by
    simp only [FetchState.fetch_contentstore_inner]
    split
    · exact h
    · split
      · exact h.logQuery _ _
      · refine Inv.fetch_contentstore_loop store _ _ ?_ (h.logQuery _ _)
        intro sk hsk k hmk
        obtain ⟨k', hk', hmk'⟩ := pending_storekey_key hsk
        rw [hmk'] at hmk
        have hkk := Option.some.inj hmk
        subst hkk
        exact h.1 _ hk'
  unfold FetchState.fetch_contentstore
  cases hr : st.fetch_contentstore_inner store with
  | mk st' e? =>
    rw [hr] at hinner
    cases e? with
    | none => exact hinner
    | some e => exact hinner.other_error e

end ProbeInvLemmas

section DeriveLemmas

variable {K : List Key} {A : FileAttributes}

theorem alookup_append {α β : Type} [DecidableEq α] (l1 l2 : List (α × β)) (y : α) :
    alookup (l1 ++ l2) y =
      match alookup l1 y with
      | some v => some v
      | none => alookup l2 y := by
  induction l1 with
  | nil => simp [alookup]
  | cons p rest ih =>
    rcases p with ⟨a, b⟩
    by_cases hya : y = a <;> simp [alookup, hya, ih]

theorem alookup_not_mem {α β : Type} [DecidableEq α] (l : List (α × β)) (y : α)
    (h : y ∉ l.map Prod.fst) : alookup l y = none := by
  cases hl : alookup l y with
  | none => rfl
  | some v =>
    exact absurd ((alookup_isSome_iff_mem l y).mp (by rw [hl]; rfl)) h

theorem FileAttributes.has_bor_left (x y A : FileAttributes) (h : x.has A = true) :
    (x.bor y).has A = true := by
  rcases x with ⟨xc, xa⟩
  rcases y with ⟨yc, ya⟩
  rcases A with ⟨ac, aa⟩
  cases xc <;> cases xa <;> cases yc <;> cases ya <;> cases ac <;> cases aa <;>
    simp_all [FileAttributes.has, FileAttributes.sub, FileAttributes.band,
      FileAttributes.bnot, FileAttributes.none_b, FileAttributes.bor]

theorem Inv.deriveStep {st st1 : FetchState} {k : Key} {v v' : StoreFile}
    {acc rest : List (Key × StoreFile)}
    (h : Inv K A { st with found := acc.reverse ++ (k, v) :: rest })
    (hpend : st1.pending = st.pending)
    (hreq : st1.request_attrs = st.request_attrs)
    (herr : ∀ k', (alookup st1.errors.fetch_errors k').isSome = true →
      k' = k ∨ (alookup st.errors.fetch_errors k').isSome = true)
    (hmono : v.attrs.has A = true → v'.attrs.has A = true) :
    Inv K A { (if v'.attrs.has st1.request_attrs = true then st1.mark_complete k else st1) with
      found := (acc.reverse ++ [(k, v')]) ++ rest } := by
  obtain ⟨h1, h2, h3, h4, h5, h6⟩ := h
  have heffkeys : ((acc.reverse ++ [(k, v')]) ++ rest).map Prod.fst =
      (acc.reverse ++ (k, v) :: rest).map Prod.fst := by
    simp
  have hknotacc : k ∉ (acc.reverse).map (Prod.fst (β := StoreFile)) := by
    have h6' := h6
    rw [List.map_append, List.nodup_append] at h6'
    intro hmem
    exact h6'.2.2 hmem (by simp)
  have hlookacc : alookup acc.reverse k = none := alookup_not_mem _ _ hknotacc
  have heffk : alookup (acc.reverse ++ (k, v) :: rest) k = some v := by
    rw [alookup_append, hlookacc]
    simp [alookup]
  have heffk' : alookup ((acc.reverse ++ [(k, v')]) ++ rest) k = some v' := by
    rw [List.append_assoc, alookup_append, hlookacc]
    simp [alookup]
  have heffne : ∀ k'', k'' ≠ k →
      alookup ((acc.reverse ++ [(k, v')]) ++ rest) k'' =
      alookup (acc.reverse ++ (k, v) :: rest) k'' := by
    intro k'' hne
    rw [List.append_assoc]
    rw [alookup_append acc.reverse ([(k, v')] ++ rest) k'']
    rw [alookup_append acc.reverse ((k, v) :: rest) k'']
    cases alookup acc.reverse k'' with
    | some w => rfl
    | none =>
      rw [alookup_append]
      simp [alookup, hne]
  have hkK : k ∈ K := h2 k (by rw [heffk]; rfl)
  have hreqA : st.request_attrs = A := h5
  have hcondA : (v'.attrs.has st1.request_attrs) = (v'.attrs.has A) := by
    rw [hreq, hreqA]
  refine ⟨?_, ?_, ?_, ?_, ?_, ?_⟩
  · intro k'' hk''
    split at hk''
    · rw [mark_complete_pending, hpend] at hk''
      exact h1 k'' (List.mem_of_mem_filter hk'')
    · rw [hpend] at hk''
      exact h1 k'' hk''
  · intro k'' hk''
    have hk2 : (alookup ((acc.reverse ++ [(k, v')]) ++ rest) k'').isSome = true := hk''
    have hmem := (alookup_isSome_iff_mem _ _).mp hk2
    rw [heffkeys] at hmem
    exact h2 k'' ((alookup_isSome_iff_mem _ _).mpr hmem)
  · intro k'' hk''
    split at hk''
    · rw [mark_complete_errors] at hk''
      rcases herr k'' hk'' with rfl | hold
      · exact hkK
      · exact h3 k'' hold
    · rcases herr k'' hk'' with rfl | hold
      · exact hkK
      · exact h3 k'' hold
  · intro k'' hk''K
    by_cases hkk : k'' = k
    · subst hkk
      by_cases hcov : v'.attrs.has A = true
      · right
        exact ⟨v', heffk', hcov⟩
      · left
        have hvnot : v.attrs.has A ≠ true := fun hv => hcov (hmono hv)
        have hpendk : k'' ∈ st.pending := by
          rcases h4 k'' hk''K with hp | ⟨sf0, hl, hh⟩
          · exact hp
          · rw [heffk] at hl
            cases hl
            exact absurd hh hvnot
        have : ¬(v'.attrs.has st1.request_attrs = true) := by
          rw [hcondA]; exact hcov
        rw [if_neg this, hpend]
        exact hpendk
    · rcases h4 k'' hk''K with hp | ⟨sf0, hl, hh⟩
      · left
        split
        · rw [mark_complete_pending, hpend]
          exact List.mem_filter.mpr ⟨hp, by simpa using hkk⟩
        · rw [hpend]
          exact hp
      · right
        exact ⟨sf0, by rw [heffne k'' hkk]; exact hl, hh⟩
  · split
    · rw [mark_complete_request, hreq]
      exact hreqA
    · rw [hreq]
      exact hreqA
  · show (((acc.reverse ++ [(k, v')]) ++ rest).map Prod.fst).Nodup
    rw [heffkeys]
    exact h6

theorem Inv.deriveGo_inv :
    ∀ (el acc : List (Key × StoreFile)) (st : FetchState),
      Inv K A { st with found := acc.reverse ++ el } →
      Inv K A (deriveGo st el acc) := by
  intro el
  induction el with
  | nil =>
    intro acc st h
    unfold deriveGo
    rw [List.append_nil] at h
    exact h
  | cons p rest ih =>
    rcases p with ⟨k, v⟩
    intro acc st h
    simp only [deriveGo]
    by_cases hact :
        ((v.attrs.with_computable).band (st.request_attrs.sub v.attrs)).aux_data = true
    · rw [if_pos hact]
      cases hcomp : v.compute_aux_data with
      | error e =>
        refine ih ((k, v) :: acc) _ ?_
        rw [List.reverse_cons]
        refine Inv.deriveStep h rfl rfl ?_ (fun hv => hv)
        intro k' hk'
        rw [keyed_error_fetch_errors] at hk'
        rcases (alookup_apush_isSome st.errors.fetch_errors k e k').mp hk' with rfl | hold
        · exact Or.inl rfl
        · exact Or.inr hold
      | ok v'' =>
        refine ih ((k, v'') :: acc) _ ?_
        rw [List.reverse_cons]
        refine Inv.deriveStep h rfl rfl (fun k' hk' => Or.inr hk') ?_
        intro hv
        rw [StoreFile.attrs_compute v v'' hcomp]
        exact FileAttributes.has_bor_left _ _ _ hv
    · rw [if_neg hact]
      refine ih ((k, v) :: acc) _ ?_
      rw [List.reverse_cons]
      exact Inv.deriveStep h rfl rfl (fun k' hk' => Or.inr hk') (fun hv => hv)

theorem Inv.derive_computable {st : FetchState} (h : Inv K A st) :
    Inv K A st.derive_computable := by
  unfold FetchState.derive_computable
  split
  · exact Inv.deriveGo_inv st.found [] st h
  · exact h

theorem Inv.write_to_cache {st : FetchState} (ilogCache : Option IndexedLog)
    (mem : Option MemcacheStore) (auxCache auxLocal : Option IndexedLog)
    (h : Inv K A st) : Inv K A (st.write_to_cache ilogCache mem auxCache auxLocal).1 := by
  obtain ⟨h1, h2, h3, h4, h5, h6⟩ := h
  exact ⟨h1, h2, h3, h4, h5, h6⟩

end DeriveLemmas

section PipelineInv

variable {K : List Key} {A : FileAttributes}

theorem Inv_step_aux_cache {p : PState} (h : Inv K A p.1) : Inv K A (step_aux_cache p).1 := by
  unfold step_aux_cache
  cases p.2.aux_cache with
  | some s => exact Inv.fetch_aux_indexedlog s _ (h.logProbe _)
  | none => exact h

theorem Inv_step_aux_local {p : PState} (h : Inv K A p.1) : Inv K A (step_aux_local p).1 := by
  unfold step_aux_local
  cases p.2.aux_local with
  | some s => exact Inv.fetch_aux_indexedlog s _ (h.logProbe _)
  | none => exact h

theorem Inv_step_ilog_cache {p : PState} (h : Inv K A p.1) :
    Inv K A (step_ilog_cache p).1 := by
  unfold step_ilog_cache
  cases p.2.indexedlog_cache with
  | some s => exact Inv.fetch_indexedlog s _ (h.logProbe _)
  | none => exact h

theorem Inv_step_ilog_local {p : PState} (h : Inv K A p.1) :
    Inv K A (step_ilog_local p).1 := by
  unfold step_ilog_local
  cases p.2.indexedlog_local with
  | some s => exact Inv.fetch_indexedlog s _ (h.logProbe _)
  | none => exact h

theorem Inv_step_lfs_cache {p : PState} (h : Inv K A p.1) :
    Inv K A (step_lfs_cache p).1 := by
  unfold step_lfs_cache
  cases p.2.lfs_cache with
  | some s => exact Inv.fetch_lfs s _ (h.logProbe _)
  | none => exact h

theorem Inv_step_lfs_local {p : PState} (h : Inv K A p.1) :
    Inv K A (step_lfs_local p).1 := by
  unfold step_lfs_local
  cases p.2.lfs_local with
  | some s => exact Inv.fetch_lfs s _ (h.logProbe _)
  | none => exact h

theorem Inv_step_memcache {p : PState} (h : Inv K A p.1) : Inv K A (step_memcache p).1 := by
  unfold step_memcache
  cases p.2.memcache with
  | some s => exact Inv.fetch_memcache s (h.logProbe _)
  | none => exact h

theorem Inv_step_edenapi {p : PState} (h : Inv K A p.1) : Inv K A (step_edenapi p).1 := by
  unfold step_edenapi
  cases p.2.edenapi with
  | some s => exact Inv.fetch_edenapi s (h.logProbe _)
  | none => exact h

theorem Inv_step_lfs_remote {p : PState} (h : Inv K A p.1) :
    Inv K A (step_lfs_remote p).1 := by
  unfold step_lfs_remote
  cases p.2.lfs_remote with
  | some r => exact Inv.fetch_lfs_remote r _ _ (h.logProbe _)
  | none => exact h

theorem Inv_step_contentstore {p : PState} (h : Inv K A p.1) :
    Inv K A (step_contentstore p).1 := by
  unfold step_contentstore
  cases p.2.contentstore with
  | some s => exact Inv.fetch_contentstore s (h.logProbe _)
  | none => exact h

theorem Inv_step_derive {p : PState} (h : Inv K A p.1) : Inv K A (step_derive p).1 := by
  unfold step_derive
  exact Inv.derive_computable (h.logProbe _)

theorem Inv_step_writeback {p : PState} (h : Inv K A p.1) : Inv K A (step_writeback p).1 :=
  Inv.write_to_cache (if p.2.cache_to_local_cache then p.2.indexedlog_cache else none)
    (if p.2.cache_to_memcache then p.2.memcache else none) p.2.aux_cache p.2.aux_local
    (h.logProbe .writebackT)

theorem Inv.new (keys : List Key) (attrs : FileAttributes) (fs : FileStore) :
    Inv keys attrs (FetchState.new keys attrs fs) := by
  refine ⟨?_, ?_, ?_, ?_, rfl, ?_⟩
  · intro k hk
    exact List.mem_dedup.mp hk
  · intro k hk
    rw [show (FetchState.new keys attrs fs).found = [] from rfl] at hk
    simp [alookup] at hk
  · intro k hk
    rw [show (FetchState.new keys attrs fs).errors.fetch_errors = [] from rfl] at hk
    simp [alookup] at hk
  · intro k hk
    exact Or.inl (List.mem_dedup.mpr hk)
  · rw [show (FetchState.new keys attrs fs).found = [] from rfl]
    simp

theorem Inv_fetch_pipeline (fs : FileStore) (keys : List Key) (attrs : FileAttributes) :
    Inv keys attrs (Scmstore.fetch_pipeline fs keys attrs).1 := by
  unfold Scmstore.fetch_pipeline
  exact Inv_step_writeback (Inv_step_derive (Inv_step_contentstore (Inv_step_lfs_remote
    (Inv_step_edenapi (Inv_step_memcache (Inv_step_lfs_local (Inv_step_lfs_cache
      (Inv_step_ilog_local (Inv_step_ilog_cache (Inv_step_aux_local (Inv_step_aux_cache
        (Inv.new keys attrs fs))))))))))))

end PipelineInv

section FinishLemmas

theorem alookup_map_mask (l : List (Key × StoreFile)) (m : FileAttributes) (y : Key) :
    alookup (l.map (fun kv => (kv.1, kv.2.mask m))) y =
      (alookup l y).map (fun sf => sf.mask m) := by
  induction l with
  | nil => simp [alookup]
  | cons p rest ih =>
    rcases p with ⟨a, b⟩
    by_cases hya : y = a <;> simp_all [alookup]

theorem finish_complete_lookup (st : FetchState) (k : Key) :
    alookup st.finish.complete k =
      (if k ∈ st.pending then none else alookup st.found k).map
        (fun sf => sf.mask st.request_attrs) := by
  simp only [FetchState.finish]
  rw [alookup_map_mask, alookup_foldl_aerase]

theorem finish_incomplete_none_of_complete (st : FetchState) (k : Key)
    (h : (alookup st.finish.complete k).isSome = true) :
    alookup st.finish.incomplete k = none := by
  have hmem : k ∈ (st.pending.foldl (fun f k => aerase f k) st.found).map Prod.fst := by
    rw [← alookup_isSome_iff_mem, alookup_foldl_aerase]
    rw [finish_complete_lookup] at h
    rcases Option.isSome_iff_exists.mp h with ⟨sf', hsf'⟩
    rcases Option.map_eq_some'.mp hsf' with ⟨sf, hsf, _⟩
    rw [hsf]
    rfl
  simp only [FetchState.finish]
  rw [alookup_foldl_aerase_pairs, if_pos hmem]

theorem finish_incomplete_lookup (st : FetchState) (k : Key) :
    alookup st.finish.incomplete k =
      if k ∈ (st.pending.foldl (fun f k => aerase f k) st.found).map Prod.fst then none
      else if (alookup st.errors.fetch_errors k).isSome then alookup st.errors.fetch_errors k
      else if k ∈ st.pending then some [] else none := by
  simp only [FetchState.finish]
  rw [alookup_foldl_aerase_pairs, alookup_foldl_aorinsert]

end FinishLemmas

section ClaimC1

/-- C1: for every `FileStore::fetch` over key set `K` and attribute
mask `A` (each backend model answers only for queried keys), every key
of `K` lands either in `complete` with its attributes covering `A`, or
in `incomplete`; the two maps are key-disjoint and their keys cover
exactly `K`. -/
theorem C1_fetch_partition (fs : FileStore) (keys : List Key) (attrs : FileAttributes) :
    (∀ k, k ∈ keys ↔
      ((alookup (fs.fetch keys attrs).1.complete k).isSome = true ∨
       (alookup (fs.fetch keys attrs).1.incomplete k).isSome = true)) ∧
    (∀ k, ¬((alookup (fs.fetch keys attrs).1.complete k).isSome = true ∧
            (alookup (fs.fetch keys attrs).1.incomplete k).isSome = true)) ∧
    (∀ k sf, alookup (fs.fetch keys attrs).1.complete k = some sf →
      sf.attrs.has attrs = true) := by
  obtain ⟨h1, h2, h3, h4, h5, h6⟩ := Inv_fetch_pipeline fs keys attrs
  have hres : (fs.fetch keys attrs).1 = (fetch_pipeline fs keys attrs).1.finish := rfl
  set st := (fetch_pipeline fs keys attrs).1 with hst
  have hfa : ∀ k, alookup (st.pending.foldl (fun f k => aerase f k) st.found) k =
      if k ∈ st.pending then none else alookup st.found k := fun k => alookup_foldl_aerase _ _ _
  refine ⟨?_, ?_, ?_⟩
  · intro k
    rw [hres]
    constructor
    · intro hk
      by_cases hp : k ∈ st.pending
      · right
        rw [finish_incomplete_lookup]
        have hnotfa : k ∉ (st.pending.foldl (fun f k => aerase f k) st.found).map Prod.fst := by
          rw [← alookup_isSome_iff_mem, hfa k, if_pos hp]
          simp
        rw [if_neg hnotfa]
        by_cases he : (alookup st.errors.fetch_errors k).isSome = true
        · rw [if_pos he]
          exact he
        · rw [if_neg he, if_pos hp]
          rfl
      · left
        rcases h4 k hk with hp' | ⟨sf, hl, _⟩
        · exact absurd hp' hp
        · rw [finish_complete_lookup, if_neg hp, hl]
          rfl
    · intro hk
      rcases hk with hk | hk
      · rw [finish_complete_lookup] at hk
        by_cases hp : k ∈ st.pending
        · rw [if_pos hp] at hk
          simp at hk
        · rw [if_neg hp] at hk
          cases hl : alookup st.found k with
          | none => rw [hl] at hk; simp at hk
          | some sf => exact h2 k (by rw [hl]; rfl)
      · rw [finish_incomplete_lookup] at hk
        by_cases hm : k ∈ (st.pending.foldl (fun f k => aerase f k) st.found).map Prod.fst
        · rw [if_pos hm] at hk
          simp at hk
        · rw [if_neg hm] at hk
          by_cases he : (alookup st.errors.fetch_errors k).isSome = true
          · exact h3 k he
          · rw [if_neg he] at hk
            by_cases hp : k ∈ st.pending
            · exact h1 k hp
            · rw [if_neg hp] at hk
              simp at hk
  · intro k hk
    rw [hres] at hk
    have := finish_incomplete_none_of_complete st k hk.1
    rw [this] at hk
    simp at hk
  · intro k sf hk
    rw [hres, finish_complete_lookup] at hk
    by_cases hp : k ∈ st.pending
    · rw [if_pos hp] at hk
      simp at hk
    · rw [if_neg hp] at hk
      cases hl : alookup st.found k with
      | none => rw [hl] at hk; simp at hk
      | some sf0 =>
        rw [hl] at hk
        simp only [Option.map_some', Option.some.injEq] at hk
        have hkK : k ∈ keys := h2 k (by rw [hl]; rfl)
        rcases h4 k hkK with hp' | ⟨sf1, hl1, hh1⟩
        · exact absurd hp' hp
        · rw [hl] at hl1
          cases hl1
          rw [← hk, StoreFile.attrs_mask, h5]
          exact FileAttributes.has_band_self _ _ hh1

end ClaimC1

section ClaimC6

/-- C6: if a per-key error was recorded during the probe phase for a
key that is ultimately resolved (present in `complete`), the result
carries no entry for that key in `incomplete` — its error list is
dropped. -/
theorem C6_resolved_key_errors_dropped (fs : FileStore) (keys : List Key)
    (attrs : FileAttributes) (k : Key)
    (herr : (alookup (fetch_pipeline fs keys attrs).1.errors.fetch_errors k).isSome = true)
    (hres : (alookup (fs.fetch keys attrs).1.complete k).isSome = true) :
    alookup (fs.fetch keys attrs).1.incomplete k = none :=
  finish_incomplete_none_of_complete (fetch_pipeline fs keys attrs).1 k hres

/-- Witness for C6: the indexedlog cache fails for `exKey1`, the
indexedlog local then serves it; the error is recorded mid-fetch and
dropped from the result. -/
theorem C6_resolved_key_errors_dropped_witness :
    ((alookup (fetch_pipeline errorThenHitFS [exKey1]
        FileAttributes.CONTENT).1.errors.fetch_errors exKey1).isSome = true) ∧
    ((alookup (errorThenHitFS.fetch [exKey1]
        FileAttributes.CONTENT).1.complete exKey1).isSome = true) ∧
    alookup (errorThenHitFS.fetch [exKey1] FileAttributes.CONTENT).1.incomplete exKey1 = none :=
  ⟨by decide, by decide,
    C6_resolved_key_errors_dropped errorThenHitFS [exKey1] FileAttributes.CONTENT exKey1
      (by decide) (by decide)⟩

end ClaimC6

section ProbesTrace

theorem probes_foldl {ρ : Type} (f : FetchState → ρ → FetchState)
    (hf : ∀ s a, (f s a).probes = s.probes) (l : List ρ) (s : FetchState) :
    (l.foldl f s).probes = s.probes := by
  induction l generalizing s with
  | nil => rfl
  | cons a rest ih => rw [List.foldl, ih, hf]

@[simp] theorem probes_mark_complete (st : FetchState) (k : Key) :
    (st.mark_complete k).probes = st.probes := by
  simp only [FetchState.mark_complete]
  split <;> rfl

@[simp] theorem probes_found_pointer (st : FetchState) (k : Key) (ptr : LfsPointersEntry)
    (typ : LocalStoreType) : (st.found_pointer k ptr typ).probes = st.probes := rfl

@[simp] theorem probes_keyed_error (st : FetchState) (k : Key) (e : Err) :
    (st.keyed_error k e).probes = st.probes := rfl

@[simp] theorem probes_other_error (st : FetchState) (e : Err) :
    (st.other_error e).probes = st.probes := rfl

@[simp] theorem probes_logQuery (st : FetchState) (t : Tier) (ks : List Key) :
    (st.logQuery t ks).probes = st.probes := rfl

theorem probes_if_mark (c : Prop) [Decidable c] (s : FetchState) (k : Key) :
    (if c then s.mark_complete k else s).probes = s.probes := by
  split <;> simp [probes_mark_complete]

@[simp] theorem probes_found_attributes (st : FetchState) (k : Key) (sf : StoreFile)
    (typ : Option LocalStoreType) : (st.found_attributes k sf typ).probes = st.probes := by
  simp only [FetchState.found_attributes]
  cases alookup st.found k with
  | some old => exact probes_if_mark _ _ _
  | none => exact probes_if_mark _ _ _

@[simp] theorem probes_found_indexedlog (st : FetchState) (k : Key) (entry : Entry)
    (typ : LocalStoreType) : (st.found_indexedlog k entry typ).probes = st.probes := by
  unfold FetchState.found_indexedlog
  split
  · split
    · cases LfsPointersEntry.from_bytes entry.content entry.key.hgid <;> rfl
    · rfl
  · simp [probes_found_attributes]

theorem probes_fetch_indexedlog (st : FetchState) (store : IndexedLog)
    (typ : LocalStoreType) : (st.fetch_indexedlog store typ).probes = st.probes := by
  simp only [FetchState.fetch_indexedlog]
  split
  · rfl
  · rw [probes_foldl]
    · rfl
    · intro s k
      cases store.get_raw_entry k with
      | ok o => cases o <;> simp [probes_found_indexedlog]
      | error e => rfl

theorem probes_fetch_aux_loop (store : IndexedLog) (ks : List Key) (st : FetchState) :
    (FetchState.fetch_aux_loop store ks st).1.probes = st.probes := by
  induction ks generalizing st with
  | nil => rfl
  | cons k rest ih =>
    unfold FetchState.fetch_aux_loop
    cases store.get_raw_entry k with
    | ok o =>
      cases o with
      | some aux =>
        show (match st.found_aux_indexedlog k aux with
          | .ok st' => FetchState.fetch_aux_loop store rest st'
          | .error e => (st, some e)).1.probes = st.probes
        cases hr : st.found_aux_indexedlog k aux with
        | ok st' =>
          rw [ih st']
          unfold FetchState.found_aux_indexedlog at hr
          cases hp : parseAux aux.content
          all_goals rw [hp] at hr
          · simp at hr
          · cases hr
            simp [probes_found_attributes]
        | error e => rfl
      | none => exact ih st
    | error e => exact ih (st.keyed_error k e)

theorem probes_fetch_aux_indexedlog (st : FetchState) (store : IndexedLog) (t : Tier) :
    (st.fetch_aux_indexedlog store t).probes = st.probes := by
  simp only [FetchState.fetch_aux_indexedlog]
  split
  · rfl
  · cases hr : FetchState.fetch_aux_loop store (st.pending_all FileAttributes.AUX)
        (st.logQuery t (st.pending_all FileAttributes.AUX)) with
    | mk st' e? =>
      have := probes_fetch_aux_loop store (st.pending_all FileAttributes.AUX)
        (st.logQuery t (st.pending_all FileAttributes.AUX))
      rw [hr] at this
      cases e? <;> exact this

theorem probes_fetch_lfs (st : FetchState) (store : LfsStore) (typ : LocalStoreType) :
    (st.fetch_lfs store typ).probes = st.probes := by
  simp only [FetchState.fetch_lfs]
  split
  · rfl
  · rw [probes_foldl]
    · rfl
    · intro s sk
      cases sk.maybe_into_key with
      | none => rfl
      | some k =>
        cases store.fetch_available sk with
        | ok o =>
          cases o with
          | some entry =>
            cases entry <;> simp [FetchState.found_lfs, probes_found_attributes]
          | none => rfl
        | error e => rfl

@[simp] theorem probes_found_memcache (st : FetchState) (entry : McData) :
    (st.found_memcache entry).probes = st.probes := by
  unfold FetchState.found_memcache
  split
  · cases LfsPointersEntry.from_bytes entry.data entry.key.hgid <;> rfl
  · simp [probes_found_attributes]

@[simp] theorem probes_found_edenapi (st : FetchState) (entry : FileEntry) :
    (st.found_edenapi entry).probes = st.probes := by
  unfold FetchState.found_edenapi
  split
  · cases LfsPointersEntry.from_bytes entry.data entry.key.hgid <;> rfl
  · simp [probes_found_attributes]

theorem probes_fetch_memcache (st : FetchState) (store : MemcacheStore) :
    (st.fetch_memcache store).probes = st.probes := by
  simp only [FetchState.fetch_memcache]
  split
  · rfl
  · cases store.get_data_iter (st.pending_nonlfs FileAttributes.CONTENT) with
    | error e => rfl
    | ok items =>
      rw [probes_foldl]
      · rfl
      · intro s it
        cases it with
        | ok d => exact probes_found_memcache s d
        | error e => rfl

theorem probes_fetch_edenapi (st : FetchState) (store : EdenApi) :
    (st.fetch_edenapi store).probes = st.probes := by
  simp only [FetchState.fetch_edenapi]
  split
  · rfl
  · cases store.files_blocking (st.pending_nonlfs FileAttributes.CONTENT) with
    | error e => rfl
    | ok entries =>
      rw [probes_foldl]
      · rfl
      · intro s e
        exact probes_found_edenapi s e

theorem probes_fetch_lfs_remote (st : FetchState) (remote : LfsRemote)
    (locl cache : Option LfsStore) :
    (st.fetch_lfs_remote remote locl cache).1.probes = st.probes := by
  have hinner : (st.fetch_lfs_remote_inner remote locl cache).1.1.probes = st.probes := by
    simp only [FetchState.fetch_lfs_remote_inner]
    split
    · rfl
    · cases LfsRemote.batch_fetch remote
          ((st.lfs_pointers.map (fun kv => (kv.2.sha256, kv.2.size))).dedup)
          (st.logQuery .lfsRemoteT (st.lfs_pointers.map (fun kv => kv.1))).pointer_origin
          locl cache with
      | mk l' rest =>
        cases rest with
        | mk c' e? =>
          cases e? with
          | some e => rfl
          | none =>
            cases c' <;> cases l' <;> simp [probes_fetch_lfs]
  unfold FetchState.fetch_lfs_remote
  cases hr : st.fetch_lfs_remote_inner remote locl cache with
  | mk r e? =>
    rw [hr] at hinner
    cases e? with
    | none => exact hinner
    | some e =>
      cases r with
      | mk st' lc =>
        cases lc with
        | mk l' c' => exact hinner

theorem probes_fetch_contentstore (st : FetchState) (store : ContentStore) :
    (st.fetch_contentstore store).probes = st.probes := by
  have hfcs : ∀ (s : FetchState) (k : Key) (bytes : Bytes) (meta : Metadata),
      (s.found_contentstore k bytes meta).probes = s.probes := by
    intro s k bytes meta
    unfold FetchState.found_contentstore
    split
    · rfl
    · simp [probes_found_attributes]
  have hloop : ∀ (sks : List StoreKey) (s : FetchState),
      (FetchState.fetch_contentstore_loop store sks s).probes = s.probes := by
    intro sks
    induction sks with
    | nil => intro s; rfl
    | cons sk rest ih =>
      intro s
      unfold FetchState.fetch_contentstore_loop
      rw [ih]
      split
      · rfl
      · cases store.get sk with
        | ok ob =>
          cases store.get_meta sk with
          | ok om =>
            cases ob with
            | some blob =>
              cases om with
              | some meta => exact hfcs s _ blob meta
              | none => rfl
            | none => cases om <;> rfl
          | error e => cases ob <;> rfl
        | error e => rfl
  have hinner : (st.fetch_contentstore_inner store).1.probes = st.probes := by
    simp only [FetchState.fetch_contentstore_inner]
    split
    · rfl
    · split
      · rfl
      · rw [hloop]
        rfl
  unfold FetchState.fetch_contentstore
  cases hr : st.fetch_contentstore_inner store with
  | mk st' e? =>
    rw [hr] at hinner
    cases e? <;> exact hinner

theorem probes_deriveGo (el acc : List (Key × StoreFile)) (st : FetchState) :
    (deriveGo st el acc).probes = st.probes := by
  induction el generalizing acc st with
  | nil => rfl
  | cons p rest ih =>
    rcases p with ⟨k, v⟩
    simp only [deriveGo]
    rw [ih]
    split
    · cases v.compute_aux_data <;> simp [probes_mark_complete] <;> split <;>
        simp [probes_mark_complete]
    · split <;> simp [probes_mark_complete]

theorem probes_derive_computable (st : FetchState) :
    st.derive_computable.probes = st.probes := by
  unfold FetchState.derive_computable
  split
  · exact probes_deriveGo st.found [] st
  · rfl

end ProbesTrace

section ClaimC2

@[simp] theorem probes_new (keys : List Key) (attrs : FileAttributes) (fs : FileStore) :
    (FetchState.new keys attrs fs).probes = [] := rfl

@[simp] theorem probes_write_to_cache (st : FetchState) (a : Option IndexedLog)
    (b : Option MemcacheStore) (c d : Option IndexedLog) :
    (st.write_to_cache a b c d).1.probes = st.probes := rfl

theorem probes_step_aux_cache (p : PState) :
    (step_aux_cache p).1.probes =
      p.1.probes ++ (if p.2.aux_cache.isSome then [Tier.auxCacheT] else []) := by
  unfold step_aux_cache
  cases p.2.aux_cache with
  | some s => simp [probes_fetch_aux_indexedlog, FetchState.logProbe]
  | none => simp

theorem probes_step_aux_local (p : PState) :
    (step_aux_local p).1.probes =
      p.1.probes ++ (if p.2.aux_local.isSome then [Tier.auxLocalT] else []) := by
  unfold step_aux_local
  cases p.2.aux_local with
  | some s => simp [probes_fetch_aux_indexedlog, FetchState.logProbe]
  | none => simp

theorem probes_step_ilog_cache (p : PState) :
    (step_ilog_cache p).1.probes =
      p.1.probes ++ (if p.2.indexedlog_cache.isSome then [Tier.ilogCacheT] else []) := by
  unfold step_ilog_cache
  cases p.2.indexedlog_cache with
  | some s => simp [probes_fetch_indexedlog, FetchState.logProbe]
  | none => simp

theorem probes_step_ilog_local (p : PState) :
    (step_ilog_local p).1.probes =
      p.1.probes ++ (if p.2.indexedlog_local.isSome then [Tier.ilogLocalT] else []) := by
  unfold step_ilog_local
  cases p.2.indexedlog_local with
  | some s => simp [probes_fetch_indexedlog, FetchState.logProbe]
  | none => simp

theorem probes_step_lfs_cache (p : PState) :
    (step_lfs_cache p).1.probes =
      p.1.probes ++ (if p.2.lfs_cache.isSome then [Tier.lfsCacheT] else []) := by
  unfold step_lfs_cache
  cases p.2.lfs_cache with
  | some s => simp [probes_fetch_lfs, FetchState.logProbe]
  | none => simp

theorem probes_step_lfs_local (p : PState) :
    (step_lfs_local p).1.probes =
      p.1.probes ++ (if p.2.lfs_local.isSome then [Tier.lfsLocalT] else []) := by
  unfold step_lfs_local
  cases p.2.lfs_local with
  | some s => simp [probes_fetch_lfs, FetchState.logProbe]
  | none => simp

theorem probes_step_memcache (p : PState) :
    (step_memcache p).1.probes =
      p.1.probes ++ (if p.2.memcache.isSome then [Tier.memcacheT] else []) := by
  unfold step_memcache
  cases p.2.memcache with
  | some s => simp [probes_fetch_memcache, FetchState.logProbe]
  | none => simp

theorem probes_step_edenapi (p : PState) :
    (step_edenapi p).1.probes =
      p.1.probes ++ (if p.2.edenapi.isSome then [Tier.edenapiT] else []) := by
  unfold step_edenapi
  cases p.2.edenapi with
  | some s => simp [probes_fetch_edenapi, FetchState.logProbe]
  | none => simp

theorem probes_step_lfs_remote (p : PState) :
    (step_lfs_remote p).1.probes =
      p.1.probes ++ (if p.2.lfs_remote.isSome then [Tier.lfsRemoteT] else []) := by
  unfold step_lfs_remote
  cases p.2.lfs_remote with
  | some r => simp [probes_fetch_lfs_remote, FetchState.logProbe]
  | none => simp

theorem probes_step_contentstore (p : PState) :
    (step_contentstore p).1.probes =
      p.1.probes ++ (if p.2.contentstore.isSome then [Tier.contentstoreT] else []) := by
  unfold step_contentstore
  cases p.2.contentstore with
  | some s => simp [probes_fetch_contentstore, FetchState.logProbe]
  | none => simp

theorem probes_step_derive (p : PState) :
    (step_derive p).1.probes = p.1.probes ++ [Tier.deriveT] := by
  simp [step_derive, probes_derive_computable, FetchState.logProbe]

theorem probes_step_writeback (p : PState) :
    (step_writeback p).1.probes = p.1.probes ++ [Tier.writebackT] := by
  simp [step_writeback, FetchState.logProbe]

theorem fs_step_aux_cache (p : PState) : (step_aux_cache p).2 = p.2 := by
  unfold step_aux_cache
  cases p.2.aux_cache <;> rfl

theorem fs_step_aux_local (p : PState) : (step_aux_local p).2 = p.2 := by
  unfold step_aux_local
  cases p.2.aux_local <;> rfl

theorem fs_step_ilog_cache (p : PState) : (step_ilog_cache p).2 = p.2 := by
  unfold step_ilog_cache
  cases p.2.indexedlog_cache <;> rfl

theorem fs_step_ilog_local (p : PState) : (step_ilog_local p).2 = p.2 := by
  unfold step_ilog_local
  cases p.2.indexedlog_local <;> rfl

theorem fs_step_lfs_cache (p : PState) : (step_lfs_cache p).2 = p.2 := by
  unfold step_lfs_cache
  cases p.2.lfs_cache <;> rfl

theorem fs_step_lfs_local (p : PState) : (step_lfs_local p).2 = p.2 := by
  unfold step_lfs_local
  cases p.2.lfs_local <;> rfl

theorem fs_step_memcache (p : PState) : (step_memcache p).2 = p.2 := by
  unfold step_memcache
  cases p.2.memcache <;> rfl

theorem fs_step_edenapi (p : PState) : (step_edenapi p).2 = p.2 := by
  unfold step_edenapi
  cases p.2.edenapi <;> rfl

theorem fs_step_lfs_remote_contentstore (p : PState) :
    (step_lfs_remote p).2.contentstore = p.2.contentstore := by
  unfold step_lfs_remote
  cases p.2.lfs_remote <;> rfl

theorem filter_eq_ite_append (p : Tier → Bool) (a : Tier) (l : List Tier) :
    (a :: l).filter p = (if p a = true then [a] else []) ++ l.filter p := by
  by_cases h : p a = true <;> simp [List.filter_cons, h]

theorem filter_specTierOrder (p : Tier → Bool) :
    specTierOrder.filter p =
      (if p .auxCacheT = true then [Tier.auxCacheT] else []) ++
      (if p .auxLocalT = true then [Tier.auxLocalT] else []) ++
      (if p .ilogCacheT = true then [Tier.ilogCacheT] else []) ++
      (if p .ilogLocalT = true then [Tier.ilogLocalT] else []) ++
      (if p .lfsCacheT = true then [Tier.lfsCacheT] else []) ++
      (if p .lfsLocalT = true then [Tier.lfsLocalT] else []) ++
      (if p .memcacheT = true then [Tier.memcacheT] else []) ++
      (if p .edenapiT = true then [Tier.edenapiT] else []) ++
      (if p .lfsRemoteT = true then [Tier.lfsRemoteT] else []) ++
      (if p .contentstoreT = true then [Tier.contentstoreT] else []) := by
  simp only [specTierOrder]
  rw [filter_eq_ite_append, filter_eq_ite_append, filter_eq_ite_append,
    filter_eq_ite_append, filter_eq_ite_append, filter_eq_ite_append,
    filter_eq_ite_append, filter_eq_ite_append, filter_eq_ite_append,
    filter_eq_ite_append, List.filter_nil]
  simp [List.append_assoc]

set_option maxRecDepth 8192 in
/-- C2: every fetch probes the configured tiers in exactly the fixed
spec order — aux cache, aux local, indexedlog cache, indexedlog local,
LFS cache, LFS local, memcache, remote API, remote LFS, legacy
fallback — skipping unconfigured ones, and only then runs derivation,
then writeback, before assembling the result. -/
theorem C2_probe_order (fs : FileStore) (keys : List Key) (attrs : FileAttributes) :
    (fetch_pipeline fs keys attrs).1.probes =
      specTierOrder.filter fs.tierConfigured ++ [Tier.deriveT, Tier.writebackT] := by
  rw [filter_specTierOrder]
  simp only [FileStore.tierConfigured]
  unfold fetch_pipeline
  simp only [probes_step_writeback, probes_step_derive, probes_step_contentstore,
    probes_step_lfs_remote, probes_step_edenapi, probes_step_memcache,
    probes_step_lfs_local, probes_step_lfs_cache, probes_step_ilog_local,
    probes_step_ilog_cache, probes_step_aux_local, probes_step_aux_cache,
    fs_step_aux_cache, fs_step_aux_local, fs_step_ilog_cache, fs_step_ilog_local,
    fs_step_lfs_cache, fs_step_lfs_local, fs_step_memcache, fs_step_edenapi,
    fs_step_lfs_remote_contentstore, probes_new]
  simp [List.append_assoc]

end ClaimC2

section ClaimC10

theorem none_sub_band_any (x y : FileAttributes) :
    ((FileAttributes.NONE.sub x).band y).any_b = false := by
  rcases x with ⟨xc, xa⟩
  rcases y with ⟨yc, ya⟩
  simp [FileAttributes.NONE, FileAttributes.sub, FileAttributes.band, FileAttributes.bnot,
    FileAttributes.any_b]

theorem pending_for_none {st : FetchState} (k : Key) (f : FileAttributes)
    (h : st.request_attrs = FileAttributes.NONE) : st.pending_for k f = false := by
  unfold FetchState.pending_for
  split
  · rfl
  · rw [h]
    exact none_sub_band_any _ _

theorem pending_all_none {st : FetchState} (f : FileAttributes)
    (h : st.request_attrs = FileAttributes.NONE) : st.pending_all f = [] := by
  have hp : ∀ k, st.pending_for k f = false := fun k => pending_for_none k f h
  simp [FetchState.pending_all, hp]

theorem pending_nonlfs_none {st : FetchState} (f : FileAttributes)
    (h : st.request_attrs = FileAttributes.NONE) : st.pending_nonlfs f = [] := by
  have hp : ∀ k, st.pending_for k f = false := fun k => pending_for_none k f h
  simp [FetchState.pending_nonlfs, hp]

theorem pending_storekey_none {st : FetchState} (f : FileAttributes)
    (h : st.request_attrs = FileAttributes.NONE) : st.pending_storekey f = [] := by
  have hp : ∀ k, st.pending_for k f = false := fun k => pending_for_none k f h
  simp [FetchState.pending_storekey, hp]

theorem fetch_indexedlog_none {st : FetchState} (store : IndexedLog) (typ : LocalStoreType)
    (h : st.request_attrs = FileAttributes.NONE) : st.fetch_indexedlog store typ = st := by
  simp [FetchState.fetch_indexedlog, pending_nonlfs_none _ h]

theorem fetch_aux_indexedlog_none {st : FetchState} (store : IndexedLog) (t : Tier)
    (h : st.request_attrs = FileAttributes.NONE) : st.fetch_aux_indexedlog store t = st := by
  simp [FetchState.fetch_aux_indexedlog, pending_all_none _ h]

theorem fetch_lfs_none {st : FetchState} (store : LfsStore) (typ : LocalStoreType)
    (h : st.request_attrs = FileAttributes.NONE) : st.fetch_lfs store typ = st := by
  simp [FetchState.fetch_lfs, pending_storekey_none _ h]

theorem fetch_memcache_none {st : FetchState} (store : MemcacheStore)
    (h : st.request_attrs = FileAttributes.NONE) : st.fetch_memcache store = st := by
  simp [FetchState.fetch_memcache, pending_nonlfs_none _ h]

theorem fetch_edenapi_none {st : FetchState} (store : EdenApi)
    (h : st.request_attrs = FileAttributes.NONE) : st.fetch_edenapi store = st := by
  simp [FetchState.fetch_edenapi, pending_nonlfs_none _ h]

theorem fetch_contentstore_none {st : FetchState} (store : ContentStore)
    (h : st.request_attrs = FileAttributes.NONE) : st.fetch_contentstore store = st := by
  unfold FetchState.fetch_contentstore
  have hinner : st.fetch_contentstore_inner store = (st, none) := by
    simp [FetchState.fetch_contentstore_inner, pending_storekey_none _ h]
  rw [hinner]

theorem fetch_lfs_remote_empty {st : FetchState} (remote : LfsRemote)
    (locl cache : Option LfsStore) (h : st.lfs_pointers = []) :
    st.fetch_lfs_remote remote locl cache = (st, locl, cache) := by
  unfold FetchState.fetch_lfs_remote
  have hinner : st.fetch_lfs_remote_inner remote locl cache = ((st, locl, cache), none) := by
    simp [FetchState.fetch_lfs_remote_inner, h]
  rw [hinner]

theorem derive_computable_empty {st : FetchState} (hfound : st.found = []) :
    st.derive_computable = st := by
  rcases st with ⟨f1, f2, f3, f4, f5, f6, f7, f8, f9, f10, f11, f12, f13, f14⟩
  simp only at hfound
  subst hfound
  unfold FetchState.derive_computable
  split
  · unfold deriveGo
    rfl
  · rfl

theorem write_to_cache_empty {st : FetchState} (a : Option IndexedLog)
    (b : Option MemcacheStore) (c d : Option IndexedLog)
    (h1 : st.found_in_edenapi = []) (h2 : st.found_in_memcache = [])
    (h3 : st.computed_aux_data = []) :
    st.write_to_cache a b c d = (st, a, b, c, d) := by
  rcases st with ⟨f1, f2, f3, f4, f5, f6, f7, f8, f9, f10, f11, f12, f13, f14⟩
  simp only at h1 h2 h3
  subst h1
  subst h2
  subst h3
  unfold FetchState.write_to_cache writebackEdenapi writebackMemcache writebackComputed
  rfl

theorem step_none_aux_cache {fs : FileStore} {keys : List Key} {p : PState}
    (h1 : ∃ pr, p.1 = { FetchState.new keys FileAttributes.NONE fs with probes := pr })
    (h2 : p.2 = fs) :
    (∃ pr, (step_aux_cache p).1 =
      { FetchState.new keys FileAttributes.NONE fs with probes := pr }) ∧
    (step_aux_cache p).2 = fs := by
  obtain ⟨pr, hp⟩ := h1
  unfold step_aux_cache
  rw [h2]
  cases fs.aux_cache with
  | some s =>
    refine ⟨⟨pr ++ [Tier.auxCacheT], ?_⟩, rfl⟩
    have hreq : (p.1.logProbe Tier.auxCacheT).request_attrs = FileAttributes.NONE := by
      rw [hp]; rfl
    show (p.1.logProbe Tier.auxCacheT).fetch_aux_indexedlog s Tier.auxCacheT = _
    rw [fetch_aux_indexedlog_none s Tier.auxCacheT hreq, hp]
    rfl
  | none => exact ⟨⟨pr, hp⟩, h2⟩

theorem step_none_aux_local {fs : FileStore} {keys : List Key} {p : PState}
    (h1 : ∃ pr, p.1 = { FetchState.new keys FileAttributes.NONE fs with probes := pr })
    (h2 : p.2 = fs) :
    (∃ pr, (step_aux_local p).1 =
      { FetchState.new keys FileAttributes.NONE fs with probes := pr }) ∧
    (step_aux_local p).2 = fs := by
  obtain ⟨pr, hp⟩ := h1
  unfold step_aux_local
  rw [h2]
  cases fs.aux_local with
  | some s =>
    refine ⟨⟨pr ++ [Tier.auxLocalT], ?_⟩, rfl⟩
    have hreq : (p.1.logProbe Tier.auxLocalT).request_attrs = FileAttributes.NONE := by
      rw [hp]; rfl
    show (p.1.logProbe Tier.auxLocalT).fetch_aux_indexedlog s Tier.auxLocalT = _
    rw [fetch_aux_indexedlog_none s Tier.auxLocalT hreq, hp]
    rfl
  | none => exact ⟨⟨pr, hp⟩, h2⟩

theorem step_none_ilog_cache {fs : FileStore} {keys : List Key} {p : PState}
    (h1 : ∃ pr, p.1 = { FetchState.new keys FileAttributes.NONE fs with probes := pr })
    (h2 : p.2 = fs) :
    (∃ pr, (step_ilog_cache p).1 =
      { FetchState.new keys FileAttributes.NONE fs with probes := pr }) ∧
    (step_ilog_cache p).2 = fs := by
  obtain ⟨pr, hp⟩ := h1
  unfold step_ilog_cache
  rw [h2]
  cases fs.indexedlog_cache with
  | some s =>
    refine ⟨⟨pr ++ [Tier.ilogCacheT], ?_⟩, rfl⟩
    have hreq : (p.1.logProbe Tier.ilogCacheT).request_attrs = FileAttributes.NONE := by
      rw [hp]; rfl
    show (p.1.logProbe Tier.ilogCacheT).fetch_indexedlog s LocalStoreType.Cache = _
    rw [fetch_indexedlog_none s LocalStoreType.Cache hreq, hp]
    rfl
  | none => exact ⟨⟨pr, hp⟩, h2⟩

theorem step_none_ilog_local {fs : FileStore} {keys : List Key} {p : PState}
    (h1 : ∃ pr, p.1 = { FetchState.new keys FileAttributes.NONE fs with probes := pr })
    (h2 : p.2 = fs) :
    (∃ pr, (step_ilog_local p).1 =
      { FetchState.new keys FileAttributes.NONE fs with probes := pr }) ∧
    (step_ilog_local p).2 = fs := by
  obtain ⟨pr, hp⟩ := h1
  unfold step_ilog_local
  rw [h2]
  cases fs.indexedlog_local with
  | some s =>
    refine ⟨⟨pr ++ [Tier.ilogLocalT], ?_⟩, rfl⟩
    have hreq : (p.1.logProbe Tier.ilogLocalT).request_attrs = FileAttributes.NONE := by
      rw [hp]; rfl
    show (p.1.logProbe Tier.ilogLocalT).fetch_indexedlog s LocalStoreType.Local = _
    rw [fetch_indexedlog_none s LocalStoreType.Local hreq, hp]
    rfl
  | none => exact ⟨⟨pr, hp⟩, h2⟩

theorem step_none_lfs_cache {fs : FileStore} {keys : List Key} {p : PState}
    (h1 : ∃ pr, p.1 = { FetchState.new keys FileAttributes.NONE fs with probes := pr })
    (h2 : p.2 = fs) :
    (∃ pr, (step_lfs_cache p).1 =
      { FetchState.new keys FileAttributes.NONE fs with probes := pr }) ∧
    (step_lfs_cache p).2 = fs := by
  obtain ⟨pr, hp⟩ := h1
  unfold step_lfs_cache
  rw [h2]
  cases fs.lfs_cache with
  | some s =>
    refine ⟨⟨pr ++ [Tier.lfsCacheT], ?_⟩, rfl⟩
    have hreq : (p.1.logProbe Tier.lfsCacheT).request_attrs = FileAttributes.NONE := by
      rw [hp]; rfl
    show (p.1.logProbe Tier.lfsCacheT).fetch_lfs s LocalStoreType.Cache = _
    rw [fetch_lfs_none s LocalStoreType.Cache hreq, hp]
    rfl
  | none => exact ⟨⟨pr, hp⟩, h2⟩

theorem step_none_lfs_local {fs : FileStore} {keys : List Key} {p : PState}
    (h1 : ∃ pr, p.1 = { FetchState.new keys FileAttributes.NONE fs with probes := pr })
    (h2 : p.2 = fs) :
    (∃ pr, (step_lfs_local p).1 =
      { FetchState.new keys FileAttributes.NONE fs with probes := pr }) ∧
    (step_lfs_local p).2 = fs := by
  obtain ⟨pr, hp⟩ := h1
  unfold step_lfs_local
  rw [h2]
  cases fs.lfs_local with
  | some s =>
    refine ⟨⟨pr ++ [Tier.lfsLocalT], ?_⟩, rfl⟩
    have hreq : (p.1.logProbe Tier.lfsLocalT).request_attrs = FileAttributes.NONE := by
      rw [hp]; rfl
    show (p.1.logProbe Tier.lfsLocalT).fetch_lfs s LocalStoreType.Local = _
    rw [fetch_lfs_none s LocalStoreType.Local hreq, hp]
    rfl
  | none => exact ⟨⟨pr, hp⟩, h2⟩

theorem step_none_memcache {fs : FileStore} {keys : List Key} {p : PState}
    (h1 : ∃ pr, p.1 = { FetchState.new keys FileAttributes.NONE fs with probes := pr })
    (h2 : p.2 = fs) :
    (∃ pr, (step_memcache p).1 =
      { FetchState.new keys FileAttributes.NONE fs with probes := pr }) ∧
    (step_memcache p).2 = fs := by
  obtain ⟨pr, hp⟩ := h1
  unfold step_memcache
  rw [h2]
  cases fs.memcache with
  | some s =>
    refine ⟨⟨pr ++ [Tier.memcacheT], ?_⟩, rfl⟩
    have hreq : (p.1.logProbe Tier.memcacheT).request_attrs = FileAttributes.NONE := by
      rw [hp]; rfl
    show (p.1.logProbe Tier.memcacheT).fetch_memcache s = _
    rw [fetch_memcache_none s hreq, hp]
    rfl
  | none => exact ⟨⟨pr, hp⟩, h2⟩

theorem step_none_edenapi {fs : FileStore} {keys : List Key} {p : PState}
    (h1 : ∃ pr, p.1 = { FetchState.new keys FileAttributes.NONE fs with probes := pr })
    (h2 : p.2 = fs) :
    (∃ pr, (step_edenapi p).1 =
      { FetchState.new keys FileAttributes.NONE fs with probes := pr }) ∧
    (step_edenapi p).2 = fs := by
  obtain ⟨pr, hp⟩ := h1
  unfold step_edenapi
  rw [h2]
  cases fs.edenapi with
  | some s =>
    refine ⟨⟨pr ++ [Tier.edenapiT], ?_⟩, rfl⟩
    have hreq : (p.1.logProbe Tier.edenapiT).request_attrs = FileAttributes.NONE := by
      rw [hp]; rfl
    show (p.1.logProbe Tier.edenapiT).fetch_edenapi s = _
    rw [fetch_edenapi_none s hreq, hp]
    rfl
  | none => exact ⟨⟨pr, hp⟩, h2⟩

theorem step_none_contentstore {fs : FileStore} {keys : List Key} {p : PState}
    (h1 : ∃ pr, p.1 = { FetchState.new keys FileAttributes.NONE fs with probes := pr })
    (h2 : p.2 = fs) :
    (∃ pr, (step_contentstore p).1 =
      { FetchState.new keys FileAttributes.NONE fs with probes := pr }) ∧
    (step_contentstore p).2 = fs := by
  obtain ⟨pr, hp⟩ := h1
  unfold step_contentstore
  rw [h2]
  cases fs.contentstore with
  | some s =>
    refine ⟨⟨pr ++ [Tier.contentstoreT], ?_⟩, rfl⟩
    have hreq : (p.1.logProbe Tier.contentstoreT).request_attrs = FileAttributes.NONE := by
      rw [hp]; rfl
    show (p.1.logProbe Tier.contentstoreT).fetch_contentstore s = _
    rw [fetch_contentstore_none s hreq, hp]
    rfl
  | none => exact ⟨⟨pr, hp⟩, h2⟩

theorem step_none_lfs_remote {fs : FileStore} {keys : List Key} {p : PState}
    (h1 : ∃ pr, p.1 = { FetchState.new keys FileAttributes.NONE fs with probes := pr })
    (h2 : p.2 = fs) :
    (∃ pr, (step_lfs_remote p).1 =
      { FetchState.new keys FileAttributes.NONE fs with probes := pr }) ∧
    (step_lfs_remote p).2 = fs := by
  obtain ⟨pr, hp⟩ := h1
  unfold step_lfs_remote
  rw [h2]
  cases fs.lfs_remote with
  | some r =>
    have hlp : (p.1.logProbe Tier.lfsRemoteT).lfs_pointers = [] := by
      rw [hp]; rfl
    refine ⟨⟨pr ++ [Tier.lfsRemoteT], ?_⟩, ?_⟩
    · show ((p.1.logProbe Tier.lfsRemoteT).fetch_lfs_remote r fs.lfs_local fs.lfs_cache).1 = _
      rw [fetch_lfs_remote_empty r fs.lfs_local fs.lfs_cache hlp, hp]
      rfl
    · show ({ fs with
        lfs_local := ((p.1.logProbe Tier.lfsRemoteT).fetch_lfs_remote r
          fs.lfs_local fs.lfs_cache).2.1,
        lfs_cache := ((p.1.logProbe Tier.lfsRemoteT).fetch_lfs_remote r
          fs.lfs_local fs.lfs_cache).2.2 } : FileStore) = fs
      rw [fetch_lfs_remote_empty r fs.lfs_local fs.lfs_cache hlp]
  | none => exact ⟨⟨pr, hp⟩, h2⟩

theorem step_none_derive {fs : FileStore} {keys : List Key} {p : PState}
    (h1 : ∃ pr, p.1 = { FetchState.new keys FileAttributes.NONE fs with probes := pr })
    (h2 : p.2 = fs) :
    (∃ pr, (step_derive p).1 =
      { FetchState.new keys FileAttributes.NONE fs with probes := pr }) ∧
    (step_derive p).2 = fs := by
  obtain ⟨pr, hp⟩ := h1
  unfold step_derive
  refine ⟨⟨pr ++ [Tier.deriveT], ?_⟩, h2⟩
  show (p.1.logProbe Tier.deriveT).derive_computable = _
  rw [derive_computable_empty (by rw [hp]; rfl), hp]
  rfl

theorem ite_ite_cancel {α : Type} (c : Bool) (x : Option α) :
    (if c = true then (if c = true then x else none) else x) = x := by
  cases c <;> simp

theorem step_none_writeback {fs : FileStore} {keys : List Key} {p : PState}
    (h1 : ∃ pr, p.1 = { FetchState.new keys FileAttributes.NONE fs with probes := pr })
    (h2 : p.2 = fs) :
    (∃ pr, (step_writeback p).1 =
      { FetchState.new keys FileAttributes.NONE fs with probes := pr }) ∧
    (step_writeback p).2 = fs := by
  obtain ⟨pr, hp⟩ := h1
  unfold step_writeback
  rw [h2]
  have hw := @write_to_cache_empty (p.1.logProbe Tier.writebackT)
    (if fs.cache_to_local_cache then fs.indexedlog_cache else none)
    (if fs.cache_to_memcache then fs.memcache else none)
    fs.aux_cache fs.aux_local
    (by rw [hp]; rfl) (by rw [hp]; rfl) (by rw [hp]; rfl)
  refine ⟨⟨pr ++ [Tier.writebackT], ?_⟩, ?_⟩
  · show ((p.1.logProbe Tier.writebackT).write_to_cache
      (if fs.cache_to_local_cache then fs.indexedlog_cache else none)
      (if fs.cache_to_memcache then fs.memcache else none)
      fs.aux_cache fs.aux_local).1 = _
    rw [hw, hp]
    rfl
  · show ({ fs with
      indexedlog_cache := if fs.cache_to_local_cache then
        ((p.1.logProbe Tier.writebackT).write_to_cache
          (if fs.cache_to_local_cache then fs.indexedlog_cache else none)
          (if fs.cache_to_memcache then fs.memcache else none)
          fs.aux_cache fs.aux_local).2.1
        else fs.indexedlog_cache,
      memcache := if fs.cache_to_memcache then
        ((p.1.logProbe Tier.writebackT).write_to_cache
          (if fs.cache_to_local_cache then fs.indexedlog_cache else none)
          (if fs.cache_to_memcache then fs.memcache else none)
          fs.aux_cache fs.aux_local).2.2.1
        else fs.memcache,
      aux_cache := ((p.1.logProbe Tier.writebackT).write_to_cache
          (if fs.cache_to_local_cache then fs.indexedlog_cache else none)
          (if fs.cache_to_memcache then fs.memcache else none)
          fs.aux_cache fs.aux_local).2.2.2.1,
      aux_local := ((p.1.logProbe Tier.writebackT).write_to_cache
          (if fs.cache_to_local_cache then fs.indexedlog_cache else none)
          (if fs.cache_to_memcache then fs.memcache else none)
          fs.aux_cache fs.aux_local).2.2.2.2 } : FileStore) = fs
    rw [hw]
    dsimp only
    rw [ite_ite_cancel, ite_ite_cancel]

theorem pipeline_none (fs : FileStore) (keys : List Key) :
    (∃ pr, (Scmstore.fetch_pipeline fs keys FileAttributes.NONE).1 =
      { FetchState.new keys FileAttributes.NONE fs with probes := pr }) ∧
    (Scmstore.fetch_pipeline fs keys FileAttributes.NONE).2 = fs := by
  unfold Scmstore.fetch_pipeline
  have h0 : (∃ pr, (FetchState.new keys FileAttributes.NONE fs, fs).1 =
      { FetchState.new keys FileAttributes.NONE fs with probes := pr }) ∧
      ((FetchState.new keys FileAttributes.NONE fs, fs) : PState).2 = fs := by
    exact ⟨⟨[], rfl⟩, rfl⟩
  have h1 := step_none_aux_cache h0.1 h0.2
  have h2 := step_none_aux_local h1.1 h1.2
  have h3 := step_none_ilog_cache h2.1 h2.2
  have h4 := step_none_ilog_local h3.1 h3.2
  have h5 := step_none_lfs_cache h4.1 h4.2
  have h6 := step_none_lfs_local h5.1 h5.2
  have h7 := step_none_memcache h6.1 h6.2
  have h8 := step_none_edenapi h7.1 h7.2
  have h9 := step_none_lfs_remote h8.1 h8.2
  have h10 := step_none_contentstore h9.1 h9.2
  have h11 := step_none_derive h10.1 h10.2
  exact step_none_writeback h11.1 h11.2

theorem foldl_aerase_nil {α β : Type} [DecidableEq α] (ks : List α) :
    ks.foldl (fun f k => aerase f k) ([] : List (α × β)) = [] := by
  induction ks with
  | nil => rfl
  | cons k rest ih => exact ih

/-- C10: a fetch with the empty attribute mask queries no backend,
returns an empty `complete` map, and reports every requested key in
`incomplete` with an empty error list, whatever the configured tiers
contain. -/
theorem C10_none_request (fs : FileStore) (keys : List Key) :
    (fs.fetch keys FileAttributes.NONE).1.complete = [] ∧
    (∀ k, k ∈ keys →
      alookup (fs.fetch keys FileAttributes.NONE).1.incomplete k = some []) ∧
    (∀ k, (alookup (fs.fetch keys FileAttributes.NONE).1.incomplete k).isSome = true →
      k ∈ keys) ∧
    (fetch_pipeline fs keys FileAttributes.NONE).1.queries = [] := by
  obtain ⟨⟨pr, hp⟩, hfs⟩ := pipeline_none fs keys
  have hres : (fs.fetch keys FileAttributes.NONE).1 =
      (fetch_pipeline fs keys FileAttributes.NONE).1.finish := rfl
  have hinc : ∀ k, alookup (fs.fetch keys FileAttributes.NONE).1.incomplete k =
      if k ∈ keys.dedup then some [] else none := by
    intro k
    rw [hres, hp, finish_incomplete_lookup]
    rw [show ({ FetchState.new keys FileAttributes.NONE fs with
      probes := pr } : FetchState).found = [] from rfl]
    rw [show ({ FetchState.new keys FileAttributes.NONE fs with
      probes := pr } : FetchState).pending = keys.dedup from rfl]
    rw [show ({ FetchState.new keys FileAttributes.NONE fs with
      probes := pr } : FetchState).errors.fetch_errors = [] from rfl]
    rw [foldl_aerase_nil]
    simp [alookup]
  refine ⟨?_, ?_, ?_, ?_⟩
  · rw [hres, hp]
    simp only [FetchState.finish]
    rw [show ({ FetchState.new keys FileAttributes.NONE fs with
      probes := pr } : FetchState).found = [] from rfl]
    rw [show ({ FetchState.new keys FileAttributes.NONE fs with
      probes := pr } : FetchState).pending = keys.dedup from rfl]
    rw [foldl_aerase_nil]
    rfl
  · intro k hk
    rw [hinc k, if_pos (List.mem_dedup.mpr hk)]
  · intro k hk
    rw [hinc k] at hk
    by_cases hm : k ∈ keys.dedup
    · exact List.mem_dedup.mp hm
    · rw [if_neg hm] at hk
      simp at hk
  · rw [hp]
    rfl

end ClaimC10

section ClaimC4

/-- C4: an LFS-flagged indexedlog entry is turned into a pointer via
`found_pointer` with the probing tier's origin under policy `Use`
(leaving `found` and `pending` untouched — the key is not marked
complete), and is ignored entirely under policy `Ignore`. -/
theorem C4_lfs_flagged_indexedlog (st : FetchState) (k : Key) (entry : Entry)
    (typ : LocalStoreType) (hlfs : entry.metadata.is_lfs = true) :
    (st.extstored_policy = .Use →
      ∀ ptr, LfsPointersEntry.from_bytes entry.content entry.key.hgid = .ok ptr →
        st.found_indexedlog k entry typ = st.found_pointer k ptr typ ∧
        (st.found_indexedlog k entry typ).found = st.found ∧
        (st.found_indexedlog k entry typ).pending = st.pending) ∧
    (st.extstored_policy = .Ignore → st.found_indexedlog k entry typ = st) := by
  constructor
  · intro hpol ptr hptr
    unfold FetchState.found_indexedlog
    rw [if_pos hlfs, if_pos hpol, hptr]
    exact ⟨rfl, rfl, rfl⟩
  · intro hpol
    unfold FetchState.found_indexedlog
    rw [if_pos hlfs, if_neg (by simp [hpol])]

/-- Witness for C4 on a concrete LFS-flagged entry under policy `Use`. -/
theorem C4_lfs_flagged_indexedlog_witness :
    ((Entry.new exKey1 [77, 5] { size := none, is_lfs := true }).metadata.is_lfs = true) ∧
    ((lfsEntryState.extstored_policy = .Use →
      ∀ ptr, LfsPointersEntry.from_bytes
          (Entry.new exKey1 [77, 5] { size := none, is_lfs := true }).content
          (Entry.new exKey1 [77, 5] { size := none, is_lfs := true }).key.hgid = .ok ptr →
        lfsEntryState.found_indexedlog exKey1
            (Entry.new exKey1 [77, 5] { size := none, is_lfs := true }) .Cache =
          lfsEntryState.found_pointer exKey1 ptr .Cache ∧
        (lfsEntryState.found_indexedlog exKey1
            (Entry.new exKey1 [77, 5] { size := none, is_lfs := true }) .Cache).found =
          lfsEntryState.found ∧
        (lfsEntryState.found_indexedlog exKey1
            (Entry.new exKey1 [77, 5] { size := none, is_lfs := true }) .Cache).pending =
          lfsEntryState.pending) ∧
    (lfsEntryState.extstored_policy = .Ignore →
      lfsEntryState.found_indexedlog exKey1
          (Entry.new exKey1 [77, 5] { size := none, is_lfs := true }) .Cache =
        lfsEntryState)) :=
  ⟨by decide,
    C4_lfs_flagged_indexedlog lfsEntryState exKey1
      (Entry.new exKey1 [77, 5] { size := none, is_lfs := true }) .Cache (by decide)⟩

end ClaimC4

section ClaimC9

theorem flushStep_ne (acc : List Tier × Option Err) (t : Tier) (fe : Option Err) :
    (flushStep acc t fe).2 ≠ none ↔ fe ≠ none ∨ acc.2 ≠ none := by
  cases fe <;> simp [flushStep]

set_option maxHeartbeats 2000000 in
/-- C9: `FileStore::flush` attempts every configured store in the
fixed source order — indexedlog local, indexedlog cache, LFS local,
LFS cache, aux local, aux cache — even when earlier flushes fail, and
returns an error exactly when at least one configured store's flush
failed. -/
theorem C9_flush_all_attempted (fs : FileStore) :
    (fs.flush).1 = specFlushOrder.filter fs.tierConfigured ∧
    ((fs.flush).2 ≠ none ↔
      ((∃ s, fs.indexedlog_local = some s ∧ s.flushErr ≠ none) ∨
       (∃ s, fs.indexedlog_cache = some s ∧ s.flushErr ≠ none) ∨
       (∃ s, fs.lfs_local = some s ∧ s.flushErr ≠ none) ∨
       (∃ s, fs.lfs_cache = some s ∧ s.flushErr ≠ none) ∨
       (∃ s, fs.aux_local = some s ∧ s.flushErr ≠ none) ∨
       (∃ s, fs.aux_cache = some s ∧ s.flushErr ≠ none))) := by
  rcases fs with ⟨ep, th, c1, c2, il, ll, ic, lc, mc, lr, ea, cs, al, ac⟩
  constructor
  · cases il <;> cases ic <;> cases ll <;> cases lc <;> cases al <;> cases ac <;> rfl
  · cases il <;> cases ic <;> cases ll <;> cases lc <;> cases al <;> cases ac <;>
      (simp only [FileStore.flush, flushStep_ne]; simp; try tauto)

end ClaimC9

section ClaimC3

/-- A pointer hit with its blob present resolves to `pointerAndBlob`. -/
theorem fetch_available_hit (s : LfsStore) (k : Key) (ptr : LfsPointersEntry) (blob : Bytes)
    (hp : alookup s.pointers k.hgid = some ptr)
    (hb : alookup s.blobs ptr.sha = some blob) :
    s.fetch_available (StoreKey.hgid k) =
      .ok (some (LfsStoreEntry.pointerAndBlob ptr blob)) := by
  simp only [LfsStore.fetch_available]
  rw [hp]
  dsimp only
  rw [hb]

/-- C3 counterexample: writing the oversized non-LFS blob `[3, 4]`
(threshold 1) through `write_batch` on `cexC3fs` leaves the local
indexed log untouched (still the empty store); the pointer goes into
the large-file local store, next to the blob.  This falsifies the
claim that the pointer is placed in the local indexed log. -/
theorem C3_write_batch_counterexample :
    cexC3fs.write_batch [(exKey1, [3, 4], Metadata.default)] =
      .ok { cexC3fs with lfs_local := (some
        { pointers := [(11, { sha := 7000046000080, size := 2, hgid := 11 })],
          blobs := [(7000046000080, [3, 4])],
          flushErr := none }) } ∧
    cexC3fs.indexedlog_local = some emptyIndexedLog ∧
    emptyIndexedLog.entries = [] :=
  ⟨rfl, rfl, rfl⟩

/-- C3 amended: an oversized non-LFS entry is written as pointer plus
blob into the large-file local store (pointer keyed by the key's hgid,
blob keyed by the content hash of the stripped bytes), the local
indexed log is untouched, and reading the key back from that store
returns the stripped content; on the concrete instance a subsequent
full `FileStore::fetch` for content returns exactly that blob. -/
theorem C3_large_write_lfs_local (fs : FileStore) (k : Key) (bytes : Bytes)
    (meta : Metadata) (locl : LfsStore) (t : Nat)
    (hmeta : meta.is_lfs = false)
    (hthr : fs.lfs_threshold_bytes = some t)
    (hlen : bytes.length > t)
    (hlfs : fs.lfs_local = some locl) :
    (∃ fs2,
      fs.write_batch [(k, bytes, meta)] = .ok fs2 ∧
      fs2.indexedlog_local = fs.indexedlog_local ∧
      ∃ lfs2, fs2.lfs_local = some lfs2 ∧
        alookup lfs2.pointers k.hgid =
          some { sha := ContentHash.sha256 (strip_metadata bytes),
                 size := (strip_metadata bytes).length, hgid := k.hgid } ∧
        alookup lfs2.blobs (ContentHash.sha256 (strip_metadata bytes)) =
          some (strip_metadata bytes) ∧
        lfs2.fetch_available (StoreKey.hgid k) =
          .ok (some (LfsStoreEntry.pointerAndBlob
            { sha := ContentHash.sha256 (strip_metadata bytes),
              size := (strip_metadata bytes).length, hgid := k.hgid }
            (strip_metadata bytes))) ∧
        (LazyFile.lfs (strip_metadata bytes)
          { sha := ContentHash.sha256 (strip_metadata bytes),
            size := (strip_metadata bytes).length, hgid := k.hgid }).file_content =
          strip_metadata bytes) ∧
    (∃ cfs2, cexC3fs.write_batch [(exKey1, [3, 4], Metadata.default)] = .ok cfs2 ∧
      alookup (cfs2.fetch [exKey1] FileAttributes.CONTENT).1.complete exKey1 =
        some { content := some (LazyFile.lfs [3, 4]
          { sha := 7000046000080, size := 2, hgid := 11 }), aux_data := none }) := by
  constructor
  · have hp : alookup (ainsert locl.pointers k.hgid
        { sha := ContentHash.sha256 (strip_metadata bytes),
          size := (strip_metadata bytes).length, hgid := k.hgid }) k.hgid =
        some { sha := ContentHash.sha256 (strip_metadata bytes),
               size := (strip_metadata bytes).length, hgid := k.hgid } := by
      rw [alookup_ainsert, if_pos rfl]
    have hb : alookup (ainsert locl.blobs (ContentHash.sha256 (strip_metadata bytes))
        (strip_metadata bytes)) (ContentHash.sha256 (strip_metadata bytes)) =
        some (strip_metadata bytes) := by
      rw [alookup_ainsert, if_pos rfl]
    have hw : fs.write_batch [(k, bytes, meta)] = .ok { fs with lfs_local :=
        (some ((locl.add_blob (ContentHash.sha256 (strip_metadata bytes))
          (strip_metadata bytes)).add_pointer
          { sha := ContentHash.sha256 (strip_metadata bytes),
            size := (strip_metadata bytes).length, hgid := k.hgid })) } := by
      unfold FileStore.write_batch
      simp only [write_batch_loop, hmeta, hthr, hlfs, Option.elim, lfs_from_hg_file_blob,
        LfsPointersEntry.sha256]
      rw [if_neg (by simp), if_pos (by simpa using hlen), ← hthr]
    refine ⟨_, hw, rfl, _, rfl, hp, hb, ?_, rfl⟩
    exact fetch_available_hit _ k _ _ hp hb
  · refine ⟨{ cexC3fs with lfs_local := (some
      { pointers := [(11, { sha := 7000046000080, size := 2, hgid := 11 })],
        blobs := [(7000046000080, [3, 4])],
        flushErr := none }) }, rfl, by decide⟩

/-- Witness for the amended C3 at concrete inputs: `cexC3fs` with
threshold 1 and the entry `[3, 4]` for `exKey1`. -/
theorem C3_large_write_lfs_local_witness :
    Metadata.default.is_lfs = false ∧
    cexC3fs.lfs_threshold_bytes = some 1 ∧
    ([3, 4] : Bytes).length > 1 ∧
    cexC3fs.lfs_local = some emptyLfsStore ∧
    ((∃ fs2,
      cexC3fs.write_batch [(exKey1, [3, 4], Metadata.default)] = .ok fs2 ∧
      fs2.indexedlog_local = cexC3fs.indexedlog_local ∧
      ∃ lfs2, fs2.lfs_local = some lfs2 ∧
        alookup lfs2.pointers exKey1.hgid =
          some { sha := ContentHash.sha256 (strip_metadata [3, 4]),
                 size := (strip_metadata [3, 4]).length, hgid := exKey1.hgid } ∧
        alookup lfs2.blobs (ContentHash.sha256 (strip_metadata [3, 4])) =
          some (strip_metadata [3, 4]) ∧
        lfs2.fetch_available (StoreKey.hgid exKey1) =
          .ok (some (LfsStoreEntry.pointerAndBlob
            { sha := ContentHash.sha256 (strip_metadata [3, 4]),
              size := (strip_metadata [3, 4]).length, hgid := exKey1.hgid }
            (strip_metadata [3, 4]))) ∧
        (LazyFile.lfs (strip_metadata [3, 4])
          { sha := ContentHash.sha256 (strip_metadata [3, 4]),
            size := (strip_metadata [3, 4]).length, hgid := exKey1.hgid }).file_content =
          strip_metadata [3, 4]) ∧
    (∃ cfs2, cexC3fs.write_batch [(exKey1, [3, 4], Metadata.default)] = .ok cfs2 ∧
      alookup (cfs2.fetch [exKey1] FileAttributes.CONTENT).1.complete exKey1 =
        some { content := some (LazyFile.lfs [3, 4]
          { sha := 7000046000080, size := 2, hgid := 11 }), aux_data := none })) :=
  ⟨rfl, rfl, by decide, rfl,
    C3_large_write_lfs_local cexC3fs exKey1 [3, 4] Metadata.default emptyLfsStore 1
      rfl rfl (by decide) rfl⟩

end ClaimC3

section ClaimC5

@[simp] theorem keyed_error_computed (st : FetchState) (k : Key) (e : Err) :
    (st.keyed_error k e).computed_aux_data = st.computed_aux_data := rfl

@[simp] theorem keyed_error_key_origin (st : FetchState) (k : Key) (e : Err) :
    (st.keyed_error k e).key_origin = st.key_origin := rfl

@[simp] theorem mark_complete_computed (st : FetchState) (k : Key) :
    (st.mark_complete k).computed_aux_data = st.computed_aux_data := by
  simp only [FetchState.mark_complete]
  split <;> rfl

@[simp] theorem mark_complete_key_origin (st : FetchState) (k : Key) :
    (st.mark_complete k).key_origin = st.key_origin := by
  simp only [FetchState.mark_complete]
  split <;> rfl

theorem filter_aerase_ne {α β : Type} [DecidableEq α] (l : List (α × β)) (x k : α)
    (h : x ≠ k) :
    (aerase l x).filter (fun kv => kv.1 = k) = l.filter (fun kv => kv.1 = k) := by
  induction l with
  | nil => rfl
  | cons p rest ih =>
    rcases p with ⟨a, b⟩
    by_cases hax : a = x
    · subst hax
      have he : aerase ((a, b) :: rest) a = aerase rest a := by
        simp [aerase]
      rw [he, ih, List.filter_cons, if_neg (by simpa using h)]
    · simp only [aerase, if_neg hax]
      rw [List.filter_cons, List.filter_cons]
      by_cases hak : (a, b).1 = k
      · rw [if_pos (by simpa using hak), if_pos (by simpa using hak), ih]
      · rw [if_neg (by simpa using hak), if_neg (by simpa using hak), ih]

theorem filter_aerase_self {α β : Type} [DecidableEq α] (l : List (α × β)) (k : α) :
    (aerase l k).filter (fun kv => kv.1 = k) = [] := by
  induction l with
  | nil => rfl
  | cons p rest ih =>
    rcases p with ⟨a, b⟩
    by_cases hak : a = k
    · simp only [aerase, if_pos hak]
      exact ih
    · simp only [aerase, if_neg hak]
      rw [List.filter_cons, if_neg (by simpa using hak)]
      exact ih

theorem filter_ainsert_self {α β : Type} [DecidableEq α] (l : List (α × β)) (k : α) (b : β) :
    (ainsert l k b).filter (fun kv => kv.1 = k) = [(k, b)] := by
  show ((k, b) :: aerase l k).filter (fun kv => kv.1 = k) = [(k, b)]
  rw [List.filter_cons, if_pos (by simp), filter_aerase_self]

theorem filter_ainsert_ne {α β : Type} [DecidableEq α] (l : List (α × β)) (x k : α) (b : β)
    (h : x ≠ k) :
    (ainsert l x b).filter (fun kv => kv.1 = k) = l.filter (fun kv => kv.1 = k) := by
  show ((x, b) :: aerase l x).filter (fun kv => kv.1 = k) = l.filter (fun kv => kv.1 = k)
  rw [List.filter_cons, if_neg (by simpa using h), filter_aerase_ne l x k h]

theorem not_mem_of_filter_nil {α β : Type} [DecidableEq α] (l : List (α × β)) (k : α)
    (h : l.filter (fun kv => kv.1 = k) = []) : k ∉ l.map Prod.fst := by
  intro hmem
  rcases List.mem_map.mp hmem with ⟨p, hp, hpk⟩
  have hf : p ∈ l.filter (fun kv => kv.1 = k) :=
    List.mem_filter.mpr ⟨hp, by simp [hpk]⟩
  rw [h] at hf
  simp at hf

theorem actionable_aux_content (v : StoreFile) (A : FileAttributes)
    (hact : (v.attrs.with_computable.band (A.sub v.attrs)).aux_data = true) :
    ∃ lz, v.content = some lz ∧ v.aux_data = none ∧ A.aux_data = true := by
  rcases v with ⟨c, a⟩
  rcases A with ⟨Ac, Aa⟩
  cases c <;> cases a <;> cases Ac <;> cases Aa <;>
    simp_all [StoreFile.attrs, FileAttributes.with_computable, FileAttributes.band,
      FileAttributes.sub, FileAttributes.bnot, FileAttributes.bor, FileAttributes.AUX]

theorem deriveGo_cons_noact (st : FetchState) (k : Key) (v : StoreFile)
    (rest acc : List (Key × StoreFile))
    (hact : (v.attrs.with_computable.band (st.request_attrs.sub v.attrs)).aux_data = false) :
    deriveGo st ((k, v) :: rest) acc =
      deriveGo (if v.attrs.has st.request_attrs then st.mark_complete k else st)
        rest ((k, v) :: acc) := by
  simp [deriveGo, hact]

theorem deriveGo_cons_act (st : FetchState) (k : Key) (v : StoreFile) (lz : LazyFile)
    (rest acc : List (Key × StoreFile))
    (hact : (v.attrs.with_computable.band (st.request_attrs.sub v.attrs)).aux_data = true)
    (hc : v.content = some lz) :
    deriveGo st ((k, v) :: rest) acc =
      deriveGo
        (if ({ v with aux_data := some lz.aux_data } : StoreFile).attrs.has st.request_attrs then
          ({ st with computed_aux_data := (ainsert st.computed_aux_data k
              ((alookup st.key_origin k).getD LocalStoreType.Cache)) } : FetchState).mark_complete k
        else
          { st with computed_aux_data := (ainsert st.computed_aux_data k
              ((alookup st.key_origin k).getD LocalStoreType.Cache)) })
        rest ((k, { v with aux_data := some lz.aux_data }) :: acc) := by
  simp [deriveGo, StoreFile.compute_aux_data, hc, hact]

theorem deriveGo_computed_pres (k : Key) (entries : List (Key × StoreFile)) :
    ∀ (st : FetchState) (acc : List (Key × StoreFile)), k ∉ entries.map Prod.fst →
      alookup (deriveGo st entries acc).computed_aux_data k =
        alookup st.computed_aux_data k := by
  induction entries with
  | nil => intro st acc _; rfl
  | cons p rest ih =>
    intro st acc h
    rcases p with ⟨k', v⟩
    simp only [List.map_cons, List.mem_cons, not_or] at h
    obtain ⟨hkk, hrest⟩ := h
    cases hact : (v.attrs.with_computable.band (st.request_attrs.sub v.attrs)).aux_data with
    | false =>
      rw [deriveGo_cons_noact st k' v rest acc hact, ih _ _ hrest]
      split
      · rw [mark_complete_computed]
      · rfl
    | true =>
      obtain ⟨lz, hc, _, _⟩ := actionable_aux_content v st.request_attrs hact
      rw [deriveGo_cons_act st k' v lz rest acc hact hc, ih _ _ hrest]
      have hstep : ∀ l : List (Key × LocalStoreType),
          alookup (ainsert l k' ((alookup st.key_origin k').getD LocalStoreType.Cache)) k =
            alookup l k := by
        intro l
        rw [alookup_ainsert, if_neg hkk]
      split
      · rw [mark_complete_computed]
        exact hstep st.computed_aux_data
      · exact hstep st.computed_aux_data

theorem deriveGo_filter_pres (k : Key) (entries : List (Key × StoreFile)) :
    ∀ (st : FetchState) (acc : List (Key × StoreFile)), k ∉ entries.map Prod.fst →
      (deriveGo st entries acc).computed_aux_data.filter (fun kv => kv.1 = k) =
        st.computed_aux_data.filter (fun kv => kv.1 = k) := by
  induction entries with
  | nil => intro st acc _; rfl
  | cons p rest ih =>
    intro st acc h
    rcases p with ⟨k', v⟩
    simp only [List.map_cons, List.mem_cons, not_or] at h
    obtain ⟨hkk, hrest⟩ := h
    cases hact : (v.attrs.with_computable.band (st.request_attrs.sub v.attrs)).aux_data with
    | false =>
      rw [deriveGo_cons_noact st k' v rest acc hact, ih _ _ hrest]
      split
      · rw [mark_complete_computed]
      · rfl
    | true =>
      obtain ⟨lz, hc, _, _⟩ := actionable_aux_content v st.request_attrs hact
      rw [deriveGo_cons_act st k' v lz rest acc hact hc, ih _ _ hrest]
      have hstep : (ainsert st.computed_aux_data k'
            ((alookup st.key_origin k').getD LocalStoreType.Cache)).filter
            (fun kv => kv.1 = k) =
          st.computed_aux_data.filter (fun kv => kv.1 = k) :=
        filter_ainsert_ne _ _ _ _ (fun hx => hkk hx.symm)
      split
      · rw [mark_complete_computed]
        exact hstep
      · exact hstep

theorem alookup_reverse_cons {α β : Type} [DecidableEq α] (acc : List (α × β)) (k x : α)
    (w : β) (h : ¬k = x) : alookup ((x, w) :: acc).reverse k = alookup acc.reverse k := by
  rw [List.reverse_cons, alookup_append]
  cases alookup acc.reverse k <;> simp [alookup, h]

theorem deriveGo_found_pres (k : Key) (entries : List (Key × StoreFile)) :
    ∀ (st : FetchState) (acc : List (Key × StoreFile)), k ∉ entries.map Prod.fst →
      alookup (deriveGo st entries acc).found k = alookup acc.reverse k := by
  induction entries with
  | nil => intro st acc _; rfl
  | cons p rest ih =>
    intro st acc h
    rcases p with ⟨k', v⟩
    simp only [List.map_cons, List.mem_cons, not_or] at h
    obtain ⟨hkk, hrest⟩ := h
    cases hact : (v.attrs.with_computable.band (st.request_attrs.sub v.attrs)).aux_data with
    | false =>
      rw [deriveGo_cons_noact st k' v rest acc hact, ih _ _ hrest,
        alookup_reverse_cons acc k k' v hkk]
    | true =>
      obtain ⟨lz, hc, _, _⟩ := actionable_aux_content v st.request_attrs hact
      rw [deriveGo_cons_act st k' v lz rest acc hact hc, ih _ _ hrest,
        alookup_reverse_cons acc k k' _ hkk]

theorem deriveGo_spec (k : Key) (entries : List (Key × StoreFile)) :
    ∀ (st : FetchState) (acc : List (Key × StoreFile)) (origin : LocalStoreType),
      (entries.map Prod.fst).Nodup →
      k ∉ acc.map Prod.fst →
      alookup st.computed_aux_data k = none →
      alookup (deriveGo st entries acc).computed_aux_data k = some origin →
      ∃ sf lz,
        alookup entries k = some sf ∧
        sf.content = some lz ∧
        sf.aux_data = none ∧
        st.request_attrs.aux_data = true ∧
        origin = (alookup st.key_origin k).getD LocalStoreType.Cache ∧
        alookup (deriveGo st entries acc).found k =
          some { sf with aux_data := some lz.aux_data } ∧
        (deriveGo st entries acc).computed_aux_data.filter (fun kv => kv.1 = k) =
          [(k, origin)] := by
  induction entries with
  | nil =>
    intro st acc origin _ _ hnone hafter
    have h : alookup st.computed_aux_data k = some origin := hafter
    rw [hnone] at h
    exact absurd h (by simp)
  | cons p rest ih =>
    intro st acc origin hnodup hkacc hnone hafter
    rcases p with ⟨k', v⟩
    simp only [List.map_cons, List.nodup_cons] at hnodup
    obtain ⟨hk'rest, hnodrest⟩ := hnodup
    by_cases hkk : k = k'
    · subst hkk
      cases hact : (v.attrs.with_computable.band (st.request_attrs.sub v.attrs)).aux_data with
      | false =>
        rw [deriveGo_cons_noact st k v rest acc hact,
          deriveGo_computed_pres k rest _ _ hk'rest] at hafter
        have h2 : alookup st.computed_aux_data k = some origin := by
          revert hafter
          split
          · rw [mark_complete_computed]
            exact id
          · exact id
        rw [hnone] at h2
        exact absurd h2 (by simp)
      | true =>
        obtain ⟨lz, hc, ha, hA⟩ := actionable_aux_content v st.request_attrs hact
        rw [deriveGo_cons_act st k v lz rest acc hact hc] at hafter ⊢
        rw [deriveGo_computed_pres k rest _ _ hk'rest] at hafter
        have hco : alookup (ainsert st.computed_aux_data k
            ((alookup st.key_origin k).getD LocalStoreType.Cache)) k = some origin := by
          revert hafter
          split
          · rw [mark_complete_computed]
            exact id
          · exact id
        rw [alookup_ainsert, if_pos rfl] at hco
        have horig : origin = (alookup st.key_origin k).getD LocalStoreType.Cache := by
          injection hco with hh
          exact hh.symm
        refine ⟨v, lz, ?_, hc, ha, hA, horig, ?_, ?_⟩
        · show (if k = k then some v else alookup rest k) = some v
          rw [if_pos rfl]
        · rw [deriveGo_found_pres k rest _ _ hk'rest, List.reverse_cons, alookup_append,
            alookup_not_mem acc.reverse k (by simpa using hkacc)]
          show alookup [(k, { v with aux_data := some lz.aux_data })] k =
            some { v with aux_data := some lz.aux_data }
          simp [alookup]
        · rw [deriveGo_filter_pres k rest _ _ hk'rest]
          have hfin : (ainsert st.computed_aux_data k
              ((alookup st.key_origin k).getD LocalStoreType.Cache)).filter
              (fun kv => kv.1 = k) =
              [(k, (alookup st.key_origin k).getD LocalStoreType.Cache)] :=
            filter_ainsert_self _ _ _
          rw [horig]
          revert hfin
          split
          · rw [mark_complete_computed]
            exact id
          · exact id
    · have hkacc2 : k ∉ ((k', v) :: acc).map Prod.fst := by
        simp only [List.map_cons, List.mem_cons, not_or]
        exact ⟨hkk, hkacc⟩
      cases hact : (v.attrs.with_computable.band (st.request_attrs.sub v.attrs)).aux_data with
      | false =>
        rw [deriveGo_cons_noact st k' v rest acc hact] at hafter ⊢
        have h2c : alookup (if v.attrs.has st.request_attrs then st.mark_complete k'
            else st).computed_aux_data k = none := by
          split
          · rw [mark_complete_computed]
            exact hnone
          · exact hnone
        obtain ⟨sf, lz, hlook, hcont, haux, hreq, horig, hfound, hfil⟩ :=
          ih _ ((k', v) :: acc) origin hnodrest hkacc2 h2c hafter
        have h2r : (if v.attrs.has st.request_attrs then st.mark_complete k'
            else st).request_attrs = st.request_attrs := by
          split
          · rw [mark_complete_request]
          · rfl
        have h2o : (if v.attrs.has st.request_attrs then st.mark_complete k'
            else st).key_origin = st.key_origin := by
          split
          · rw [mark_complete_key_origin]
          · rfl
        rw [h2r] at hreq
        rw [h2o] at horig
        refine ⟨sf, lz, ?_, hcont, haux, hreq, horig, hfound, hfil⟩
        show (if k = k' then some v else alookup rest k) = some sf
        rw [if_neg hkk]
        exact hlook
      | true =>
        obtain ⟨lz, hc, _, _⟩ := actionable_aux_content v st.request_attrs hact
        rw [deriveGo_cons_act st k' v lz rest acc hact hc] at hafter ⊢
        have h2c : alookup (if ({ v with aux_data := some lz.aux_data } : StoreFile).attrs.has
              st.request_attrs then
            ({ st with computed_aux_data := (ainsert st.computed_aux_data k'
                ((alookup st.key_origin k').getD LocalStoreType.Cache)) }
              : FetchState).mark_complete k'
          else
            { st with computed_aux_data := (ainsert st.computed_aux_data k'
                ((alookup st.key_origin k').getD LocalStoreType.Cache)) }).computed_aux_data
            k = none := by
          split
          · rw [mark_complete_computed]
            show alookup (ainsert st.computed_aux_data k'
              ((alookup st.key_origin k').getD LocalStoreType.Cache)) k = none
            rw [alookup_ainsert, if_neg hkk]
            exact hnone
          · show alookup (ainsert st.computed_aux_data k'
              ((alookup st.key_origin k').getD LocalStoreType.Cache)) k = none
            rw [alookup_ainsert, if_neg hkk]
            exact hnone
        obtain ⟨sf, lz2, hlook, hcont, haux, hreq, horig, hfound, hfil⟩ :=
          ih _ ((k', { v with aux_data := some lz.aux_data }) :: acc) origin hnodrest
            hkacc2 h2c hafter
        have h2r : (if ({ v with aux_data := some lz.aux_data } : StoreFile).attrs.has
              st.request_attrs then
            ({ st with computed_aux_data := (ainsert st.computed_aux_data k'
                ((alookup st.key_origin k').getD LocalStoreType.Cache)) }
              : FetchState).mark_complete k'
          else
            { st with computed_aux_data := (ainsert st.computed_aux_data k'
                ((alookup st.key_origin k').getD LocalStoreType.Cache)) }).request_attrs =
            st.request_attrs := by
          split
          · rw [mark_complete_request]
          · rfl
        have h2o : (if ({ v with aux_data := some lz.aux_data } : StoreFile).attrs.has
              st.request_attrs then
            ({ st with computed_aux_data := (ainsert st.computed_aux_data k'
                ((alookup st.key_origin k').getD LocalStoreType.Cache)) }
              : FetchState).mark_complete k'
          else
            { st with computed_aux_data := (ainsert st.computed_aux_data k'
                ((alookup st.key_origin k').getD LocalStoreType.Cache)) }).key_origin =
            st.key_origin := by
          split
          · rw [mark_complete_key_origin]
          · rfl
        rw [h2r] at hreq
        rw [h2o] at horig
        have horig2 : origin = (alookup st.key_origin k).getD LocalStoreType.Cache := horig
        refine ⟨sf, lz2, ?_, hcont, haux, hreq, horig2, hfound, hfil⟩
        show (if k = k' then some v else alookup rest k) = some sf
        rw [if_neg hkk]
        exact hlook

theorem writebackComputed_cons_none (found : List (Key × StoreFile)) (k2 : Key)
    (o : LocalStoreType) (rest : List (Key × LocalStoreType)) (sc sl : Option IndexedLog)
    (h : (alookup found k2).bind (fun sf => sf.aux_data) = none) :
    writebackComputed found ((k2, o) :: rest) sc sl = writebackComputed found rest sc sl := by
  simp [writebackComputed, h]

theorem writebackComputed_cons_cache (found : List (Key × StoreFile)) (k2 : Key)
    (rest : List (Key × LocalStoreType)) (sc sl : Option IndexedLog) (aux : FileAuxData)
    (h : (alookup found k2).bind (fun sf => sf.aux_data) = some aux) :
    writebackComputed found ((k2, LocalStoreType.Cache) :: rest) sc sl =
      writebackComputed found rest
        (sc.map (fun s : IndexedLog =>
          s.put_entry (Entry.new k2 (serializeAux aux) Metadata.default))) sl := by
  simp [writebackComputed, h]

theorem writebackComputed_cons_local (found : List (Key × StoreFile)) (k2 : Key)
    (rest : List (Key × LocalStoreType)) (sc sl : Option IndexedLog) (aux : FileAuxData)
    (h : (alookup found k2).bind (fun sf => sf.aux_data) = some aux) :
    writebackComputed found ((k2, LocalStoreType.Local) :: rest) sc sl =
      writebackComputed found rest sc
        (sl.map (fun s : IndexedLog =>
          s.put_entry (Entry.new k2 (serializeAux aux) Metadata.default))) := by
  simp [writebackComputed, h]

theorem writebackComputed_pres (found : List (Key × StoreFile)) (k : Key) :
    ∀ (computed : List (Key × LocalStoreType)) (sc sl : IndexedLog),
      k ∉ computed.map Prod.fst →
      ∃ sc2 sl2,
        writebackComputed found computed (some sc) (some sl) = (some sc2, some sl2) ∧
        alookup sc2.entries k = alookup sc.entries k ∧
        alookup sl2.entries k = alookup sl.entries k := by
  intro computed
  induction computed with
  | nil =>
    intro sc sl _
    exact ⟨sc, sl, rfl, rfl, rfl⟩
  | cons p rest ih =>
    intro sc sl hk
    rcases p with ⟨k2, o⟩
    simp only [List.map_cons, List.mem_cons, not_or] at hk
    obtain ⟨hk2, hkrest⟩ := hk
    cases hfa : (alookup found k2).bind (fun sf => sf.aux_data) with
    | none =>
      rw [writebackComputed_cons_none found k2 o rest _ _ hfa]
      exact ih sc sl hkrest
    | some aux =>
      cases o with
      | Cache =>
        rw [writebackComputed_cons_cache found k2 rest _ _ aux hfa]
        obtain ⟨sc2, sl2, heq, hsc, hsl⟩ :=
          ih (sc.put_entry (Entry.new k2 (serializeAux aux) Metadata.default)) sl hkrest
        refine ⟨sc2, sl2, heq, ?_, hsl⟩
        rw [hsc]
        show alookup (ainsert sc.entries k2 (Entry.new k2 (serializeAux aux)
          Metadata.default)) k = alookup sc.entries k
        rw [alookup_ainsert, if_neg hk2]
      | Local =>
        rw [writebackComputed_cons_local found k2 rest _ _ aux hfa]
        obtain ⟨sc2, sl2, heq, hsc, hsl⟩ :=
          ih sc (sl.put_entry (Entry.new k2 (serializeAux aux) Metadata.default)) hkrest
        refine ⟨sc2, sl2, heq, hsc, ?_⟩
        rw [hsl]
        show alookup (ainsert sl.entries k2 (Entry.new k2 (serializeAux aux)
          Metadata.default)) k = alookup sl.entries k
        rw [alookup_ainsert, if_neg hk2]

theorem writebackComputed_at (found : List (Key × StoreFile)) (k : Key)
    (origin : LocalStoreType) (aux : FileAuxData)
    (hfa : (alookup found k).bind (fun sf => sf.aux_data) = some aux) :
    ∀ (computed : List (Key × LocalStoreType)) (sc sl : IndexedLog),
      computed.filter (fun kv => kv.1 = k) = [(k, origin)] →
      ∃ sc2 sl2,
        writebackComputed found computed (some sc) (some sl) = (some sc2, some sl2) ∧
        (origin = LocalStoreType.Local →
          alookup sl2.entries k = some (Entry.new k (serializeAux aux) Metadata.default) ∧
          alookup sc2.entries k = alookup sc.entries k) ∧
        (origin = LocalStoreType.Cache →
          alookup sc2.entries k = some (Entry.new k (serializeAux aux) Metadata.default) ∧
          alookup sl2.entries k = alookup sl.entries k) := by
  intro computed
  induction computed with
  | nil =>
    intro sc sl hfil
    simp at hfil
  | cons p rest ih =>
    intro sc sl hfil
    rcases p with ⟨k2, o⟩
    by_cases hk2 : k2 = k
    · subst k2
      rw [List.filter_cons, if_pos (by simp)] at hfil
      injection hfil with h1 h2
      injection h1 with h1a h1b
      subst h1b
      have hnr : k ∉ rest.map Prod.fst := not_mem_of_filter_nil rest k h2
      cases o with
      | Local =>
        rw [writebackComputed_cons_local found k rest _ _ aux hfa]
        obtain ⟨sc2, sl2, heq, hsc, hsl⟩ := writebackComputed_pres found k rest sc
          (sl.put_entry (Entry.new k (serializeAux aux) Metadata.default)) hnr
        refine ⟨sc2, sl2, heq, ?_, ?_⟩
        · intro _
          refine ⟨?_, hsc⟩
          rw [hsl]
          show alookup (ainsert sl.entries k (Entry.new k (serializeAux aux)
            Metadata.default)) k = _
          rw [alookup_ainsert, if_pos rfl]
        · intro hco
          exact absurd hco (by decide)
      | Cache =>
        rw [writebackComputed_cons_cache found k rest _ _ aux hfa]
        obtain ⟨sc2, sl2, heq, hsc, hsl⟩ := writebackComputed_pres found k rest
          (sc.put_entry (Entry.new k (serializeAux aux) Metadata.default)) sl hnr
        refine ⟨sc2, sl2, heq, ?_, ?_⟩
        · intro hco
          exact absurd hco (by decide)
        · intro _
          refine ⟨?_, hsl⟩
          rw [hsc]
          show alookup (ainsert sc.entries k (Entry.new k (serializeAux aux)
            Metadata.default)) k = _
          rw [alookup_ainsert, if_pos rfl]
    · rw [List.filter_cons, if_neg (by simpa using hk2)] at hfil
      cases hfa2 : (alookup found k2).bind (fun sf => sf.aux_data) with
      | none =>
        rw [writebackComputed_cons_none found k2 o rest _ _ hfa2]
        exact ih sc sl hfil
      | some aux2 =>
        have hk2n : ¬k = k2 := fun hh => hk2 hh.symm
        cases o with
        | Cache =>
          rw [writebackComputed_cons_cache found k2 rest _ _ aux2 hfa2]
          obtain ⟨sc2, sl2, heq, hL, hC⟩ :=
            ih (sc.put_entry (Entry.new k2 (serializeAux aux2) Metadata.default)) sl hfil
          refine ⟨sc2, sl2, heq, ?_, fun h => hC h⟩
          intro h
          obtain ⟨h1, h2⟩ := hL h
          refine ⟨h1, ?_⟩
          rw [h2]
          show alookup (ainsert sc.entries k2 (Entry.new k2 (serializeAux aux2)
            Metadata.default)) k = _
          rw [alookup_ainsert, if_neg hk2n]
        | Local =>
          rw [writebackComputed_cons_local found k2 rest _ _ aux2 hfa2]
          obtain ⟨sc2, sl2, heq, hL, hC⟩ :=
            ih sc (sl.put_entry (Entry.new k2 (serializeAux aux2) Metadata.default)) hfil
          refine ⟨sc2, sl2, heq, fun h => hL h, ?_⟩
          intro h
          obtain ⟨h1, h2⟩ := hC h
          refine ⟨h1, ?_⟩
          rw [h2]
          show alookup (ainsert sl.entries k2 (Entry.new k2 (serializeAux aux2)
            Metadata.default)) k = _
          rw [alookup_ainsert, if_neg hk2n]

/-- C5: for every key whose aux data is produced by the derivation pass
(absent from `computed_aux_data` before `derive_computable`, present
after), the key had content but no aux data among its found attributes;
the derived aux data's `content_sha256` equals the sha256 of the key's
file content (for LFS payloads given a well-formed pointer); the
recorded origin is the key's `key_origin` (defaulting to `Cache`); and
writeback writes the serialized aux entry to exactly the aux store
matching that origin, leaving the other aux store unchanged at the
key. -/
theorem C5_derived_aux (st : FetchState) (k : Key) (origin : LocalStoreType)
    (sc sl : IndexedLog) (ilogC : Option IndexedLog) (mem : Option MemcacheStore)
    (hcomp : st.compute_aux_data = true)
    (hnodup : (st.found.map Prod.fst).Nodup)
    (hwf : ∀ blob ptr sf, alookup st.found k = some sf →
      sf.content = some (LazyFile.lfs blob ptr) → ptr.sha = ContentHash.sha256 blob)
    (hnone : alookup st.computed_aux_data k = none)
    (hafter : alookup st.derive_computable.computed_aux_data k = some origin) :
    ∃ sf lz,
      alookup st.found k = some sf ∧
      sf.content = some lz ∧
      sf.aux_data = none ∧
      alookup st.derive_computable.found k =
        some { sf with aux_data := some lz.aux_data } ∧
      lz.aux_data.content_sha256 = ContentHash.sha256 lz.file_content ∧
      origin = (alookup st.key_origin k).getD LocalStoreType.Cache ∧
      ∃ sc2 sl2,
        (st.derive_computable.write_to_cache ilogC mem (some sc) (some sl)).2.2.2.1 =
          some sc2 ∧
        (st.derive_computable.write_to_cache ilogC mem (some sc) (some sl)).2.2.2.2 =
          some sl2 ∧
        (origin = LocalStoreType.Local →
          alookup sl2.entries k =
            some (Entry.new k (serializeAux lz.aux_data) Metadata.default) ∧
          alookup sc2.entries k = alookup sc.entries k) ∧
        (origin = LocalStoreType.Cache →
          alookup sc2.entries k =
            some (Entry.new k (serializeAux lz.aux_data) Metadata.default) ∧
          alookup sl2.entries k = alookup sl.entries k) := by
  have hD : st.derive_computable = deriveGo st st.found [] := by
    unfold FetchState.derive_computable
    rw [if_pos hcomp]
  rw [hD] at hafter ⊢
  obtain ⟨sf, lz, hlook, hcont, haux, _, horig, hfound, hfil⟩ :=
    deriveGo_spec k st.found st [] origin hnodup (by simp) hnone hafter
  have hsha : lz.aux_data.content_sha256 = ContentHash.sha256 lz.file_content := by
    cases lz with
    | contentStore b m => rfl
    | indexedLog e => rfl
    | lfs blob ptr => exact hwf blob ptr sf hlook hcont
    | edenApi e => rfl
    | memcache e => rfl
  refine ⟨sf, lz, hlook, hcont, haux, hfound, hsha, horig, ?_⟩
  have hfa : (alookup (deriveGo st st.found []).found k).bind (fun x => x.aux_data) =
      some lz.aux_data := by
    rw [hfound]
    rfl
  obtain ⟨sc2, sl2, heq, hL, hC⟩ :=
    writebackComputed_at (deriveGo st st.found []).found k origin lz.aux_data hfa
      (deriveGo st st.found []).computed_aux_data sc sl hfil
  refine ⟨sc2, sl2, ?_, ?_, hL, hC⟩
  · show (writebackComputed (deriveGo st st.found []).found
      (deriveGo st st.found []).computed_aux_data (some sc) (some sl)).1 = some sc2
    rw [heq]
  · show (writebackComputed (deriveGo st st.found []).found
      (deriveGo st st.found []).computed_aux_data (some sc) (some sl)).2 = some sl2
    rw [heq]

/-- Witness for C5 at `preDeriveState`: content `[5, 6]` found locally
for `exKey1`, aux derived and written back to the aux-local store
only. -/
theorem C5_derived_aux_witness :
    preDeriveState.compute_aux_data = true ∧
    (preDeriveState.found.map Prod.fst).Nodup ∧
    alookup preDeriveState.computed_aux_data exKey1 = none ∧
    alookup preDeriveState.derive_computable.computed_aux_data exKey1 =
      some LocalStoreType.Local ∧
    (∃ sf lz,
      alookup preDeriveState.found exKey1 = some sf ∧
      sf.content = some lz ∧
      sf.aux_data = none ∧
      alookup preDeriveState.derive_computable.found exKey1 =
        some { sf with aux_data := some lz.aux_data } ∧
      lz.aux_data.content_sha256 = ContentHash.sha256 lz.file_content ∧
      LocalStoreType.Local =
        (alookup preDeriveState.key_origin exKey1).getD LocalStoreType.Cache ∧
      ∃ sc2 sl2,
        (preDeriveState.derive_computable.write_to_cache none none
          (some emptyIndexedLog) (some emptyIndexedLog)).2.2.2.1 = some sc2 ∧
        (preDeriveState.derive_computable.write_to_cache none none
          (some emptyIndexedLog) (some emptyIndexedLog)).2.2.2.2 = some sl2 ∧
        (LocalStoreType.Local = LocalStoreType.Local →
          alookup sl2.entries exKey1 =
            some (Entry.new exKey1 (serializeAux lz.aux_data) Metadata.default) ∧
          alookup sc2.entries exKey1 = alookup emptyIndexedLog.entries exKey1) ∧
        (LocalStoreType.Local = LocalStoreType.Cache →
          alookup sc2.entries exKey1 =
            some (Entry.new exKey1 (serializeAux lz.aux_data) Metadata.default) ∧
          alookup sl2.entries exKey1 = alookup emptyIndexedLog.entries exKey1)) :=
  ⟨rfl, by decide, rfl, by decide,
    C5_derived_aux preDeriveState exKey1 LocalStoreType.Local emptyIndexedLog
      emptyIndexedLog none none rfl (by decide)
      (fun blob ptr sf h1 h2 => by
        have h1x : some ({ content := some (LazyFile.indexedLog (Entry.new exKey1 [5, 6] Metadata.default)), aux_data := none } : StoreFile) = some sf := h1
        injection h1x with h1e
        rw [← h1e] at h2
        simp at h2)
      rfl (by decide)⟩

end ClaimC5

section ClaimC7

theorem C7_found_pointer_presence (st : FetchState) (k : Key) (ptr : LfsPointersEntry)
    (typ : LocalStoreType) (h : PtrPresenceInv st) :
    PtrPresenceInv (st.found_pointer k ptr typ) := by
  intro k' ptr' hl
  unfold FetchState.found_pointer at hl ⊢
  rw [alookup_ainsert] at hl
  by_cases hkk : k' = k
  · rw [if_pos hkk] at hl
    cases hl
    cases typ with
    | Cache =>
      show (alookup (ainsert st.pointer_origin ptr.sha256 LocalStoreType.Cache)
        ptr.sha256).isSome = true
      rw [alookup_ainsert]
      simp
    | Local =>
      show (alookup (aorinsert st.pointer_origin ptr.sha256 LocalStoreType.Local)
        ptr.sha256).isSome = true
      rw [alookup_aorinsert_self]
      rfl
  · rw [if_neg hkk] at hl
    have hold := h k' ptr' hl
    cases typ with
    | Cache =>
      show (alookup (ainsert st.pointer_origin ptr.sha256 LocalStoreType.Cache)
        ptr'.sha256).isSome = true
      rw [alookup_ainsert]
      by_cases hs : ptr'.sha256 = ptr.sha256
      · rw [if_pos hs]
        rfl
      · rw [if_neg hs]
        exact hold
    | Local =>
      show (alookup (aorinsert st.pointer_origin ptr.sha256 LocalStoreType.Local)
        ptr'.sha256).isSome = true
      by_cases hs : ptr'.sha256 = ptr.sha256
      · rw [hs, alookup_aorinsert_self]
        rfl
      · rw [alookup_aorinsert_ne _ _ _ _ hs]
        exact hold

theorem C7_mark_complete_presence (st : FetchState) (k : Key)
    (h : PtrPresenceInv st) (hinj : ShaInjective st) :
    PtrPresenceInv (st.mark_complete k) := by
  intro k' ptr' hl
  simp only [FetchState.mark_complete] at hl ⊢
  cases hlp : alookup st.lfs_pointers k with
  | none =>
    rw [hlp] at hl
    exact h k' ptr' hl
  | some ptr =>
    rw [hlp] at hl
    have hl2 : alookup (aerase st.lfs_pointers k) k' = some ptr' := hl
    rw [alookup_aerase] at hl2
    by_cases hkk : k' = k
    · rw [if_pos hkk] at hl2
      simp at hl2
    · rw [if_neg hkk] at hl2
      show (alookup (aerase st.pointer_origin ptr.sha256) ptr'.sha256).isSome = true
      rw [alookup_aerase]
      by_cases hs : ptr'.sha256 = ptr.sha256
      · exact absurd (hinj k' k ptr' ptr hl2 hlp hs) hkk
      · rw [if_neg hs]
        exact h k' ptr' hl2

theorem C7_raise_aux (sha : Nat) :
    ∀ (calls : List (Key × LfsPointersEntry × LocalStoreType)) (st : FetchState)
      (o : LocalStoreType), (∀ c ∈ calls, c.2.1.sha256 = sha) →
      alookup st.pointer_origin sha = some o →
      alookup (applyFoundPointers st calls).pointer_origin sha =
        some (if calls.any (fun c => c.2.2 = LocalStoreType.Cache) then .Cache else o) := by
  intro calls
  induction calls with
  | nil =>
    intro st o _ ho
    simpa [applyFoundPointers] using ho
  | cons c rest ih =>
    intro st o hsha ho
    rcases c with ⟨k, ptr, typ⟩
    have hs : ptr.sha256 = sha := hsha _ (List.mem_cons_self _ _)
    have hrest : ∀ c ∈ rest, c.2.1.sha256 = sha :=
      fun c hc => hsha c (List.mem_cons_of_mem _ hc)
    show alookup (applyFoundPointers (st.found_pointer k ptr typ) rest).pointer_origin sha = _
    cases typ with
    | Cache =>
      have ho' : alookup (st.found_pointer k ptr .Cache).pointer_origin sha =
          some LocalStoreType.Cache := by
        unfold FetchState.found_pointer
        show alookup (ainsert st.pointer_origin ptr.sha256 LocalStoreType.Cache) sha = _
        rw [hs, alookup_ainsert, if_pos rfl]
      rw [ih _ _ hrest ho']
      simp
    | Local =>
      have ho' : alookup (st.found_pointer k ptr .Local).pointer_origin sha = some o := by
        unfold FetchState.found_pointer
        show alookup (aorinsert st.pointer_origin ptr.sha256 LocalStoreType.Local) sha = _
        rw [hs, alookup_aorinsert_self, ho]
        rfl
      rw [ih _ _ hrest ho']
      have hred : (((k, ptr, LocalStoreType.Local) :: rest).any
          (fun c => decide (c.2.2 = LocalStoreType.Cache))) =
          rest.any (fun c => decide (c.2.2 = LocalStoreType.Cache)) := Bool.false_or _
      rw [hred]

/-- C7 counterexample: during a fetch from `sharedHashFS` (two keys
sharing LFS content hash 77), right after the LFS-cache probe the key
`exKey2` still has a pointer with hash 77 in `lfs_pointers` while
`pointer_origin` no longer has an entry for 77 — marking `exKey1`
complete removed the shared origin.  This falsifies the claim that
throughout a fetch every hash in `lfs_pointers` has an origin. -/
theorem C7_pointer_origin_counterexample :
    (∃ ptr, alookup sharedHashMidState.1.lfs_pointers exKey2 = some ptr ∧
      ptr.sha256 = 77) ∧
    alookup sharedHashMidState.1.pointer_origin 77 = none := by
  constructor
  · exact ⟨{ sha := 77, size := 5, hgid := 22 }, by decide, by decide⟩
  · decide

/-- C7 amended: `found_pointer` always preserves the presence
invariant and `mark_complete` preserves it provided pointers of
distinct keys have distinct content hashes (sharing a hash breaks it,
as the counterexample shows); and over any nonempty sequence of
`found_pointer` calls on one content hash starting with no recorded
origin, the final origin is `Cache` if any call carried `Cache` and
`Local` otherwise. -/
theorem C7_pointer_origin_amended :
    (∀ (st : FetchState) (k : Key) (ptr : LfsPointersEntry) (typ : LocalStoreType),
      PtrPresenceInv st → PtrPresenceInv (st.found_pointer k ptr typ)) ∧
    (∀ (st : FetchState) (k : Key),
      PtrPresenceInv st → ShaInjective st → PtrPresenceInv (st.mark_complete k)) ∧
    (∀ (st : FetchState) (sha : Nat)
      (calls : List (Key × LfsPointersEntry × LocalStoreType)),
      calls ≠ [] → (∀ c ∈ calls, c.2.1.sha256 = sha) →
      alookup st.pointer_origin sha = none →
      alookup (applyFoundPointers st calls).pointer_origin sha =
        some (if calls.any (fun c => c.2.2 = LocalStoreType.Cache) then .Cache else .Local)) := by
  refine ⟨C7_found_pointer_presence, C7_mark_complete_presence, ?_⟩
  intro st sha calls hne hsha ho
  cases calls with
  | nil => exact absurd rfl hne
  | cons c rest =>
    rcases c with ⟨k, ptr, typ⟩
    have hs : ptr.sha256 = sha := hsha _ (List.mem_cons_self _ _)
    have hrest : ∀ c ∈ rest, c.2.1.sha256 = sha :=
      fun c hc => hsha c (List.mem_cons_of_mem _ hc)
    show alookup (applyFoundPointers (st.found_pointer k ptr typ) rest).pointer_origin sha = _
    cases typ with
    | Cache =>
      have ho' : alookup (st.found_pointer k ptr .Cache).pointer_origin sha =
          some LocalStoreType.Cache := by
        unfold FetchState.found_pointer
        show alookup (ainsert st.pointer_origin ptr.sha256 LocalStoreType.Cache) sha = _
        rw [hs, alookup_ainsert, if_pos rfl]
      rw [C7_raise_aux sha rest _ _ hrest ho']
      simp
    | Local =>
      have ho' : alookup (st.found_pointer k ptr .Local).pointer_origin sha =
          some LocalStoreType.Local := by
        unfold FetchState.found_pointer
        show alookup (aorinsert st.pointer_origin ptr.sha256 LocalStoreType.Local) sha = _
        rw [hs, alookup_aorinsert_self, ho]
        rfl
      rw [C7_raise_aux sha rest _ _ hrest ho']
      have hred : (((k, ptr, LocalStoreType.Local) :: rest).any
          (fun c => decide (c.2.2 = LocalStoreType.Cache))) =
          rest.any (fun c => decide (c.2.2 = LocalStoreType.Cache)) := Bool.false_or _
      rw [hred]

/-- Witness for the amended C7 at concrete inputs: a `Local` then a
`Cache` discovery of hash 77 ends with origin `Cache`. -/
theorem C7_pointer_origin_amended_witness :
    alookup lfsEntryState.pointer_origin 77 = none ∧
    alookup (applyFoundPointers lfsEntryState
      [(exKey1, { sha := 77, size := 1, hgid := 11 }, LocalStoreType.Local),
       (exKey2, { sha := 77, size := 2, hgid := 22 }, LocalStoreType.Cache)]).pointer_origin
      77 = some LocalStoreType.Cache :=
  ⟨by decide,
    C7_pointer_origin_amended.2.2 lfsEntryState 77
      [(exKey1, { sha := 77, size := 1, hgid := 11 }, LocalStoreType.Local),
       (exKey2, { sha := 77, size := 2, hgid := 22 }, LocalStoreType.Cache)]
      (by decide) (by decide) (by decide)⟩

end ClaimC7

namespace RdvClaims

/-- C8: when the controller disables batching or the request alone
meets the early-dispatch threshold, dispatch calls the backend
immediately with exactly this request's keys and returns the
projection onto them (absent keys become `none`); the batched path
applies the same per-caller projection to the shared result. -/
theorem C8_dispatch_immediate {K V : Type} [DecidableEq K] (c : Rdv.Controller)
    (keys : List K) (backend : List K → Except Scmstore.Err (List (K × V)))
    (shared : Except Scmstore.Err (List (K × V))) (m : List (K × V))
    (hcond : c.should_batch = false ∨ c.early_dispatch_threshold ≤ keys.length)
    (hok : backend keys = .ok m) :
    Rdv.dispatch c keys backend shared = .ok (Rdv.project keys m) ∧
    (Rdv.project keys m).map Prod.fst = keys ∧
    (∀ k, k ∈ keys → Scmstore.alookup (Rdv.project keys m) k =
      some (Scmstore.alookup m k)) ∧
    (∀ (ks : List K) (sh : List (K × V)),
      Rdv.dispatch_batched ks (Except.ok sh) = .ok (Rdv.project ks sh) ∧
      (Rdv.project ks sh).map Prod.fst = ks ∧
      ∀ k, k ∈ ks → Scmstore.alookup (Rdv.project ks sh) k =
        some (Scmstore.alookup sh k)) := by
  have hproj_fst : ∀ (ks : List K) (sh : List (K × V)),
      (Rdv.project ks sh).map Prod.fst = ks := by
    intro ks sh
    induction ks with
    | nil => rfl
    | cons a rest ih =>
      show Prod.fst (a, Scmstore.alookup sh a) :: (Rdv.project rest sh).map Prod.fst =
        a :: rest
      rw [ih]
  have hproj_lookup : ∀ (ks : List K) (sh : List (K × V)) (k : K), k ∈ ks →
      Scmstore.alookup (Rdv.project ks sh) k = some (Scmstore.alookup sh k) := by
    intro ks sh k hk
    induction ks with
    | nil => simp at hk
    | cons a rest ih =>
      by_cases hka : k = a
      · subst hka
        simp [Rdv.project, Scmstore.alookup]
      · rcases List.mem_cons.mp hk with h | h
        · exact absurd h hka
        · show Scmstore.alookup ((a, Scmstore.alookup sh a) :: Rdv.project rest sh) k = _
          rw [show Scmstore.alookup ((a, Scmstore.alookup sh a) :: Rdv.project rest sh) k =
            Scmstore.alookup (Rdv.project rest sh) k from by
              simp [Scmstore.alookup, hka]]
          exact ih h
  refine ⟨?_, hproj_fst keys m, fun k hk => hproj_lookup keys m k hk,
    fun ks sh => ⟨by simp [Rdv.dispatch_batched], hproj_fst ks sh,
      fun k hk => hproj_lookup ks sh k hk⟩⟩
  unfold Rdv.dispatch
  rw [if_neg]
  · simp [Rdv.dispatch_not_batched, hok]
  · rcases hcond with hcond | hcond
    · simp [hcond]
    · simp
      intro _
      omega

/-- Witness for C8: batching disabled, one key, backend returning a
singleton map. -/
theorem C8_dispatch_immediate_witness :
    Rdv.dispatch { should_batch := false, early_dispatch_threshold := 5 } [1]
      (fun ks => Except.ok (ks.map (fun k => (k, k + 10)))) (Except.ok []) =
      .ok (Rdv.project [1] [(1, 11)]) ∧
    (Rdv.project ([1] : List Nat) [(1, (11 : Nat))]).map Prod.fst = [1] ∧
    (∀ k, k ∈ ([1] : List Nat) → Scmstore.alookup (Rdv.project [1] [(1, 11)]) k =
      some (Scmstore.alookup [(1, 11)] k)) ∧
    (∀ (ks : List Nat) (sh : List (Nat × Nat)),
      Rdv.dispatch_batched ks (Except.ok sh) = .ok (Rdv.project ks sh) ∧
      (Rdv.project ks sh).map Prod.fst = ks ∧
      ∀ k, k ∈ ks → Scmstore.alookup (Rdv.project ks sh) k =
        some (Scmstore.alookup sh k)) :=
  C8_dispatch_immediate { should_batch := false, early_dispatch_threshold := 5 } [1]
    (fun ks => Except.ok (ks.map (fun k => (k, k + 10)))) (Except.ok []) [(1, 11)]
    (Or.inl rfl) rfl

end RdvClaims

end Scmstore

